import Mathlib

/-!
CuteCalender: recurring events, scoped edit/delete and the to-do selection

A shallow embedding of the parts of `src/database.js`, `src/utils.js` and
`src/app.js` that implement the recurring-event model, together with machine
checked statements about them.

Modelling conventions

* A JavaScript `Date` is its time value: an `Int` number of milliseconds since
  the epoch, `none` standing for an invalid date (NaN).  The built-in calendar
  functions follow the ECMAScript definitions (`Day`, `DayFromYear`,
  `YearFromTime`, `MonthFromTime`, `DateFromTime`, `MakeDay`).
* The host time zone is a fixed offset `tz`, in minutes east of UTC
  (daylight-saving transitions are not modelled).  A date-only string such as
  `"2024-01-01"` is parsed as UTC midnight, while `getFullYear`, `getMonth`,
  `getDate` and the setters work on local time, as the language prescribes.
* Only the date-only ISO form `YYYY-MM-DD`, the form the date inputs of the
  application produce, is recognised by `parseISODate`; every other string is
  treated as an invalid date.  Time values of four-digit years stay far inside
  the range of valid time values, so the range check of the built-in setters
  never fires and is not modelled.
* A missing (`null`) property is `none`.
* The IndexedDB object store is the list `persisted` (in key order) with its
  key generator; the in-memory array `this.events` is the list `events`.
  `addEvent` takes a flag that says whether the storage request succeeds; the
  batch operations are modelled with requests that succeed, so that they fail
  only where the state makes them fail (validation, a key that already
  exists).
-/

namespace CuteCalender

/-! ## ECMAScript calendar arithmetic -/

/-- Milliseconds in a day. -/
def msPerDay : Int := 86400000

/-- Milliseconds in a minute. -/
def msPerMinute : Int := 60000

/-- ECMAScript `DayFromYear`: the day number of 1 January of year `y`. -/
def dayFromYear (y : Int) : Int :=
  365 * (y - 1970) + (y - 1969) / 4 - (y - 1901) / 100 + (y - 1601) / 400

/-- ECMAScript leap-year test (`DaysInYear y = 366`). -/
def inLeapYear (y : Int) : Bool :=
  (y % 4 == 0 && y % 100 != 0) || y % 400 == 0

/-- ECMAScript `DaysInYear`. -/
def daysInYear (y : Int) : Int := if inLeapYear y then 366 else 365

/-- ECMAScript `YearFromTime` on day numbers: the largest year whose first day
is not after day `z`, computed from an estimate corrected by at most one. -/
def yearFromDay (z : Int) : Int :=
  let y0 := 1970 + (400 * z) / 146097
  if z < dayFromYear y0 then y0 - 1
  else if dayFromYear (y0 + 1) ≤ z then y0 + 1 else y0

/-- One for a leap year, zero otherwise. -/
def leapDay (y : Int) : Int := if inLeapYear y then 1 else 0

/-- Number of days of the year that precede month `m` (0 = January), where `l`
is 1 in a leap year and 0 otherwise. -/
def daysBeforeMonth (l m : Int) : Int :=
  if m ≤ 0 then 0
  else if m = 1 then 31
  else if m = 2 then 59 + l
  else if m = 3 then 90 + l
  else if m = 4 then 120 + l
  else if m = 5 then 151 + l
  else if m = 6 then 181 + l
  else if m = 7 then 212 + l
  else if m = 8 then 243 + l
  else if m = 9 then 273 + l
  else if m = 10 then 304 + l
  else 334 + l

/-- ECMAScript `DayWithinYear`. -/
def dayWithinYear (z : Int) : Int := z - dayFromYear (yearFromDay z)

/-- The table of ECMAScript `MonthFromTime`: the month (0 = January) of the
day `d` within a year, `l` being 1 in a leap year and 0 otherwise. -/
def monthOfYearDay (l d : Int) : Int :=
  if d < 31 then 0
  else if d < 59 + l then 1
  else if d < 90 + l then 2
  else if d < 120 + l then 3
  else if d < 151 + l then 4
  else if d < 181 + l then 5
  else if d < 212 + l then 6
  else if d < 243 + l then 7
  else if d < 273 + l then 8
  else if d < 304 + l then 9
  else if d < 334 + l then 10
  else 11

/-- ECMAScript `MonthFromTime` on day numbers (0 = January). -/
def monthFromDay (z : Int) : Int :=
  monthOfYearDay (leapDay (yearFromDay z)) (dayWithinYear z)

/-- ECMAScript `DateFromTime` on day numbers (day of the month, from 1). -/
def dateFromDay (z : Int) : Int :=
  dayWithinYear z - daysBeforeMonth (leapDay (yearFromDay z)) (monthFromDay z) + 1

/-- ECMAScript `MakeDay`: months outside 0..11 carry into the year, and the
day of the month is added without any check, so it may run past the month. -/
def makeDay (year month date : Int) : Int :=
  let ym := year + month / 12
  let mn := month % 12
  dayFromYear ym + daysBeforeMonth (leapDay ym) mn + date - 1

/-- Number of days of month `m` (0 = January) of year `y`. -/
def daysInMonth (y m : Int) : Int := makeDay y (m + 1) 1 - makeDay y m 1

/-! ## The `Date` built-in in a host with a fixed zone offset -/

/-- Local time of the time value `t` in a zone `tz` minutes east of UTC. -/
def localTime (tz t : Int) : Int := t + tz * msPerMinute

/-- Local day number of a time value. -/
def localDay (tz t : Int) : Int := localTime tz t / msPerDay

/-- Local time within the day of a time value. -/
def localTimeInDay (tz t : Int) : Int := localTime tz t % msPerDay

/-- Time value of a local day number and a local time within that day. -/
def fromLocal (tz day timeInDay : Int) : Int :=
  day * msPerDay + timeInDay - tz * msPerMinute

/-- The method `Date.prototype.getFullYear`. -/
def getFullYear (tz t : Int) : Int := yearFromDay (localDay tz t)

/-- The method `Date.prototype.getMonth`. -/
def getMonth (tz t : Int) : Int := monthFromDay (localDay tz t)

/-- The method `Date.prototype.getDate`. -/
def getDate (tz t : Int) : Int := dateFromDay (localDay tz t)

/-- The method `Date.prototype.setDate`. -/
def setDate (tz t dt : Int) : Int :=
  fromLocal tz (makeDay (getFullYear tz t) (getMonth tz t) dt) (localTimeInDay tz t)

/-- The method `Date.prototype.setMonth` with one argument. -/
def setMonth (tz t m : Int) : Int :=
  fromLocal tz (makeDay (getFullYear tz t) m (getDate tz t)) (localTimeInDay tz t)

/-- The method `Date.prototype.setFullYear` with one argument. -/
def setFullYear (tz t y : Int) : Int :=
  fromLocal tz (makeDay y (getMonth tz t) (getDate tz t)) (localTimeInDay tz t)

/-- The method `Date.prototype.setHours(0, 0, 0, 0)`: local midnight. -/
def setHoursZero (tz t : Int) : Int := fromLocal tz (localDay tz t) 0

/-! ## Strings -/

/-- Value of a decimal digit character. -/
def digitVal (c : Char) : Option Int :=
  if '0' ≤ c ∧ c ≤ '9' then some ((c.toNat : Int) - 48) else none

/-- Date-only ISO form `YYYY-MM-DD` of a calendar date that exists, as
year, month (1..12) and day of the month. -/
def parseYMD (s : String) : Option (Int × Int × Int) :=
  match s.data with
  | [y1, y2, y3, y4, '-', m1, m2, '-', d1, d2] =>
    match digitVal y1, digitVal y2, digitVal y3, digitVal y4,
          digitVal m1, digitVal m2, digitVal d1, digitVal d2 with
    | some a, some b, some c, some d, some e, some f, some g, some h =>
      let y := 1000 * a + 100 * b + 10 * c + d
      let m := 10 * e + f
      let dd := 10 * g + h
      if 1 ≤ m ∧ m ≤ 12 ∧ 1 ≤ dd ∧ dd ≤ daysInMonth y (m - 1) then some (y, m, dd) else none
    | _, _, _, _, _, _, _, _ => none
  | _ => none

/-- Time value of `new Date(s)` for a date-only string: UTC midnight of that
date; `none` is the invalid date. -/
def parseISODate (s : String) : Option Int :=
  (parseYMD s).map fun (y, m, d) => makeDay y (m - 1) d * msPerDay

/-- Time value of `new Date(v)` for a date property `v`: `new Date(null)` is
the epoch. -/
def newDate (v : Option String) : Option Int :=
  match v with
  | none => some 0
  | some s => parseISODate s

/-- The expression `String(n).padStart(2, '0')`. -/
def pad2 (n : Int) : String :=
  let s := toString n
  if s.length < 2 then "0" ++ s else s

/-- The function `DateUtils.getLocalDateString` on a time value. -/
def getLocalDateString (tz t : Int) : String :=
  toString (getFullYear tz t) ++ "-" ++ pad2 (getMonth tz t + 1) ++ "-" ++ pad2 (getDate tz t)

/-- UTF-16 code units of a character. -/
def utf16Units (c : Char) : List Nat :=
  if c.toNat < 65536 then [c.toNat]
  else [55296 + (c.toNat - 65536) / 1024, 56320 + (c.toNat - 65536) % 1024]

/-- Lexicographic "less than" on lists of code units. -/
def unitsLt : List Nat → List Nat → Bool
  | [], [] => false
  | [], _ :: _ => true
  | _ :: _, [] => false
  | a :: as, b :: bs => if a < b then true else if b < a then false else unitsLt as bs

/-- The relation `a < b` of two JavaScript strings: code units compared
lexicographically. -/
def jsStrLt (a b : String) : Bool :=
  unitsLt (a.data.flatMap utf16Units) (b.data.flatMap utf16Units)

/-- The test `d >= pivot` where `d` is a date property and `pivot` a date
string.  A `null` date is converted to the number 0 and the pivot to a number;
a date string is not a numeric literal, the comparison then involves NaN and
is false. -/
def dateGe (d : Option String) (pivot : String) : Bool :=
  match d with
  | none => false
  | some s => !jsStrLt s pivot

/-- White space and line terminators removed by `String.prototype.trim`. -/
def jsIsWhitespace (c : Char) : Bool :=
  let n := c.toNat
  n == 9 || n == 10 || n == 11 || n == 12 || n == 13 || n == 32 || n == 160 ||
  n == 5760 || (8192 ≤ n && n ≤ 8202) || n == 8232 || n == 8233 || n == 8239 ||
  n == 8287 || n == 12288 || n == 65279

/-- The test `!title || title.trim() === ''`. -/
def titleBlank (title : Option String) : Bool :=
  match title with
  | none => true
  | some s => s.data.all jsIsWhitespace

/-! ## Event records and the store -/

/-- An event record.  `none` is a property that is missing or `null`;
`completed` absent counts as `false`.  The property `repeatEnd` is read by
`handleRepeatEditConfirm`; no function of the repository writes it. -/
structure Event where
  id : Option Nat := none
  title : Option String := none
  date : Option String := none
  time : Option String := none
  category : Option String := none
  details : Option String := none
  completed : Bool := false
  isScheduled : Option Bool := none
  repeatId : Option Nat := none
  repeatType : Option String := none
  repeatEnd : Option String := none
  isRepeatInstance : Option Bool := none
  originalRepeatId : Option Nat := none
  createdAt : Option String := none
  updatedAt : Option String := none
deriving DecidableEq, Repr

/-- Change notifications passed to `emit`. -/
inductive Notification where
  | eventAdded (event : Event)
  | eventUpdated (id : Nat) (updates : Event)
  | eventDeleted (id : Nat)
  | eventsBatchDeleted (repeatId : Nat) (deletedCount : Nat) (deletedIds : List Nat)
      (fromDate : Option String)
  | repeatEventsCreated (repeatId : Nat) (events : List Event) (repeatType : String)
      (endDate : Option String)
deriving DecidableEq, Repr

/-- Reasons for which a store operation rejects. -/
inductive StoreError where
  | validation
  | notFound
  | constraint
  | storage
deriving DecidableEq, Repr

/-- State of `ScheduleDatabase`: the object store `events` in key order, its
key generator, the value of the setting `lastRepeatId` (`none` when the record
is missing), the cache `this.events` and the notifications emitted so far. -/
structure Store where
  persisted : List Event := []
  keyGen : Nat := 1
  lastRepeatId : Option Nat := some 0
  events : List Event := []
  emitted : List Notification := []
deriving DecidableEq, Repr

/-- Key of a stored record as a number (records of the object store all have
one). -/
def keyOf (e : Event) : Nat := e.id.getD 0

/-- Insertion of a record into the object store, which is kept in key order. -/
def insertByKey (e : Event) : List Event → List Event
  | [] => [e]
  | x :: xs => if keyOf e < keyOf x then e :: x :: xs else x :: insertByKey e xs

/-- The method `ScheduleDatabase.emit`, recorded in the state. -/
def emit (s : Store) (n : Notification) : Store :=
  { s with emitted := s.emitted ++ [n] }

/-- The method `ScheduleDatabase.addEvent`.  `createdAt` and `updatedAt` are the
two clock readings; `requestOk` tells whether the storage request itself
succeeds.  A key that is already in the object store makes `store.add` fail. -/
def addEvent (requestOk : Bool) (createdAt updatedAt : String) (s : Store) (eventData : Event) :
    Except StoreError Event × Store :=
  if titleBlank eventData.title then (.error .validation, s)
  else
    let event := { eventData with createdAt := some createdAt, updatedAt := some updatedAt }
    let key := match event.id with
      | some k => k
      | none => s.keyGen
    if !requestOk then (.error .storage, s)
    else if s.persisted.any (fun e => e.id == some key) then (.error .constraint, s)
    else
      let stored := { event with id := some key }
      (.ok stored,
        emit { s with persisted := insertByKey stored s.persisted
                      keyGen := if s.keyGen ≤ key then key + 1 else s.keyGen
                      events := s.events ++ [stored] }
          (.eventAdded stored))

/-- The records that the cursor loop of `deleteEventsByRepeatId` deletes:
those of the index range `IDBKeyRange.only(repeatId)` that pass the test
`!fromDate || eventData.date >= fromDate`. -/
def inDeleteScope (repeatId : Nat) (fromDate : Option String) (e : Event) : Bool :=
  e.repeatId == some repeatId &&
    (match fromDate with
     | none => true
     | some d => d == "" || dateGe e.date d)

/-- The method `ScheduleDatabase.deleteEventsByRepeatId`: the cursor visits the
stored records whose `repeatId` is the given one, deletes those that pass the
date test, and the cache is then filtered by the collected ids.  The result is
the pair `deletedCount`, `deletedIds`. -/
def deleteEventsByRepeatId (s : Store) (repeatId : Nat) (fromDate : Option String) :
    (Nat × List Nat) × Store :=
  let deleted := s.persisted.filter (inDeleteScope repeatId fromDate)
  let deletedCount := deleted.length
  let deletedIds := deleted.map keyOf
  ((deletedCount, deletedIds),
    emit { s with persisted := s.persisted.filter (fun e => !inDeleteScope repeatId fromDate e)
                  events := s.events.filter (fun e =>
                    match e.id with
                    | some i => !deletedIds.contains i
                    | none => true) }
      (.eventsBatchDeleted repeatId deletedCount deletedIds fromDate))

/-- The method `ScheduleDatabase.getNextRepeatId`. -/
def getNextRepeatId (s : Store) : Nat × Store :=
  let nextId := s.lastRepeatId.getD 0 + 1
  (nextId, { s with lastRepeatId := some nextId })

/-! ## Recurrence expansion -/

/-- The `switch (repeatType)` of `createRepeatEvents`: the next date. -/
def advance (tz : Int) (repeatType : String) (cur : Int) : Int :=
  if repeatType = "daily" then setDate tz cur (getDate tz cur + 1)
  else if repeatType = "weekly" then setDate tz cur (getDate tz cur + 7)
  else if repeatType = "monthly" then setMonth tz cur (getMonth tz cur + 1)
  else if repeatType = "yearly" then setFullYear tz cur (getFullYear tz cur + 1)
  else cur

/-- The `while (currentDate <= end && eventCount < maxEvents)` loop of
`createRepeatEvents`: the values taken by `currentDate` at the passes through
the body; `fuel` is `maxEvents - eventCount`. -/
def repeatLoop (tz : Int) (repeatType : String) (endT : Int) : Nat → Int → List Int
  | 0, _ => []
  | fuel + 1, cur =>
    if cur ≤ endT then cur :: repeatLoop tz repeatType endT fuel (advance tz repeatType cur)
    else []

/-- The constant `maxEvents`. -/
def maxEvents : Nat := 1000

/-- The horizon `end` of `createRepeatEvents`: one year after the current
instant `now` when no end date is given, the parsed end date otherwise. -/
def repeatHorizon (tz now : Int) (endDate : Option String) : Option Int :=
  match endDate with
  | none => some (setFullYear tz now (getFullYear tz now + 1))
  | some d =>
    if d = "" then some (setFullYear tz now (getFullYear tz now + 1)) else parseISODate d

/-- The time values of the instances that `createRepeatEvents` generates. -/
def repeatTimes (tz now : Int) (baseDate : Option String) (repeatType : String)
    (endDate : Option String) : List Int :=
  match newDate baseDate, repeatHorizon tz now endDate with
  | some cur, some endT => repeatLoop tz repeatType endT maxEvents cur
  | _, _ => []

/-- The object literal built in the loop body of `createRepeatEvents`. -/
def repeatInstance (tz : Int) (baseEvent : Event) (repeatId : Nat) (repeatType : String)
    (cur : Int) : Event :=
  { baseEvent with
    id := none
    date := some (getLocalDateString tz cur)
    repeatId := some repeatId
    repeatType := some repeatType
    isRepeatInstance := some true }

/-- The array `events` built by `createRepeatEvents` before insertion. -/
def repeatInstances (tz now : Int) (baseEvent : Event) (repeatType : String)
    (endDate : Option String) (repeatId : Nat) : List Event :=
  (repeatTimes tz now baseEvent.date repeatType endDate).map
    (repeatInstance tz baseEvent repeatId repeatType)

/-- The loop `for (const event of events) await this.addEvent(event)`; the
`k`-th insertion reads the clock as `stamps k`.  The first rejection ends the
loop and leaves the records inserted so far in place. -/
def addAll (stamps : Nat → String × String) : Nat → Store → List Event →
    Except StoreError Unit × Store
  | _, s, [] => (.ok (), s)
  | k, s, e :: es =>
    match addEvent true (stamps k).1 (stamps k).2 s e with
    | (.error err, s1) => (.error err, s1)
    | (.ok _, s1) => addAll stamps (k + 1) s1 es

/-- The method `ScheduleDatabase.createRepeatEvents` in a host of zone `tz` at
the instant `now`; the result is the returned array `events`. -/
def createRepeatEvents (tz now : Int) (stamps : Nat → String × String) (s : Store)
    (baseEvent : Event) (repeatType : String) (endDate : Option String) :
    Except StoreError (List Event) × Store :=
  let (repeatId, s1) := getNextRepeatId s
  let events := repeatInstances tz now baseEvent repeatType endDate repeatId
  match addAll stamps 0 s1 events with
  | (.error err, s2) => (.error err, s2)
  | (.ok _, s2) =>
    (.ok events, emit s2 (.repeatEventsCreated repeatId events repeatType endDate))

/-- The method `ScheduleDatabase.executeImport`: every event is added without
its `id`; an event whose insertion rejects is skipped.  The result is the
array `imported`. -/
def executeImport (stamps : Nat → String × String) : Nat → Store → List Event →
    List Event × Store
  | _, s, [] => ([], s)
  | k, s, e :: es =>
    match addEvent true (stamps k).1 (stamps k).2 s { e with id := none } with
    | (.error _, s1) => executeImport stamps (k + 1) s1 es
    | (.ok stored, s1) =>
      let rest := executeImport stamps (k + 1) s1 es
      (stored :: rest.1, rest.2)

/-! ## Scoped edit of a recurring instance (`src/app.js`) -/

/-- The method `ScheduleApp.handleRepeatEditConfirm` as far as the store is
concerned: `editing` is `this.editingRepeatEvent`, `selected` is
`this.selectedEvent`, `now` the value of `Date.now()`.  Errors are caught by the
handler and only reported to the user. -/
def handleRepeatEditConfirm (tz now : Int) (stamps : Nat → String × String) (s : Store)
    (editScope : String) (editing selected : Event) : Store :=
  if editScope = "single" then
    let newEvent := { editing with
      id := some now.toNat
      repeatId := some 0
      isRepeatInstance := some false
      originalRepeatId := selected.repeatId }
    (addEvent true (stamps 0).1 (stamps 0).2 s newEvent).2
  else
    match selected.repeatId with
    | none => s
    | some r =>
      let s1 := (deleteEventsByRepeatId s r selected.date).2
      let newRepeatEvent := { editing with
        repeatId := some now.toNat
        date := selected.date }
      let repeatType := match selected.repeatType with
        | none => "weekly"
        | some t => if t = "" then "weekly" else t
      let repeatEnd := match editing.repeatEnd with
        | none => none
        | some d => if d = "" then none else some d
      (createRepeatEvents tz now stamps s1 newRepeatEvent repeatType repeatEnd).2

/-! ## Representative instances of the to-do list (`renderTodoList`) -/

/-- The test `event.repeatId > 0`. -/
def isRepeat (e : Event) : Bool :=
  match e.repeatId with
  | some r => 0 < r
  | none => false

/-- The value `Math.abs(new Date(e.date) - today)`; `none` is NaN. -/
def dateDiff (today : Int) (e : Event) : Option Int :=
  (newDate e.date).map fun t => |t - today|

/-- The comparator `(a, b) => diffA - diffB` says that `a` need not come after
`b`; a NaN result counts as 0, as `Array.prototype.sort` prescribes. -/
def nearer (today : Int) (a b : Event) : Prop :=
  match dateDiff today a, dateDiff today b with
  | some x, some y => x ≤ y
  | _, _ => True

instance (today : Int) : DecidableRel (nearer today) := fun a b => by
  unfold nearer; cases dateDiff today a <;> cases dateDiff today b <;> infer_instance

/-- The call `Array.prototype.sort` with the distance comparator: a stable
sort. -/
def sortByDistance (today : Int) (l : List Event) : List Event :=
  l.insertionSort (nearer today)

/-- The representative pushed for one repeat group. -/
def representative (today : Int) (group : List Event) : Option Event :=
  let incompleteEvents := group.filter fun e => !e.completed
  if incompleteEvents.length > 0 then (sortByDistance today incompleteEvents).head?
  else (sortByDistance today group).head?

/-- The keys of `repeatGroups` in the order of `Object.values`: ascending. -/
def repeatKeys (validEvents : List Event) : List Nat :=
  ((validEvents.filter isRepeat).map fun e => e.repeatId.getD 0).dedup.insertionSort (· ≤ ·)

/-- The array `filteredEvents` of `renderTodoList` before its final sort, for
the cache `allEvents`, in a host of zone `tz` at the instant `now`. -/
def todoSelection (tz now : Int) (allEvents : List Event) : List Event :=
  let today := setHoursZero tz now
  let validEvents := allEvents.filter fun e => !titleBlank e.title
  validEvents.filter (fun e => !isRepeat e) ++
    (repeatKeys validEvents).filterMap fun r =>
      representative today (validEvents.filter fun e => e.repeatId == some r)

/-! ## Auxiliary notions used in the statements -/

/-- The `k`-th date of a rule that starts at the time value `t0`: the step of
`createRepeatEvents` applied `k` times. -/
def ruleDate (tz : Int) (repeatType : String) (t0 : Int) (k : Nat) : Int :=
  (advance tz repeatType)^[k] t0

/-- The horizon in the words of the specification for a call without end date:
the origin date plus one year. -/
def originPlusOneYear (tz t0 : Int) : Int := setFullYear tz t0 (getFullYear tz t0 + 1)

/-- The current instant plus one year, as `createRepeatEvents` computes it for
a call without end date. -/
def nowPlusOneYear (tz now : Int) : Int := setFullYear tz now (getFullYear tz now + 1)

/-- The dates of a list of records. -/
def datesOf (l : List Event) : List (Option String) := l.map fun e => e.date

/-- A clock that always reads the same instant. -/
def fixedClock (iso : String) : Nat → String × String := fun _ => (iso, iso)

/-- The base event of the scenario of the specification. -/
def standup : Event :=
  { title := some "Standup", date := some "2024-01-01", category := some "work" }

/-- The records returned by a store operation, `[]` when it rejected. -/
def returned (r : Except StoreError (List Event) × Store) : List Event :=
  match r.1 with
  | .ok l => l
  | .error _ => []

/-- The relation `d < pivot` of a date property and a date string (false for a
`null` date, as for `dateGe`). -/
def dateLt (d : Option String) (pivot : String) : Bool :=
  match d with
  | none => false
  | some x => jsStrLt x pivot

/-- Consistency of a store state: the cache holds the records of the object
store, every stored record carries its key as `id`, and keys are unique. -/
def Coherent (s : Store) : Prop :=
  s.events.Perm s.persisted ∧ (s.persisted.map keyOf).Nodup ∧
    ∀ e ∈ s.persisted, e.id = some (keyOf e)

/-- The records of series `r` in a list. -/
def seriesOf (r : Nat) (l : List Event) : List Event :=
  l.filter fun e => e.repeatId == some r

/-- The store after the weekly scenario of the specification on a new
database, in a host on UTC: four instances of series 1. -/
def weeklyStore : Store :=
  (createRepeatEvents 0 0 (fixedClock "2024-01-01T09:00:00.000Z") {} standup "weekly"
    (some "2024-01-22")).2

/-- The record that a 'single'-scope edit creates: the edited fields with the
id `Date.now()`, detached from the series of the selected instance. -/
def detachedRecord (now : Int) (stamp : String × String) (editing selected : Event) : Event :=
  { editing with
    id := some now.toNat
    repeatId := some 0
    isRepeatInstance := some false
    originalRepeatId := selected.repeatId
    createdAt := some stamp.1
    updatedAt := some stamp.2 }

/-- The title test of `renderTodoList`: the title is present and not blank. -/
def titled (e : Event) : Bool := !titleBlank e.title

/-- The members of the repeat group `r` that `renderTodoList` collects: the
titled records with that repeat id, in the order of the cache. -/
def repeatGroup (allEvents : List Event) (r : Nat) : List Event :=
  (allEvents.filter fun e => !titleBlank e.title).filter fun e => e.repeatId == some r

/-- The candidates of a group: its incomplete members if there are any, the
whole group otherwise. -/
def candidates (group : List Event) : List Event :=
  if (group.filter fun e => !e.completed) = [] then group
  else group.filter fun e => !e.completed

/-- The first element of a list that no other element precedes strictly in the
order `r`, scanning from the right: the head of the stable sort. -/
def firstBy {α : Type} (r : α → α → Prop) [DecidableRel r] : List α → Option α
  | [] => none
  | a :: t =>
    match firstBy r t with
    | none => some a
    | some h => if r a h then some a else some h

/-- Three instances of one series around 2024-01-10: the first two are
incomplete and one day away from that date, the third is completed and falls
on it. -/
def aroundToday : List Event :=
  [ { id := some 1, title := some "Gym", date := some "2024-01-11", repeatId := some 1 },
    { id := some 2, title := some "Gym", date := some "2024-01-09", repeatId := some 1 },
    { id := some 3, title := some "Gym", date := some "2024-01-10", repeatId := some 1,
      completed := true } ]

/-- A yearly series as `exportData` writes it: three instances of series 1. -/
def exportedYearly : List Event :=
  [ { id := some 1, title := some "Review", date := some "2024-01-01", category := some "work",
      repeatId := some 1, repeatType := some "yearly", isRepeatInstance := some true },
    { id := some 2, title := some "Review", date := some "2025-01-01", category := some "work",
      repeatId := some 1, repeatType := some "yearly", isRepeatInstance := some true },
    { id := some 3, title := some "Review", date := some "2026-01-01", category := some "work",
      repeatId := some 1, repeatType := some "yearly", isRepeatInstance := some true } ]

/-- The store of a new database after `executeImport` of `exportedYearly`. -/
def importedStore : Store :=
  (executeImport (fixedClock "2024-06-10T06:00:00.000Z") 0 {} exportedYearly).2

/-- One calendar step of a rule on day numbers: the next day, the day a week
later, the same day of the month in the next month, the same day and month in
the next year (with the carry of `MakeDay` when that day does not exist). -/
def stepDay (repeatType : String) (z : Int) : Int :=
  if repeatType = "daily" then z + 1
  else if repeatType = "weekly" then z + 7
  else if repeatType = "monthly" then
    makeDay (yearFromDay z) (monthFromDay z + 1) (dateFromDay z)
  else if repeatType = "yearly" then
    makeDay (yearFromDay z + 1) (monthFromDay z) (dateFromDay z)
  else z

/-- The date string of a day number, in the format of
`DateUtils.getLocalDateString`. -/
def dateStringOfDay (z : Int) : String :=
  toString (yearFromDay z) ++ "-" ++ pad2 (monthFromDay z + 1) ++ "-" ++ pad2 (dateFromDay z)

/-- The guarantee of the key generator: every stored key is below the next
key it will hand out. -/
def KeysBelow (s : Store) : Prop :=
  ∀ e ∈ s.persisted, ∃ k, e.id = some k ∧ k < s.keyGen

/-- The instance of `importedStore` dated 2025-01-01, as the cache holds it. -/
def importedSecond : Event :=
  { id := some 2, title := some "Review", date := some "2025-01-01", category := some "work",
    repeatId := some 1, repeatType := some "yearly", isRepeatInstance := some true,
    createdAt := some "2024-06-10T06:00:00.000Z", updatedAt := some "2024-06-10T06:00:00.000Z" }

/-- The store after the 'future'-scope edit of `importedSecond`, made on
2024-06-10 in a host on UTC with the new title "Review (new)". -/
def editedImportedStore : Store :=
  handleRepeatEditConfirm 0 1718000000000 (fixedClock "2024-06-10T06:13:20.000Z")
    importedStore "future"
    { title := some "Review (new)", date := some "2025-01-01", category := some "work" }
    importedSecond

end CuteCalender

namespace CuteCalender

/-! ## Update, single delete and the unscheduled query (`src/database.js`) -/

/-- The argument `updates` of `updateEvent`: for every property, `none` when
the patch does not name it and `some v` when it gives it the value `v` (`v`
itself is `none` for `null`).  The properties `id`, `createdAt` and
`updatedAt` are managed by the store and no caller names them in a patch. -/
structure Patch where
  title : Option (Option String) := none
  date : Option (Option String) := none
  time : Option (Option String) := none
  category : Option (Option String) := none
  details : Option (Option String) := none
  completed : Option Bool := none
  isScheduled : Option (Option Bool) := none
  repeatId : Option (Option Nat) := none
  repeatType : Option (Option String) := none
  repeatEnd : Option (Option String) := none
  isRepeatInstance : Option (Option Bool) := none
  originalRepeatId : Option (Option Nat) := none
deriving DecidableEq, Repr

/-- The object literal `{ ...event, ...updates, updatedAt: now }`. -/
def Patch.merge (updates : Patch) (event : Event) (updatedAt : String) : Event :=
  { id := event.id
    title := updates.title.getD event.title
    date := updates.date.getD event.date
    time := updates.time.getD event.time
    category := updates.category.getD event.category
    details := updates.details.getD event.details
    completed := updates.completed.getD event.completed
    isScheduled := updates.isScheduled.getD event.isScheduled
    repeatId := updates.repeatId.getD event.repeatId
    repeatType := updates.repeatType.getD event.repeatType
    repeatEnd := updates.repeatEnd.getD event.repeatEnd
    isRepeatInstance := updates.isRepeatInstance.getD event.isRepeatInstance
    originalRepeatId := updates.originalRepeatId.getD event.originalRepeatId
    createdAt := event.createdAt
    updatedAt := some updatedAt }

/-- The test `updates.title !== undefined && (!updates.title ||
updates.title.trim() === '')`. -/
def patchTitleBlank (updates : Patch) : Bool :=
  match updates.title with
  | none => false
  | some t => titleBlank t

/-- The assignment `l[index] = updated` for the first index whose record has
the given id; nothing happens when there is none (`findIndex` gives -1). -/
def replaceFirst (id : Nat) (updated : Event) : List Event → List Event
  | [] => []
  | x :: xs => if x.id == some id then updated :: xs else x :: replaceFirst id updated xs

/-- The method `ScheduleDatabase.updateEvent`.  `getOk` and `putOk` tell whether
the requests `store.get` and `store.put` succeed; `updatedAt` is the clock
reading. -/
def updateEvent (getOk putOk : Bool) (updatedAt : String) (s : Store) (id : Nat)
    (updates : Patch) : Except StoreError Event × Store :=
  if patchTitleBlank updates then (.error .validation, s)
  else if !getOk then (.error .storage, s)
  else
    match s.persisted.find? (fun e => e.id == some id) with
    | none => (.error .notFound, s)
    | some event =>
      let updatedEvent := updates.merge event updatedAt
      if !putOk then (.error .storage, s)
      else
        (.ok updatedEvent,
          emit { s with persisted := replaceFirst id updatedEvent s.persisted
                        events := replaceFirst id updatedEvent s.events }
            (.eventUpdated id updatedEvent))

/-- The method `ScheduleDatabase.deleteEvent`; `store.delete` of a key that is
not stored succeeds like any other. -/
def deleteEvent (requestOk : Bool) (s : Store) (id : Nat) : Except StoreError Nat × Store :=
  if !requestOk then (.error .storage, s)
  else
    (.ok id,
      emit { s with persisted := s.persisted.filter (fun e => e.id != some id)
                    events := s.events.filter (fun e => e.id != some id) }
        (.eventDeleted id))

/-- Truth value of the property `time`: present and not the empty string. -/
def hasTime (e : Event) : Bool :=
  match e.time with
  | none => false
  | some t => t != ""

/-- Truth value of the property `date`: present and not the empty string. -/
def hasDate (e : Event) : Bool :=
  match e.date with
  | none => false
  | some d => d != ""

/-- The method `ScheduleDatabase.getUnscheduledEvents`. -/
def getUnscheduledEvents (s : Store) : List Event :=
  s.events.filter fun e => !hasTime e

/-! ## The final order of the to-do list -/

/-- The function `DateUtils.compareDates`: a comparison with an invalid date
is false either way, so the result is then 0. -/
def compareDates (date1 date2 : Option String) : Int :=
  match newDate date1, newDate date2 with
  | some d1, some d2 => if d1 < d2 then -1 else if d1 > d2 then 1 else 0
  | _, _ => 0

/-- The function `EventUtils.compareEvents`; `localeCompare` is the built-in
`String.prototype.localeCompare` of the host. -/
def compareEvents (localeCompare : String → String → Int) (a b : Event) : Int :=
  let dateCompare := compareDates a.date b.date
  if dateCompare ≠ 0 then dateCompare
  else if !hasTime a && !hasTime b then 0
  else if !hasTime a then 1
  else if !hasTime b then -1
  else localeCompare (a.time.getD "") (b.time.getD "")

/-- The comparator of the final sort of `renderTodoList`. -/
def todoCompare (localeCompare : String → String → Int) (a b : Event) : Int :=
  if !hasTime a && hasTime b then -1
  else if hasTime a && !hasTime b then 1
  else compareEvents localeCompare a b

/-- The array `filteredEvents` of `renderTodoList` after its final sort, a
stable sort: the list that is rendered. -/
def renderTodoList (tz now : Int) (localeCompare : String → String → Int)
    (allEvents : List Event) : List Event :=
  (todoSelection tz now allEvents).insertionSort
    (fun a b => todoCompare localeCompare a b ≤ 0)

/-! ## Sequences of store operations -/

/-- The operations of `ScheduleDatabase` that write to the database, with
their arguments and the readings of the environment they use. -/
inductive StoreOp where
  | add (requestOk : Bool) (createdAt updatedAt : String) (eventData : Event)
  | update (getOk putOk : Bool) (updatedAt : String) (id : Nat) (updates : Patch)
  | delete (requestOk : Bool) (id : Nat)
  | deleteByRepeatId (repeatId : Nat) (fromDate : Option String)
  | nextRepeatId
  | createRepeat (tz now : Int) (stamps : Nat → String × String) (baseEvent : Event)
      (repeatType : String) (endDate : Option String)
  | importEvents (stamps : Nat → String × String) (events : List Event)

/-- The state after one operation. -/
def StoreOp.run (s : Store) : StoreOp → Store
  | .add ok c u e => (addEvent ok c u s e).2
  | .update g p u id patch => (updateEvent g p u s id patch).2
  | .delete ok id => (deleteEvent ok s id).2
  | .deleteByRepeatId r d => (deleteEventsByRepeatId s r d).2
  | .nextRepeatId => (getNextRepeatId s).2
  | .createRepeat tz now stamps base ty endDate =>
    (createRepeatEvents tz now stamps s base ty endDate).2
  | .importEvents stamps events => (executeImport stamps 0 s events).2

/-- The state after a sequence of operations. -/
def runOps (s : Store) (ops : List StoreOp) : Store := ops.foldl StoreOp.run s

/-! ## Auxiliary notions used in the statements (continued) -/

/-- How a property of the merged record relates to the patch: the value the
patch gives it when the patch names it, the old value otherwise. -/
def MergedField {α : Type} (patched : Option α) (old merged : α) : Prop :=
  (∀ v, patched = some v → merged = v) ∧ (patched = none → merged = old)

/-- Comparison of two strings by code units, as a comparator: a stand-in for
`localeCompare` on strings of digits and colons. -/
def codeUnitCompare (a b : String) : Int :=
  if jsStrLt a b then -1 else if jsStrLt b a then 1 else 0

/-- The time value of the date of a record, 0 when it is not a valid date. -/
def dateValue (e : Event) : Int := (newDate e.date).getD 0

/-- What the final order of the to-do list guarantees for a record `a` that
comes before a record `b`: `a` has a time only if `b` has one; when both or
neither have a time, the date of `a` is not after the date of `b`; and when
both have a time and the same date, the time of `a` is not after the time of
`b` in the order of `localeCompare`. -/
def TodoOrdered (localeCompare : String → String → Int) (a b : Event) : Prop :=
  (hasTime a = true → hasTime b = true) ∧
  (hasTime a = hasTime b → dateValue a ≤ dateValue b) ∧
  (hasTime a = true → hasTime b = true → dateValue a = dateValue b →
    localeCompare (a.time.getD "") (b.time.getD "") ≤ 0)

/-- What an instance of a series shares with the base event and with the
other instances of the call that generated it. -/
def InstanceOf (baseEvent : Event) (repeatType : String) (repeatId : Nat) (e : Event) : Prop :=
  e.title = baseEvent.title ∧ e.time = baseEvent.time ∧ e.category = baseEvent.category ∧
  e.details = baseEvent.details ∧ e.isRepeatInstance = some true ∧
  e.repeatType = some repeatType ∧ e.repeatId = some repeatId

/-- The counter `lastRepeatId` as a number (0 when the setting is missing). -/
def repeatCounter (s : Store) : Nat := s.lastRepeatId.getD 0

/-- A cache with timed and untimed one-off events on several dates. -/
def mixedTodo : List Event :=
  [{ id := some 1, title := some "Review", date := some "2024-01-10", time := some "14:00" },
   { id := some 2, title := some "Groceries", date := some "2024-01-12" },
   { id := some 3, title := some "Standup", date := some "2024-01-10", time := some "09:00" },
   { id := some 4, title := some "Laundry", date := some "2024-01-09" },
   { id := some 5, title := some "Dinner", date := some "2024-01-08", time := some "18:00" }]

end CuteCalender

namespace CuteCalender

/-! ## Export and import (`src/database.js`) -/

/-- The object returned by `getStats` (`repeat_` is its property `repeat`). -/
structure Stats where
  total : Nat
  completed : Nat
  pending : Nat
  unscheduled : Nat
  repeat_ : Nat
  completionRate : Nat
deriving DecidableEq, Repr

/-- The method `ScheduleDatabase.getRepeatEvents`. -/
def getRepeatEvents (s : Store) : List Event :=
  s.events.filter isRepeat

/-- The method `ScheduleDatabase.getStats`; `roundPercent completed total` is
the value of `Math.round((completed / total) * 100)` in the arithmetic of the
host. -/
def getStats (roundPercent : Nat → Nat → Nat) (s : Store) : Stats :=
  let total := s.events.length
  let completed := (s.events.filter fun e => e.completed).length
  let pending := total - completed
  let unscheduled := (getUnscheduledEvents s).length
  let repeat_ := (getRepeatEvents s).length
  { total := total
    completed := completed
    pending := pending
    unscheduled := unscheduled
    repeat_ := repeat_
    completionRate := if total > 0 then roundPercent completed total else 0 }

/-- The envelope returned by `exportData`. -/
structure ExportData where
  version : String
  exportDate : String
  events : List Event
  stats : Stats
deriving DecidableEq, Repr

/-- The method `ScheduleDatabase.exportData`; `exportDate` is the clock
reading. -/
def exportData (roundPercent : Nat → Nat → Nat) (exportDate : String) (s : Store) :
    ExportData :=
  { version := "1.0"
    exportDate := exportDate
    events := s.events
    stats := getStats roundPercent s }

/-- An element of the array `conflicts` of `importData`. -/
structure Conflict where
  imported : Event
  existing : Event
deriving DecidableEq, Repr

/-- The object returned by `importData`. -/
structure ImportResult where
  eventsToImport : List Event
  conflicts : List Conflict
  total : Nat
deriving DecidableEq, Repr

/-- Reasons for which `importData` throws. -/
inductive ImportError where
  | invalidFormat
deriving DecidableEq, Repr

/-- The callback of `this.events.find` in `importData`: the stored record `e`
has the date, the title and the time of the incoming `event`. -/
def sameSlot (event e : Event) : Bool :=
  e.date == event.date && e.title == event.title && e.time == event.time

/-- The loop `for (const event of data.events)` of `importData` over the cache
`cache`: the arrays `eventsToImport` and `conflicts`, both filled in the order
of the input. -/
def classifyImport (cache : List Event) : List Event → List Event × List Conflict
  | [] => ([], [])
  | event :: rest =>
    let r := classifyImport cache rest
    match cache.find? (sameSlot event) with
    | some existingEvent => (r.1, { imported := event, existing := existingEvent } :: r.2)
    | none => (event :: r.1, r.2)

/-- The method `ScheduleDatabase.importData`; `events` is the property
`data.events`, `none` when it is missing or not an array.  The method assigns
to no property of the database, so the state after the call is the state
before it. -/
def importData (s : Store) (events : Option (List Event)) :
    Except ImportError ImportResult × Store :=
  match events with
  | none => (.error .invalidFormat, s)
  | some l =>
    let r := classifyImport s.events l
    (.ok { eventsToImport := r.1, conflicts := r.2, total := l.length }, s)

/-! ## Validation of form data (`src/utils.js`) -/

/-- The method `String.prototype.trim`. -/
def jsTrim (s : String) : String :=
  ⟨((s.data.dropWhile jsIsWhitespace).reverse.dropWhile jsIsWhitespace).reverse⟩

/-- The property `length` of a string: its number of UTF-16 code units. -/
def jsLength (s : String) : Nat := (s.data.flatMap utf16Units).length

/-- The properties that every object literal inherits from
`Object.prototype`; the value of each is a function or an object, hence
truthy. -/
def objectPrototypeKeys : List String :=
  ["constructor", "hasOwnProperty", "isPrototypeOf", "propertyIsEnumerable", "toLocaleString",
   "toString", "valueOf", "__proto__", "__defineGetter__", "__defineSetter__",
   "__lookupGetter__", "__lookupSetter__"]

/-- The own keys of the object literal `CategoryUtils.categories`. -/
def categoryKeys : List String := ["personal", "work", "sideWork", "social", "love"]

/-- Truth value of the property access `table[key]` on an object literal with
the own keys `ownKeys`, all of truthy value: the own properties and the
inherited ones are found. -/
def lookupTruthy (ownKeys : List String) (key : String) : Bool :=
  ownKeys.contains key || objectPrototypeKeys.contains key

/-- The regular expressions used by the program: a character, a range of a
character class, concatenation, alternation and the `?` quantifier. -/
inductive Regex where
  | char (c : Char)
  | range (lo hi : Char)
  | seq (a b : Regex)
  | alt (a b : Regex)
  | opt (a : Regex)
deriving DecidableEq, Repr

/-- The remainders of the input after every way of matching the expression at
its start, in the order in which a backtracking matcher tries them. -/
def Regex.run : Regex → List Char → List (List Char)
  | .char _, [] => []
  | .char c, x :: xs => if x = c then [xs] else []
  | .range _ _, [] => []
  | .range lo hi, x :: xs => if lo.toNat ≤ x.toNat ∧ x.toNat ≤ hi.toNat then [xs] else []
  | .seq a b, s => (a.run s).flatMap fun rest => b.run rest
  | .alt a b, s => a.run s ++ b.run s
  | .opt a, s => a.run s ++ [s]

/-- The method `RegExp.prototype.test` for an expression written between `^`
and `$` without flags: some way of matching consumes the whole input. -/
def Regex.test (r : Regex) (s : String) : Bool :=
  (r.run s.data).any fun rest => rest.isEmpty

/-- The expression `/^([01]?[0-9]|2[0-3]):[0-5][0-9]$/` without its anchors. -/
def timeRegex : Regex :=
  .seq
    (.alt (.seq (.opt (.range '0' '1')) (.range '0' '9')) (.seq (.char '2') (.range '0' '3')))
    (.seq (.char ':') (.seq (.range '0' '5') (.range '0' '9')))

/-- The function `EventUtils.isValidTime`. -/
def isValidTime (time : String) : Bool := timeRegex.test time

/-- The messages that `validateEvent` pushes, in the order of the source:
'标题不能为空', '标题至少需要2个字符', '标题不能超过100个字符', '日期格式无效',
'请输入有效的日期（1900-2100年）', '类别不能为空', '无效的类别', '时间格式无效'. -/
inductive ValidationError where
  | titleEmpty
  | titleTooShort
  | titleTooLong
  | dateInvalid
  | dateOutOfRange
  | categoryEmpty
  | categoryInvalid
  | timeInvalid
deriving DecidableEq, Repr

/-- The function `EventUtils.validateEvent` in a host of zone `tz`: the array
`errors`. -/
def validateEvent (tz : Int) (eventData : Event) : List ValidationError :=
  let titleErrors :=
    if titleBlank eventData.title then [ValidationError.titleEmpty]
    else if jsLength (jsTrim (eventData.title.getD "")) < 2 then [.titleTooShort]
    else if jsLength (jsTrim (eventData.title.getD "")) > 100 then [.titleTooLong]
    else []
  let dateErrors :=
    if hasDate eventData then
      match newDate eventData.date with
      | none => [ValidationError.dateInvalid]
      | some date =>
        let year := getFullYear tz date
        if year < 1900 ∨ year > 2100 then [.dateOutOfRange] else []
    else []
  let categoryErrors :=
    match eventData.category with
    | none => [ValidationError.categoryEmpty]
    | some category =>
      if category = "" then [.categoryEmpty]
      else if !lookupTruthy categoryKeys category then [.categoryInvalid]
      else []
  let timeErrors :=
    if hasTime eventData && !isValidTime (eventData.time.getD "") then
      [ValidationError.timeInvalid]
    else []
  titleErrors ++ dateErrors ++ categoryErrors ++ timeErrors

/-- The function `EventUtils.createEvent`; `none` when `data.title` is missing,
where `data.title.trim()` throws. -/
def createEvent (data : Event) : Option Event :=
  match data.title with
  | none => none
  | some title =>
    some
      { title := some (jsTrim title)
        date := if hasDate data then data.date else none
        time := if hasTime data then data.time else none
        category := data.category
        details := match data.details with
          | none => some ""
          | some d => if d = "" then some "" else some (jsTrim d)
        completed := data.completed
        repeatId := some (data.repeatId.getD 0)
        isRepeatInstance := some (data.isRepeatInstance.getD false)
        isScheduled := some (hasDate data && hasTime data) }


/-! ## Auxiliary notions used in the statements (time format) -/

/-- A decimal digit, `0` to `9`. -/
def isDigitChar (c : Char) : Bool := 48 ≤ c.toNat && c.toNat ≤ 57

/-- The number written by a list of decimal digits. -/
def decimalValue (cs : List Char) : Nat :=
  cs.foldl (fun acc c => 10 * acc + (c.toNat - 48)) 0

/-- The form `HH:MM` of the specification: a two-digit hour 00..23, a colon
and a two-digit minute 00..59. -/
def isHHMM (s : String) : Bool :=
  match s.data with
  | [h1, h2, c, m1, m2] =>
    isDigitChar h1 && isDigitChar h2 && c == ':' && isDigitChar m1 && isDigitChar m2 &&
      decide (decimalValue [h1, h2] ≤ 23) && decide (decimalValue [m1, m2] ≤ 59)
  | _ => false

/-- The form `H:MM`: a one-digit hour 0..9, a colon and a two-digit minute
00..59. -/
def isHMM (s : String) : Bool :=
  match s.data with
  | [h, c, m1, m2] =>
    isDigitChar h && c == ':' && isDigitChar m1 && isDigitChar m2 &&
      decide (decimalValue [m1, m2] ≤ 59)
  | _ => false

/-! ## The event form (`handleEventSubmit` in `src/app.js`) -/

/-- What `handleEventSubmit` reads from the page: the values `formData.get`
gives for the five fields (`none` for a field that is disabled or missing),
the check boxes, the selected repeat type and the value of the end-date
input. -/
structure EventForm where
  eventTitle : Option String := none
  eventDate : Option String := none
  eventTime : Option String := none
  eventCategory : Option String := none
  eventDetails : Option String := none
  noSchedule : Bool := false
  isRepeat : Bool := false
  repeatType : String := "daily"
  neverEnd : Bool := false
  repeatEnd : String := ""
deriving DecidableEq, Repr

/-- The expression `v || null` for a string or `null`. -/
def orNull (v : Option String) : Option String :=
  match v with
  | none => none
  | some x => if x = "" then none else some x

/-- The object literal `eventData` of `handleEventSubmit`. -/
def submittedEventData (form : EventForm) : Event :=
  { title := form.eventTitle
    date := if form.noSchedule then none else orNull form.eventDate
    time := if form.noSchedule then none else orNull form.eventTime
    category := form.eventCategory
    details := form.eventDetails
    completed := false
    isScheduled := some (!form.noSchedule) }

/-- The argument `eventData` of `handleEventSubmit` as a patch: it names the
seven properties of the object literal. -/
def patchOfEventData (eventData : Event) : Patch :=
  { title := some eventData.title
    date := some eventData.date
    time := some eventData.time
    category := some eventData.category
    details := some eventData.details
    completed := some eventData.completed
    isScheduled := some eventData.isScheduled }

/-- The method `ScheduleApp.handleEventSubmit` as far as the store is
concerned, in a host of zone `tz` at the instant `now`; `selectedEvent` is
`this.selectedEvent`.  Nothing is written when validation reports an error,
when a recurring event is edited (the scope dialog is shown instead) or when
a repeat end date is required and missing; errors of the store are caught by
the handler and only reported to the user. -/
def handleEventSubmit (tz now : Int) (stamps : Nat → String × String) (s : Store)
    (form : EventForm) (selectedEvent : Option Event) : Store :=
  let eventData := submittedEventData form
  let errors := validateEvent tz eventData
  if errors.length > 0 then s
  else
    match selectedEvent with
    | some selected =>
      if isRepeat selected then s
      else
        match selected.id with
        | none => s
        | some id => (updateEvent true true (stamps 0).2 s id (patchOfEventData eventData)).2
    | none =>
      if form.isRepeat then
        if !form.neverEnd && form.repeatEnd = "" then s
        else
          let repeatEnd := if form.neverEnd then none else some form.repeatEnd
          (createRepeatEvents tz now stamps s eventData form.repeatType repeatEnd).2
      else (addEvent true (stamps 0).1 (stamps 0).2 s eventData).2

/-! ## `RepeatUtils.generateRepeatDates` (`src/utils.js`) -/

/-- What `generateRepeatDates` reads of an entry of `RepeatUtils.repeatTypes`:
the properties `interval` and `unit`, `none` when the value has no such
property. -/
structure RepeatTypeInfo where
  interval : Option Int := none
  unit : Option String := none
deriving DecidableEq, Repr

/-- The function `RepeatUtils.getRepeatType`, the expression
`this.repeatTypes[typeKey] || null`: the entry of the table for its four own
keys, the inherited member of `Object.prototype` (a truthy value without
`interval` and `unit`) for the name of one, and `none` for `null`. -/
def getRepeatType (typeKey : String) : Option RepeatTypeInfo :=
  if typeKey = "daily" then some { interval := some 1, unit := some "day" }
  else if typeKey = "weekly" then some { interval := some 1, unit := some "week" }
  else if typeKey = "monthly" then some { interval := some 1, unit := some "month" }
  else if typeKey = "yearly" then some { interval := some 1, unit := some "year" }
  else if objectPrototypeKeys.contains typeKey then some {}
  else none

/-- The `switch (type.unit)` of `generateRepeatDates`: the date after one
step. -/
def stepUnit (tz : Int) (type : RepeatTypeInfo) (cur : Int) : Int :=
  let interval := type.interval.getD 0
  if type.unit = some "day" then setDate tz cur (getDate tz cur + interval)
  else if type.unit = some "week" then setDate tz cur (getDate tz cur + interval * 7)
  else if type.unit = some "month" then setMonth tz cur (getMonth tz cur + interval)
  else if type.unit = some "year" then setFullYear tz cur (getFullYear tz cur + interval)
  else cur

/-- The loop `while (currentDate <= end)` of `generateRepeatDates`, which has
no bound on its number of passes: `fuel` bounds them here, and the result is
`none` when the loop is still running after `fuel` passes. -/
def generateLoop (tz : Int) (type : RepeatTypeInfo) (endT : Int) :
    Nat → Int → Option (List String)
  | 0, cur => if cur ≤ endT then none else some []
  | fuel + 1, cur =>
    if cur ≤ endT then
      (generateLoop tz type endT fuel (stepUnit tz type cur)).map
        fun dates => getLocalDateString tz cur :: dates
    else some []

/-- The function `RepeatUtils.generateRepeatDates` in a host of zone `tz`, run
for at most `fuel` passes of its loop.  With an invalid start or end date the
loop condition is false at once. -/
def generateRepeatDates (tz : Int) (fuel : Nat) (startDate : Option String)
    (repeatType : String) (endDate : Option String) : Option (List String) :=
  match getRepeatType repeatType with
  | none => some []
  | some type =>
    match newDate startDate, newDate endDate with
    | some currentDate, some endT => generateLoop tz type endT fuel currentDate
    | _, _ => some []


end CuteCalender

namespace CuteCalender

/-! ## Calendar facts -/

theorem yearFromDay_spec (z : Int) :
    dayFromYear (yearFromDay z) ≤ z ∧ z < dayFromYear (yearFromDay z + 1) := by
  unfold yearFromDay
  simp only []
  split_ifs with h1 h2
  · refine ⟨?_, ?_⟩
    · unfold dayFromYear at *; omega
    · simpa using h1
  · refine ⟨h2, ?_⟩
    unfold dayFromYear at *; omega
  · exact ⟨not_lt.mp h1, not_le.mp h2⟩

theorem leapDay_cases (y : Int) : leapDay y = 0 ∨ leapDay y = 1 := by
  unfold leapDay; split_ifs <;> simp

theorem dayFromYear_succ (y : Int) : dayFromYear (y + 1) = dayFromYear y + 365 + leapDay y := by
  unfold leapDay inLeapYear dayFromYear
  split_ifs with h <;> simp at h <;> omega

theorem dayWithinYear_bounds (z : Int) :
    0 ≤ dayWithinYear z ∧ dayWithinYear z < 365 + leapDay (yearFromDay z) := by
  have h := yearFromDay_spec z
  have h2 := dayFromYear_succ (yearFromDay z)
  unfold dayWithinYear
  omega

/-- The table of `MonthFromTime`, read as a case distinction. -/
theorem monthOfYearDay_cases (l d : Int) :
    (d < 31 ∧ monthOfYearDay l d = 0) ∨
    (31 ≤ d ∧ d < 59 + l ∧ monthOfYearDay l d = 1) ∨
    (59 + l ≤ d ∧ d < 90 + l ∧ monthOfYearDay l d = 2) ∨
    (90 + l ≤ d ∧ d < 120 + l ∧ monthOfYearDay l d = 3) ∨
    (120 + l ≤ d ∧ d < 151 + l ∧ monthOfYearDay l d = 4) ∨
    (151 + l ≤ d ∧ d < 181 + l ∧ monthOfYearDay l d = 5) ∨
    (181 + l ≤ d ∧ d < 212 + l ∧ monthOfYearDay l d = 6) ∨
    (212 + l ≤ d ∧ d < 243 + l ∧ monthOfYearDay l d = 7) ∨
    (243 + l ≤ d ∧ d < 273 + l ∧ monthOfYearDay l d = 8) ∨
    (273 + l ≤ d ∧ d < 304 + l ∧ monthOfYearDay l d = 9) ∨
    (304 + l ≤ d ∧ d < 334 + l ∧ monthOfYearDay l d = 10) ∨
    (334 + l ≤ d ∧ monthOfYearDay l d = 11) := by
  unfold monthOfYearDay
  by_cases h0 : d < 31
  · exact Or.inl ⟨h0, if_pos h0⟩
  rw [if_neg h0]
  by_cases h1 : d < 59 + l
  · right; left; exact ⟨by omega, h1, if_pos h1⟩
  rw [if_neg h1]
  by_cases h2 : d < 90 + l
  · right; right; left; exact ⟨by omega, h2, if_pos h2⟩
  rw [if_neg h2]
  by_cases h3 : d < 120 + l
  · right; right; right; left; exact ⟨by omega, h3, if_pos h3⟩
  rw [if_neg h3]
  by_cases h4 : d < 151 + l
  · right; right; right; right; left; exact ⟨by omega, h4, if_pos h4⟩
  rw [if_neg h4]
  by_cases h5 : d < 181 + l
  · right; right; right; right; right; left; exact ⟨by omega, h5, if_pos h5⟩
  rw [if_neg h5]
  by_cases h6 : d < 212 + l
  · right; right; right; right; right; right; left; exact ⟨by omega, h6, if_pos h6⟩
  rw [if_neg h6]
  by_cases h7 : d < 243 + l
  · right; right; right; right; right; right; right; left; exact ⟨by omega, h7, if_pos h7⟩
  rw [if_neg h7]
  by_cases h8 : d < 273 + l
  · right; right; right; right; right; right; right; right; left; exact ⟨by omega, h8, if_pos h8⟩
  rw [if_neg h8]
  by_cases h9 : d < 304 + l
  · right; right; right; right; right; right; right; right; right; left; exact ⟨by omega, h9, if_pos h9⟩
  rw [if_neg h9]
  by_cases h10 : d < 334 + l
  · right; right; right; right; right; right; right; right; right; right; left; exact ⟨by omega, h10, if_pos h10⟩
  rw [if_neg h10]
  right; right; right; right; right; right; right; right; right; right; right; exact ⟨by omega, rfl⟩

theorem daysBeforeMonth_vals (l : Int) :
    daysBeforeMonth l 0 = 0 ∧ daysBeforeMonth l 1 = 31 ∧ daysBeforeMonth l 2 = 59 + l ∧
    daysBeforeMonth l 3 = 90 + l ∧ daysBeforeMonth l 4 = 120 + l ∧ daysBeforeMonth l 5 = 151 + l ∧
    daysBeforeMonth l 6 = 181 + l ∧ daysBeforeMonth l 7 = 212 + l ∧ daysBeforeMonth l 8 = 243 + l ∧
    daysBeforeMonth l 9 = 273 + l ∧ daysBeforeMonth l 10 = 304 + l ∧
    daysBeforeMonth l 11 = 334 + l := by
  simp [daysBeforeMonth]

/-- The month assigned to a day of the year is in 0..11, begins no later than
that day, and the next month of the same year begins after it. -/
theorem monthOfYearDay_spec (l d : Int) :
    0 ≤ monthOfYearDay l d ∧ monthOfYearDay l d ≤ 11 ∧
    (0 ≤ d → daysBeforeMonth l (monthOfYearDay l d) ≤ d) ∧
      (monthOfYearDay l d ≤ 10 → d < daysBeforeMonth l (monthOfYearDay l d + 1)) := by
  rcases monthOfYearDay_cases l d with h | h | h | h | h | h | h | h | h | h | h | h <;>
  · obtain ⟨h1, h2⟩ := h
    first
      | (obtain ⟨h2, h3⟩ := h2; rw [h3]; simp [daysBeforeMonth]; omega)
      | (rw [h2]; simp [daysBeforeMonth]; omega)

theorem monthFromDay_bounds (z : Int) : 0 ≤ monthFromDay z ∧ monthFromDay z ≤ 11 :=
  ⟨(monthOfYearDay_spec _ _).1, (monthOfYearDay_spec _ _).2.1⟩

theorem daysBeforeMonth_leap_le (l l2 m : Int) (hl : l = 0 ∨ l = 1) (hl2 : l2 = 0 ∨ l2 = 1)
    (h0 : 0 ≤ m) (h1 : m ≤ 11) : daysBeforeMonth l m ≤ daysBeforeMonth l2 m + 1 := by
  interval_cases m <;> simp [daysBeforeMonth] <;> omega

/-- The ECMAScript round trip of a day number through year, month and day of
the month, with an offset added to the day of the month. -/
theorem makeDay_civil (z n : Int) :
    makeDay (yearFromDay z) (monthFromDay z) (dateFromDay z + n) = z + n := by
  have hm := monthFromDay_bounds z
  have h1 : monthFromDay z / 12 = 0 := by omega
  have h2 : monthFromDay z % 12 = monthFromDay z := by omega
  unfold makeDay dateFromDay dayWithinYear
  simp only [h1, h2, add_zero]
  omega

theorem dateFromDay_pos (z : Int) : 1 ≤ dateFromDay z := by
  have hb := dayWithinYear_bounds z
  have hs := monthOfYearDay_spec (leapDay (yearFromDay z)) (dayWithinYear z)
  unfold dateFromDay monthFromDay
  have := hs.2.2.1 hb.1
  omega

theorem makeDay_nextMonth_gt (z : Int) :
    z < makeDay (yearFromDay z) (monthFromDay z + 1) (dateFromDay z) := by
  have hb := dayWithinYear_bounds z
  have hl := leapDay_cases (yearFromDay z)
  have hm := monthFromDay_bounds z
  have hs := monthOfYearDay_spec (leapDay (yearFromDay z)) (dayWithinYear z)
  have hz : z = dayFromYear (yearFromDay z) + dayWithinYear z := by unfold dayWithinYear; omega
  have hd : dateFromDay z = dayWithinYear z -
      daysBeforeMonth (leapDay (yearFromDay z)) (monthFromDay z) + 1 := rfl
  by_cases h : monthFromDay z ≤ 10
  · have h1 : (monthFromDay z + 1) / 12 = 0 := by omega
    have h2 : (monthFromDay z + 1) % 12 = monthFromDay z + 1 := by omega
    have hst := hs.2.2.2 h
    have hle := hs.2.2.1 hb.1
    unfold makeDay
    simp only [h1, h2, add_zero]
    unfold monthFromDay at hd ⊢
    omega
  · have h11 : monthFromDay z = 11 := by omega
    have hy := dayFromYear_succ (yearFromDay z)
    have hv := (daysBeforeMonth_vals (leapDay (yearFromDay z))).2.2.2.2.2.2.2.2.2.2.2
    have hv0 := (daysBeforeMonth_vals (leapDay (yearFromDay z + 1))).1
    rw [h11] at hd
    unfold makeDay
    rw [h11]
    have e1 : ((11 : Int) + 1) / 12 = 1 := by norm_num
    have e2 : ((11 : Int) + 1) % 12 = 0 := by norm_num
    simp only [e1, e2]
    omega

theorem makeDay_nextYear_gt (z : Int) :
    z < makeDay (yearFromDay z + 1) (monthFromDay z) (dateFromDay z) := by
  have hl := leapDay_cases (yearFromDay z)
  have hl2 := leapDay_cases (yearFromDay z + 1)
  have hm := monthFromDay_bounds z
  have hs := dayFromYear_succ (yearFromDay z)
  have hd := daysBeforeMonth_leap_le _ _ (monthFromDay z) hl hl2 hm.1 hm.2
  have h1 : monthFromDay z / 12 = 0 := by omega
  have h2 : monthFromDay z % 12 = monthFromDay z := by omega
  unfold makeDay dateFromDay dayWithinYear
  simp only [h1, h2, add_zero]
  omega

/-! ## Facts about the `Date` built-in -/

theorem localDay_fromLocal (tz day tod : Int) (h0 : 0 ≤ tod) (h1 : tod < msPerDay) :
    localDay tz (fromLocal tz day tod) = day := by
  unfold localDay localTime fromLocal msPerDay at *
  omega

theorem localTimeInDay_fromLocal (tz day tod : Int) (h0 : 0 ≤ tod) (h1 : tod < msPerDay) :
    localTimeInDay tz (fromLocal tz day tod) = tod := by
  unfold localTimeInDay localTime fromLocal msPerDay at *
  omega

theorem localTimeInDay_bounds (tz t : Int) :
    0 ≤ localTimeInDay tz t ∧ localTimeInDay tz t < msPerDay := by
  unfold localTimeInDay msPerDay
  omega

theorem fromLocal_local (tz t : Int) : fromLocal tz (localDay tz t) (localTimeInDay tz t) = t := by
  unfold fromLocal localDay localTimeInDay localTime msPerDay
  omega

/-- Adding `n` to the day of the month moves the time value by `n` days. -/
theorem setDate_getDate_add (tz t n : Int) :
    setDate tz t (getDate tz t + n) = t + n * msPerDay := by
  unfold setDate getFullYear getMonth getDate
  rw [makeDay_civil]
  have := fromLocal_local tz t
  unfold fromLocal at *
  linarith

theorem fromLocal_lt (tz d1 d2 tod : Int) (h : d1 < d2) :
    fromLocal tz d1 tod < fromLocal tz d2 tod := by
  unfold fromLocal msPerDay
  omega

theorem setMonth_next_gt (tz t : Int) : t < setMonth tz t (getMonth tz t + 1) := by
  have h := makeDay_nextMonth_gt (localDay tz t)
  have := fromLocal_lt tz _ _ (localTimeInDay tz t) h
  rw [fromLocal_local] at this
  exact this

theorem setFullYear_next_gt (tz t : Int) : t < setFullYear tz t (getFullYear tz t + 1) := by
  have h := makeDay_nextYear_gt (localDay tz t)
  have := fromLocal_lt tz _ _ (localTimeInDay tz t) h
  rw [fromLocal_local] at this
  exact this

/-- A step of a recognised rule moves the date strictly forward. -/
theorem advance_gt (tz : Int) (repeatType : String) (cur : Int)
    (h : repeatType = "daily" ∨ repeatType = "weekly" ∨ repeatType = "monthly" ∨
      repeatType = "yearly") : cur < advance tz repeatType cur := by
  unfold advance
  rcases h with h | h | h | h <;> subst h
  · simp only [if_true]; rw [setDate_getDate_add]; unfold msPerDay; omega
  · rw [if_neg (by decide), if_pos rfl, setDate_getDate_add]; unfold msPerDay; omega
  · rw [if_neg (by decide), if_neg (by decide), if_pos rfl]; exact setMonth_next_gt tz cur
  · rw [if_neg (by decide), if_neg (by decide), if_neg (by decide), if_pos rfl]
    exact setFullYear_next_gt tz cur

/-- A step never moves the date backwards, whatever the rule. -/
theorem advance_ge (tz : Int) (repeatType : String) (cur : Int) :
    cur ≤ advance tz repeatType cur := by
  by_cases h : repeatType = "daily" ∨ repeatType = "weekly" ∨ repeatType = "monthly" ∨
      repeatType = "yearly"
  · exact le_of_lt (advance_gt tz repeatType cur h)
  · simp only [not_or] at h
    unfold advance
    rw [if_neg h.1, if_neg h.2.1, if_neg h.2.2.1, if_neg h.2.2.2]

end CuteCalender

namespace CuteCalender

/-! ## The expansion loop -/

theorem ruleDate_succ (tz : Int) (ty : String) (t0 : Int) (k : Nat) :
    ruleDate tz ty t0 (k + 1) = ruleDate tz ty (advance tz ty t0) k := by
  unfold ruleDate
  rw [Function.iterate_succ_apply]

theorem ruleDate_succ_outer (tz : Int) (ty : String) (t0 : Int) (k : Nat) :
    ruleDate tz ty t0 (k + 1) = advance tz ty (ruleDate tz ty t0 k) := by
  unfold ruleDate
  rw [Function.iterate_succ_apply']

theorem ruleDate_mono (tz : Int) (ty : String) (t0 : Int) :
    Monotone (ruleDate tz ty t0) := by
  apply monotone_nat_of_le_succ
  intro k
  rw [ruleDate_succ_outer]
  exact advance_ge tz ty _

theorem repeatLoop_length_le (tz : Int) (ty : String) (endT : Int) (fuel : Nat) (cur : Int) :
    (repeatLoop tz ty endT fuel cur).length ≤ fuel := by
  induction fuel generalizing cur with
  | zero => simp [repeatLoop]
  | succ n ih =>
    unfold repeatLoop
    split_ifs
    · simpa using ih _
    · simp

/-- The loop yields the rule dates in order, as many as it has passes. -/
theorem repeatLoop_eq_map (tz : Int) (ty : String) (endT : Int) (fuel : Nat) (cur : Int) :
    repeatLoop tz ty endT fuel cur =
      (List.range (repeatLoop tz ty endT fuel cur).length).map (ruleDate tz ty cur) := by
  induction fuel generalizing cur with
  | zero => simp [repeatLoop]
  | succ n ih =>
    unfold repeatLoop
    split_ifs with h
    · rw [List.length_cons, List.range_succ_eq_map, List.map_cons, List.map_map]
      congr 1
      conv_lhs => rw [ih]
      apply List.map_congr_left
      intro k _
      simp [ruleDate_succ]
    · simp

/-- Every date the loop yields is within the horizon. -/
theorem repeatLoop_within (tz : Int) (ty : String) (endT : Int) (fuel : Nat) (cur : Int)
    (k : Nat) (hk : k < (repeatLoop tz ty endT fuel cur).length) :
    ruleDate tz ty cur k ≤ endT := by
  induction fuel generalizing cur k with
  | zero => simp [repeatLoop] at hk
  | succ n ih =>
    unfold repeatLoop at hk
    split_ifs at hk with h
    · cases k with
      | zero => simpa [ruleDate] using h
      | succ j =>
        rw [ruleDate_succ]
        exact ih _ j (by simpa using hk)
    · simp at hk

/-- When the loop stops before the cap, the next rule date is past the
horizon. -/
theorem repeatLoop_stop (tz : Int) (ty : String) (endT : Int) (fuel : Nat) (cur : Int)
    (h : (repeatLoop tz ty endT fuel cur).length < fuel) :
    endT < ruleDate tz ty cur (repeatLoop tz ty endT fuel cur).length := by
  induction fuel generalizing cur with
  | zero => simp at h
  | succ n ih =>
    unfold repeatLoop at h ⊢
    split_ifs at h ⊢ with hc
    · rw [List.length_cons, ruleDate_succ]
      exact ih _ (by simpa using h)
    · simpa [ruleDate] using hc

/-- The number of passes of the loop is the smaller of the fuel and the number
of rule dates within the horizon. -/
theorem repeatLoop_count (tz : Int) (ty : String) (endT : Int) (fuel : Nat) (cur : Int) :
    ((repeatLoop tz ty endT fuel cur).length : ℕ∞) =
      min (fuel : ℕ∞) (Set.encard {k | ruleDate tz ty cur k ≤ endT}) := by
  set L := (repeatLoop tz ty endT fuel cur).length with hL
  have hle : L ≤ fuel := repeatLoop_length_le tz ty endT fuel cur
  have hsub : (↑(Finset.range L) : Set Nat) ⊆ {k | ruleDate tz ty cur k ≤ endT} := by
    intro k hk
    have hk' : k < L := by simpa using hk
    exact repeatLoop_within tz ty endT fuel cur k hk'
  have hcard : ((Finset.range L : Finset Nat) : Set Nat).encard = (L : ℕ∞) := by
    rw [Set.encard_coe_eq_coe_finsetCard, Finset.card_range]
  rcases Nat.lt_or_ge L fuel with hlt | hge
  · have hstop := repeatLoop_stop tz ty endT fuel cur hlt
    have heq : {k | ruleDate tz ty cur k ≤ endT} = (↑(Finset.range L) : Set Nat) := by
      apply Set.Subset.antisymm _ hsub
      intro k hk
      simp only [Finset.coe_range, Set.mem_Iio]
      by_contra hcon
      have h1 : ruleDate tz ty cur L ≤ ruleDate tz ty cur k :=
        ruleDate_mono tz ty cur (not_lt.mp hcon)
      have h2 : ruleDate tz ty cur k ≤ endT := hk
      exact absurd (lt_of_lt_of_le hstop (le_trans h1 h2)) (lt_irrefl _)
    rw [heq, hcard]
    exact (min_eq_right (by exact_mod_cast hle)).symm
  · have hLf : L = fuel := le_antisymm hle hge
    have h1 : (L : ℕ∞) ≤ Set.encard {k | ruleDate tz ty cur k ≤ endT} := by
      rw [← hcard]
      exact Set.encard_le_card hsub
    rw [← hLf]
    exact (min_eq_left h1).symm

end CuteCalender

namespace CuteCalender

/-! ## `createRepeatEvents` -/

/-- When `createRepeatEvents` resolves, the array it returns is the array
built by its loop, with the repeat id allocated at the start of the call. -/
theorem createRepeatEvents_ok (tz now : Int) (stamps : Nat → String × String) (s : Store)
    (base : Event) (ty : String) (endDate : Option String) (evs : List Event) (s' : Store)
    (h : createRepeatEvents tz now stamps s base ty endDate = (Except.ok evs, s')) :
    evs = repeatInstances tz now base ty endDate (s.lastRepeatId.getD 0 + 1) := by
  unfold createRepeatEvents getNextRepeatId at h
  simp only [] at h
  split at h
  · simp at h
  · simp only [Prod.mk.injEq, Except.ok.injEq] at h
    exact h.1.symm

theorem repeatInstances_length (tz now : Int) (base : Event) (ty : String)
    (endDate : Option String) (rid : Nat) :
    (repeatInstances tz now base ty endDate rid).length =
      (repeatTimes tz now base.date ty endDate).length := by
  simp [repeatInstances]

theorem datesOf_repeatInstances (tz now : Int) (base : Event) (ty : String)
    (endDate : Option String) (rid : Nat) :
    datesOf (repeatInstances tz now base ty endDate rid) =
      (repeatTimes tz now base.date ty endDate).map fun t => some (getLocalDateString tz t) := by
  simp [datesOf, repeatInstances, repeatInstance, Function.comp_def]

/-- The time values of the generated instances increase strictly when the rule
is one of the four recognised ones. -/
theorem repeatLoop_chain (tz : Int) (ty : String) (endT : Int)
    (hty : ty = "daily" ∨ ty = "weekly" ∨ ty = "monthly" ∨ ty = "yearly")
    (fuel : Nat) (cur : Int) :
    List.Chain' (fun a b => a < b ∧ b = advance tz ty a) (repeatLoop tz ty endT fuel cur) := by
  induction fuel generalizing cur with
  | zero => simp [repeatLoop]
  | succ n ih =>
    unfold repeatLoop
    split_ifs with h
    · rw [List.chain'_cons']
      refine ⟨?_, ih _⟩
      intro b hb
      cases n with
      | zero => simp [repeatLoop] at hb
      | succ m =>
        unfold repeatLoop at hb
        split_ifs at hb
        · simp only [List.head?_cons, Option.mem_def, Option.some.injEq] at hb
          subst hb
          exact ⟨advance_gt tz ty cur hty, rfl⟩
        · simp at hb
    · simp

/-- The local calendar day of a time value. -/
theorem localDay_advance_daily (tz cur : Int) :
    localDay tz (advance tz "daily" cur) = localDay tz cur + 1 := by
  unfold advance
  simp only [if_true]
  rw [setDate_getDate_add]
  unfold localDay localTime msPerDay
  omega

theorem localDay_advance_weekly (tz cur : Int) :
    localDay tz (advance tz "weekly" cur) = localDay tz cur + 7 := by
  unfold advance
  rw [if_neg (by decide), if_pos rfl, setDate_getDate_add]
  unfold localDay localTime msPerDay
  omega

/-- The daily rule advances by whole days. -/
theorem ruleDate_daily (tz t0 : Int) (k : Nat) :
    ruleDate tz "daily" t0 k = t0 + k * msPerDay := by
  induction k with
  | zero => simp [ruleDate]
  | succ n ih =>
    rw [ruleDate_succ_outer, ih]
    unfold advance
    simp only [if_true]
    rw [setDate_getDate_add]
    push_cast
    ring

/-- The weekly rule advances by whole weeks. -/
theorem ruleDate_weekly (tz t0 : Int) (k : Nat) :
    ruleDate tz "weekly" t0 k = t0 + k * (7 * msPerDay) := by
  induction k with
  | zero => simp [ruleDate]
  | succ n ih =>
    rw [ruleDate_succ_outer, ih]
    unfold advance
    rw [if_neg (by decide), if_pos rfl, setDate_getDate_add]
    push_cast
    ring

/-- The loop runs to the cap when the last rule date under the cap is still
within the horizon. -/
theorem repeatLoop_full (tz : Int) (ty : String) (endT : Int) (fuel : Nat) (cur : Int)
    (h : 0 < fuel → ruleDate tz ty cur (fuel - 1) ≤ endT) :
    (repeatLoop tz ty endT fuel cur).length = fuel := by
  rcases Nat.lt_or_ge (repeatLoop tz ty endT fuel cur).length fuel with hlt | hge
  · have hs := repeatLoop_stop tz ty endT fuel cur hlt
    have hm : ruleDate tz ty cur (repeatLoop tz ty endT fuel cur).length ≤
        ruleDate tz ty cur (fuel - 1) := ruleDate_mono tz ty cur (by omega)
    have := h (by omega)
    omega
  · exact le_antisymm (repeatLoop_length_le tz ty endT fuel cur) hge

/-- The example of C2: a daily series from 2024-01-01 with the horizon
2029-01-01, five years away, yields exactly 1000 instances, in any zone. -/
theorem daily_five_years_hits_cap (tz now : Int) (rid : Nat) :
    (repeatInstances tz now standup "daily" (some "2029-01-01") rid).length = 1000 := by
  rw [repeatInstances_length]
  have e1 : newDate standup.date = some 1704067200000 := by decide
  have e2 : repeatHorizon tz now (some "2029-01-01") = some 1861920000000 := by
    unfold repeatHorizon
    simp only []
    rw [if_neg (by decide)]
    decide
  unfold repeatTimes
  rw [e1, e2]
  simp only []
  apply repeatLoop_full
  intro _
  rw [ruleDate_daily]
  unfold msPerDay maxEvents
  norm_num

/-- C1 (code defect): in a host five hours west of UTC the daily expansion of
the origin 2024-03-01 up to 2024-03-03 is dated 2024-02-29, 2024-03-01 and
2024-03-02, so the sequence of instance dates does not start at the origin
date. -/
theorem createRepeatEvents_daily_west_of_utc :
    datesOf (returned (createRepeatEvents (-300) 0 (fixedClock "2024-03-01T14:00:00.000Z") {}
      { title := some "Run", date := some "2024-03-01", category := some "personal" }
      "daily" (some "2024-03-03"))) =
      [some "2024-02-29", some "2024-03-01", some "2024-03-02"] ∧
    (datesOf (returned (createRepeatEvents (-300) 0 (fixedClock "2024-03-01T14:00:00.000Z") {}
      { title := some "Run", date := some "2024-03-01", category := some "personal" }
      "daily" (some "2024-03-03")))).head? ≠ some (some "2024-03-01") := by decide

/-- C3 (code defect): the weekly scenario of the specification, run in a host
eight hours west of UTC, yields the dates 2023-12-31, 2024-01-07, 2024-01-14
and 2024-01-21 instead of 2024-01-01, ..., 2024-01-22; all four instances carry
the newly allocated repeat id 1. -/
theorem createRepeatEvents_weekly_scenario_west_of_utc :
    (returned (createRepeatEvents (-480) 0 (fixedClock "2024-01-01T17:00:00.000Z") {} standup
      "weekly" (some "2024-01-22"))).map (fun e => (e.date, e.repeatId)) =
      [(some "2023-12-31", some 1), (some "2024-01-07", some 1), (some "2024-01-14", some 1),
       (some "2024-01-21", some 1)] ∧
    datesOf (returned (createRepeatEvents (-480) 0 (fixedClock "2024-01-01T17:00:00.000Z") {}
      standup "weekly" (some "2024-01-22"))) ≠
      [some "2024-01-01", some "2024-01-08", some "2024-01-15", some "2024-01-22"] := by decide

/-- The weekly scenario of the specification in a host on UTC. -/
theorem createRepeatEvents_weekly_scenario_utc :
    (returned (createRepeatEvents 0 0 (fixedClock "2024-01-01T09:00:00.000Z") {} standup
      "weekly" (some "2024-01-22"))).map (fun e => (e.date, e.repeatId)) =
    [(some "2024-01-01", some 1), (some "2024-01-08", some 1), (some "2024-01-15", some 1),
     (some "2024-01-22", some 1)] := by decide

/-- C4, as stated, fails: on 2024-06-10 (UTC) a yearly series with the origin
2020-01-01 and no end date has instances after the origin plus one year
(2021-01-01): it runs until 2025-01-01.  The same call made on 2020-09-13
stops at 2021-01-01, so the result depends on the current date: the horizon
follows today, not the origin. -/
theorem createRepeatEvents_default_horizon_follows_today :
    newDate (some "2020-01-01") = some 1577836800000 ∧
    getLocalDateString 0 (originPlusOneYear 0 1577836800000) = "2021-01-01" ∧
    (∃ t ∈ repeatTimes 0 1718000000000 (some "2020-01-01") "yearly" none,
      originPlusOneYear 0 1577836800000 < t) ∧
    repeatTimes 0 1718000000000 (some "2020-01-01") "yearly" none ≠
      repeatTimes 0 1600000000000 (some "2020-01-01") "yearly" none ∧
    datesOf (returned (createRepeatEvents 0 1718000000000 (fixedClock "2024-06-10T06:13:20.000Z") {}
      { title := some "Review", date := some "2020-01-01", category := some "work" }
      "yearly" none)) =
      [some "2020-01-01", some "2021-01-01", some "2022-01-01", some "2023-01-01",
       some "2024-01-01", some "2025-01-01"] ∧
    datesOf (returned (createRepeatEvents 0 1600000000000 (fixedClock "2020-09-13T12:26:40.000Z") {}
      { title := some "Review", date := some "2020-01-01", category := some "work" }
      "yearly" none)) = [some "2020-01-01", some "2021-01-01"] := by decide

/-- C4 (amended): without an end date the horizon is the current instant plus
one year: the generated dates are the rule dates from the origin, in order,
all of them not after that horizon, and unless the cap of 1000 is reached the
next rule date is past it. -/
theorem createRepeatEvents_default_horizon (tz now : Int) (stamps : Nat → String × String)
    (s : Store) (base : Event) (ty : String) (evs : List Event) (s' : Store) (t0 : Int)
    (h0 : newDate base.date = some t0)
    (h : createRepeatEvents tz now stamps s base ty none = (Except.ok evs, s')) :
    evs.length ≤ 1000 ∧
    datesOf evs = (List.range evs.length).map
      (fun k => some (getLocalDateString tz (ruleDate tz ty t0 k))) ∧
    (∀ k, k < evs.length → ruleDate tz ty t0 k ≤ nowPlusOneYear tz now) ∧
    (evs.length < 1000 → nowPlusOneYear tz now < ruleDate tz ty t0 evs.length) := by
  have he := createRepeatEvents_ok tz now stamps s base ty none evs s' h
  subst he
  have hT : repeatTimes tz now base.date ty none =
      repeatLoop tz ty (nowPlusOneYear tz now) maxEvents t0 := by
    unfold repeatTimes repeatHorizon nowPlusOneYear
    rw [h0]
  rw [datesOf_repeatInstances, repeatInstances_length, hT]
  refine ⟨repeatLoop_length_le _ _ _ _ _, ?_, ?_, ?_⟩
  · conv_lhs => rw [repeatLoop_eq_map]
    rw [List.map_map]
    rfl
  · intro k hk
    exact repeatLoop_within _ _ _ _ _ k hk
  · intro hlt
    exact repeatLoop_stop _ _ _ _ _ hlt

theorem createRepeatEvents_default_horizon_witness :
    datesOf (returned (createRepeatEvents 0 1600000000000 (fixedClock "2020-09-13T12:26:40.000Z") {}
      { title := some "Review", date := some "2020-01-01", category := some "work" }
      "yearly" none)) =
      (List.range 2).map (fun k => some (getLocalDateString 0 (ruleDate 0 "yearly" 1577836800000 k))) ∧
    nowPlusOneYear 0 1600000000000 < ruleDate 0 "yearly" 1577836800000 2 := by
  have h := createRepeatEvents_default_horizon 0 1600000000000
    (fixedClock "2020-09-13T12:26:40.000Z") {}
    { title := some "Review", date := some "2020-01-01", category := some "work" } "yearly"
    (returned (createRepeatEvents 0 1600000000000 (fixedClock "2020-09-13T12:26:40.000Z") {}
      { title := some "Review", date := some "2020-01-01", category := some "work" }
      "yearly" none))
    (createRepeatEvents 0 1600000000000 (fixedClock "2020-09-13T12:26:40.000Z") {}
      { title := some "Review", date := some "2020-01-01", category := some "work" }
      "yearly" none).2 1577836800000 (by decide) rfl
  have e3 : (returned (createRepeatEvents 0 1600000000000
      (fixedClock "2020-09-13T12:26:40.000Z") {}
      { title := some "Review", date := some "2020-01-01", category := some "work" }
      "yearly" none)).length = 2 := by decide
  rw [e3] at h
  exact ⟨h.2.1, h.2.2.2 (by norm_num)⟩

end CuteCalender

namespace CuteCalender

/-! ## Instance dates as local calendar days -/

theorem getLocalDateString_eq (tz t : Int) :
    getLocalDateString tz t = dateStringOfDay (localDay tz t) := rfl

/-- A step of the rule acts on the local calendar day alone: the time within
the day and the zone play no part. -/
theorem localDay_advance (tz : Int) (ty : String) (cur : Int) :
    localDay tz (advance tz ty cur) = stepDay ty (localDay tz cur) := by
  have hb := localTimeInDay_bounds tz cur
  unfold advance stepDay
  split_ifs
  · rw [setDate_getDate_add]; unfold localDay localTime msPerDay; omega
  · rw [setDate_getDate_add]; unfold localDay localTime msPerDay; omega
  · unfold setMonth getFullYear getMonth getDate
    exact localDay_fromLocal tz _ _ hb.1 hb.2
  · unfold setFullYear getFullYear getMonth getDate
    exact localDay_fromLocal tz _ _ hb.1 hb.2
  · rfl

/-- A step of a recognised rule leads to a later calendar day. -/
theorem stepDay_gt (ty : String) (z : Int)
    (hty : ty = "daily" ∨ ty = "weekly" ∨ ty = "monthly" ∨ ty = "yearly") :
    z < stepDay ty z := by
  unfold stepDay
  rcases hty with h | h | h | h <;> subst h
  · simp
  · rw [if_neg (by decide), if_pos rfl]; omega
  · rw [if_neg (by decide), if_neg (by decide), if_pos rfl]; exact makeDay_nextMonth_gt z
  · rw [if_neg (by decide), if_neg (by decide), if_neg (by decide), if_pos rfl]
    exact makeDay_nextYear_gt z

/-- The local day on which a date-only string falls: the day it names in a
zone at or east of UTC, the day before in a zone west of UTC. -/
theorem localDay_parseISODate (tz : Int) (str : String) (y m d : Int)
    (hp : parseYMD str = some (y, m, d)) (t0 : Int) (h0 : parseISODate str = some t0) :
    (0 ≤ tz → tz < 1440 → localDay tz t0 = makeDay y (m - 1) d) ∧
    (-1440 ≤ tz → tz < 0 → localDay tz t0 = makeDay y (m - 1) d - 1) := by
  unfold parseISODate at h0
  rw [hp] at h0
  simp only [Option.map_some', Option.some.injEq] at h0
  subst h0
  unfold localDay localTime msPerDay msPerMinute
  constructor
  · intro h1 h2; omega
  · intro h1 h2; omega

/-- The local calendar days of the generated instances: each is obtained from
the one before by one calendar step of the rule and is later than it. -/
theorem repeatLoop_localDays (tz : Int) (ty : String) (endT : Int)
    (hty : ty = "daily" ∨ ty = "weekly" ∨ ty = "monthly" ∨ ty = "yearly")
    (fuel : Nat) (cur : Int) :
    List.Chain' (fun a b => a < b ∧ b = stepDay ty a)
      ((repeatLoop tz ty endT fuel cur).map (localDay tz)) := by
  have h := repeatLoop_chain tz ty endT hty fuel cur
  rw [List.chain'_map]
  refine h.imp ?_
  rintro a b ⟨_, hb⟩
  subst hb
  rw [localDay_advance]
  exact ⟨stepDay_gt ty _ hty, rfl⟩

/-- In a host at or east of UTC the first generated instance, if there is one,
falls on the origin date. -/
theorem repeatTimes_head_east_of_utc (tz now : Int) (str : String) (ty : String)
    (endDate : Option String) (y m d : Int) (hp : parseYMD str = some (y, m, d))
    (h1 : 0 ≤ tz) (h2 : tz < 1440) (t : Int)
    (ht : (repeatTimes tz now (some str) ty endDate).head? = some t) :
    localDay tz t = makeDay y (m - 1) d := by
  unfold repeatTimes newDate at ht
  dsimp only at ht
  cases h0 : parseISODate str with
  | none => rw [h0] at ht; simp at ht
  | some t0 =>
    rw [h0] at ht
    cases he : repeatHorizon tz now endDate with
    | none => rw [he] at ht; simp at ht
    | some endT =>
      rw [he] at ht
      dsimp only at ht
      unfold maxEvents repeatLoop at ht
      split_ifs at ht
      · simp only [List.head?_cons, Option.some.injEq] at ht
        subst ht
        exact (localDay_parseISODate tz str y m d hp t0 h0).1 h1 h2
      · simp at ht

/-- In a host at or east of UTC a weekly expansion with an end date yields
exactly the days `origin + 7k` that are not after the end date, the end date
included, up to the cap. -/
theorem repeatTimes_weekly_east_of_utc (tz now : Int) (origin endDate : String) (D0 DE : Int)
    (h1 : 0 ≤ tz) (h2 : tz < 1440) (ho : parseISODate origin = some (D0 * msPerDay))
    (he : parseISODate endDate = some (DE * msPerDay)) :
    (repeatTimes tz now (some origin) "weekly" (some endDate)).map (localDay tz) =
      (List.range (repeatTimes tz now (some origin) "weekly" (some endDate)).length).map
        (fun (k : Nat) => D0 + 7 * (k : Int)) ∧
    (∀ k : Nat, k < (repeatTimes tz now (some origin) "weekly" (some endDate)).length →
      D0 + 7 * (k : Int) ≤ DE) ∧
    ((repeatTimes tz now (some origin) "weekly" (some endDate)).length < 1000 →
      DE < D0 + 7 * ((repeatTimes tz now (some origin) "weekly" (some endDate)).length : Int)) := by
  have hempty : parseISODate "" = none := by decide
  have hne : endDate ≠ "" := by
    intro h
    rw [h, hempty] at he
    exact Option.noConfusion he
  have hT : repeatTimes tz now (some origin) "weekly" (some endDate) =
      repeatLoop tz "weekly" (DE * msPerDay) maxEvents (D0 * msPerDay) := by
    unfold repeatTimes repeatHorizon newDate
    dsimp only
    rw [if_neg hne, ho, he]
  rw [hT]
  have hw := repeatLoop_within tz "weekly" (DE * msPerDay) maxEvents (D0 * msPerDay)
  have hs := repeatLoop_stop tz "weekly" (DE * msPerDay) maxEvents (D0 * msPerDay)
  have hm := repeatLoop_eq_map tz "weekly" (DE * msPerDay) maxEvents (D0 * msPerDay)
  generalize (repeatLoop tz "weekly" (DE * msPerDay) maxEvents (D0 * msPerDay)).length = L at *
  refine ⟨?_, ?_, ?_⟩
  · rw [hm, List.map_map]
    apply List.map_congr_left
    intro k _
    simp only [Function.comp_apply]
    rw [ruleDate_weekly]
    unfold localDay localTime msPerDay msPerMinute
    omega
  · intro k hk
    have := hw k hk
    rw [ruleDate_weekly] at this
    unfold msPerDay at this
    omega
  · intro hlt
    have := hs hlt
    rw [ruleDate_weekly] at this
    unfold msPerDay at this
    omega

end CuteCalender

namespace CuteCalender

/-! ## The store -/

theorem mem_insertByKey (e x : Event) (l : List Event) :
    x ∈ insertByKey e l ↔ x = e ∨ x ∈ l := by
  induction l with
  | nil => simp [insertByKey]
  | cons a t ih =>
    unfold insertByKey
    split_ifs
    · simp
    · simp only [List.mem_cons, ih]
      tauto

theorem insertByKey_perm (e : Event) (l : List Event) : (insertByKey e l).Perm (e :: l) := by
  induction l with
  | nil => simp [insertByKey]
  | cons a t ih =>
    unfold insertByKey
    split_ifs
    · exact List.Perm.refl _
    · exact (List.Perm.cons a ih).trans (List.Perm.swap e a t)

theorem coherent_empty : Coherent {} := by
  refine ⟨List.Perm.refl _, ?_, ?_⟩ <;> simp

/-- What a successful `addEvent` does to the state. -/
theorem addEvent_ok (ok : Bool) (c u : String) (s : Store) (d stored : Event) (s' : Store)
    (h : addEvent ok c u s d = (Except.ok stored, s')) :
    titleBlank d.title = false ∧
    stored = { d with createdAt := some c, updatedAt := some u,
                      id := some (match d.id with | some k => k | none => s.keyGen) } ∧
    (∀ e ∈ s.persisted, e.id ≠ stored.id) ∧
    s'.events = s.events ++ [stored] ∧
    s'.persisted = insertByKey stored s.persisted ∧
    s'.lastRepeatId = s.lastRepeatId ∧
    s'.emitted = s.emitted ++ [Notification.eventAdded stored] := by
  unfold addEvent at h
  dsimp only at h
  split_ifs at h with h1 h2 h3
  · simp at h
  · simp at h
  · simp at h
  all_goals
    simp only [Prod.mk.injEq, Except.ok.injEq] at h
    obtain ⟨hs, hs'⟩ := h
    subst hs hs'
    refine ⟨by simpa using h1, rfl, ?_, rfl, rfl, rfl, rfl⟩
    intro e he
    simp only [List.any_eq_true, not_exists, not_and, beq_iff_eq] at h3
    exact h3 e he

/-- A rejected `addEvent` leaves the state as it was. -/
theorem addEvent_error (ok : Bool) (c u : String) (s : Store) (d : Event) (err : StoreError)
    (s' : Store) (h : addEvent ok c u s d = (Except.error err, s')) : s' = s := by
  unfold addEvent at h
  dsimp only at h
  split_ifs at h <;> simp_all

theorem coherent_addEvent (ok : Bool) (c u : String) (s : Store) (d : Event)
    (hc : Coherent s) : Coherent (addEvent ok c u s d).2 := by
  cases hres : addEvent ok c u s d with
  | mk r s' =>
    cases r with
    | error err => rw [addEvent_error ok c u s d err s' hres]; exact hc
    | ok stored =>
      obtain ⟨_, hst, hfresh, hev, hper, _, _⟩ := addEvent_ok ok c u s d stored s' hres
      obtain ⟨h1, h2, h3⟩ := hc
      have hid : stored.id = some (keyOf stored) := by rw [hst]; rfl
      refine ⟨?_, ?_, ?_⟩
      · show s'.events.Perm s'.persisted
        rw [hev, hper]
        refine List.Perm.trans ?_ (insertByKey_perm stored s.persisted).symm
        exact (List.perm_append_singleton stored s.events).trans (List.Perm.cons stored h1)
      · show (s'.persisted.map keyOf).Nodup
        rw [hper]
        have hp := (insertByKey_perm stored s.persisted).map keyOf
        rw [hp.nodup_iff, List.map_cons, List.nodup_cons]
        refine ⟨?_, h2⟩
        intro hmem
        obtain ⟨e, he, hk⟩ := List.mem_map.mp hmem
        apply hfresh e he
        rw [h3 e he, hid, hk]
      · show ∀ e ∈ s'.persisted, e.id = some (keyOf e)
        rw [hper]
        intro e he
        rcases (mem_insertByKey stored e s.persisted).mp he with rfl | he
        · exact hid
        · exact h3 e he

/-- On a consistent store the cache filter of `deleteEventsByRepeatId`, which
goes by the collected ids, removes exactly the records in scope. -/
theorem deleteEventsByRepeatId_events (s : Store) (r : Nat) (fromDate : Option String)
    (hc : Coherent s) :
    (deleteEventsByRepeatId s r fromDate).2.events =
      s.events.filter (fun e => !inDeleteScope r fromDate e) := by
  obtain ⟨h1, h2, h3⟩ := hc
  show s.events.filter _ = _
  apply List.filter_congr
  intro e he
  have hep : e ∈ s.persisted := h1.subset he
  rw [h3 e hep]
  simp only []
  congr 1
  rw [Bool.eq_iff_iff]
  simp only [List.contains_iff_exists_mem_beq, List.mem_map, beq_iff_eq, List.mem_filter]
  constructor
  · rintro ⟨k, ⟨x, ⟨hx, hin⟩, hk⟩, hk2⟩
    have : x = e := by
      apply List.inj_on_of_nodup_map h2 hx hep
      rw [hk, hk2]
    rw [← this]; exact hin
  · intro hin
    exact ⟨keyOf e, ⟨e, ⟨hep, hin⟩, rfl⟩, rfl⟩

theorem deleteEventsByRepeatId_persisted (s : Store) (r : Nat) (fromDate : Option String) :
    (deleteEventsByRepeatId s r fromDate).2.persisted =
      s.persisted.filter (fun e => !inDeleteScope r fromDate e) := rfl

theorem coherent_deleteEventsByRepeatId (s : Store) (r : Nat) (fromDate : Option String)
    (hc : Coherent s) : Coherent (deleteEventsByRepeatId s r fromDate).2 := by
  have he := deleteEventsByRepeatId_events s r fromDate hc
  obtain ⟨h1, h2, h3⟩ := hc
  refine ⟨?_, ?_, ?_⟩
  · rw [he, deleteEventsByRepeatId_persisted]
    exact h1.filter _
  · rw [deleteEventsByRepeatId_persisted]
    exact (List.filter_sublist _).map keyOf |>.nodup h2
  · rw [deleteEventsByRepeatId_persisted]
    intro e hmem
    exact h3 e (List.mem_filter.mp hmem).1

theorem coherent_addAll (stamps : Nat → String × String) (k : Nat) (s : Store)
    (l : List Event) (hc : Coherent s) : Coherent (addAll stamps k s l).2 := by
  induction l generalizing k s with
  | nil => exact hc
  | cons e es ih =>
    unfold addAll
    have h1 := coherent_addEvent true (stamps k).1 (stamps k).2 s e hc
    cases hres : addEvent true (stamps k).1 (stamps k).2 s e with
    | mk r s1 =>
      rw [hres] at h1
      cases r with
      | error err => exact h1
      | ok st => exact ih (k + 1) s1 h1

theorem coherent_createRepeatEvents (tz now : Int) (stamps : Nat → String × String) (s : Store)
    (base : Event) (ty : String) (endDate : Option String) (hc : Coherent s) :
    Coherent (createRepeatEvents tz now stamps s base ty endDate).2 := by
  unfold createRepeatEvents getNextRepeatId
  dsimp only
  have h := coherent_addAll stamps 0 { s with lastRepeatId := some (s.lastRepeatId.getD 0 + 1) }
    (repeatInstances tz now base ty endDate (s.lastRepeatId.getD 0 + 1)) hc
  cases hres : addAll stamps 0 { s with lastRepeatId := some (s.lastRepeatId.getD 0 + 1) }
    (repeatInstances tz now base ty endDate (s.lastRepeatId.getD 0 + 1)) with
  | mk r s2 =>
    rw [hres] at h
    cases r with
    | error err => exact h
    | ok u => exact h

theorem inDeleteScope_some (r : Nat) (D : String) (hD : D ≠ "") (e : Event) :
    inDeleteScope r (some D) e = (e.repeatId == some r && dateGe e.date D) := by
  unfold inDeleteScope
  have : (D == "") = false := by simpa using hD
  simp [this]

/-- With a non-empty pivot, the cache after `deleteEventsByRepeatId` is the
cache before without the records of the series dated at or after the pivot. -/
theorem deleteEventsByRepeatId_events_from (s : Store) (r : Nat) (D : String)
    (hc : Coherent s) (hD : D ≠ "") :
    (deleteEventsByRepeatId s r (some D)).2.events =
      s.events.filter (fun e => !(e.repeatId == some r && dateGe e.date D)) := by
  have hfun : (fun e => !inDeleteScope r (some D) e) =
      (fun e => !(e.repeatId == some r && dateGe e.date D)) := by
    funext e; rw [inDeleteScope_some r D hD]
  rw [deleteEventsByRepeatId_events s r (some D) hc, hfun]

/-- C5: on a consistent store whose records of series `r` are all dated,
`deleteEventsByRepeatId(r, D)` with a non-empty date `D` removes from the cache
and from the object store exactly the records with repeat id `r` and
`date >= D`; the records of series `r` that remain are exactly those that had
`date < D`, and `deletedCount` is the number of records of the series with
`date >= D`. -/
theorem deleteEventsByRepeatId_from_date (s : Store) (r : Nat) (D : String)
    (hc : Coherent s) (hD : D ≠ "")
    (hdated : ∀ e ∈ s.events, e.repeatId = some r → e.date ≠ none) :
    (deleteEventsByRepeatId s r (some D)).2.events =
        s.events.filter (fun e => !(e.repeatId == some r && dateGe e.date D)) ∧
    (deleteEventsByRepeatId s r (some D)).2.persisted =
        s.persisted.filter (fun e => !(e.repeatId == some r && dateGe e.date D)) ∧
    seriesOf r (deleteEventsByRepeatId s r (some D)).2.events =
        (seriesOf r s.events).filter (fun e => dateLt e.date D) ∧
    (deleteEventsByRepeatId s r (some D)).1.1 =
        ((seriesOf r s.events).filter (fun e => dateGe e.date D)).length := by
  have hfun : (fun e => !inDeleteScope r (some D) e) =
      (fun e => !(e.repeatId == some r && dateGe e.date D)) := by
    funext e; rw [inDeleteScope_some r D hD]
  have hev := deleteEventsByRepeatId_events_from s r D hc hD
  refine ⟨hev, ?_, ?_, ?_⟩
  · rw [deleteEventsByRepeatId_persisted, hfun]
  · rw [hev]
    unfold seriesOf
    rw [List.filter_filter, List.filter_filter]
    apply List.filter_congr
    intro e he
    by_cases hr : e.repeatId = some r
    · have hd := hdated e he hr
      cases hdt : e.date with
      | none => exact absurd hdt hd
      | some x => simp [hr, dateGe, dateLt]
    · have hb : (e.repeatId == some r) = false := by simpa using hr
      simp [hb]
  · show (s.persisted.filter (inDeleteScope r (some D))).length = _
    have hp := (hc.1.filter (inDeleteScope r (some D))).length_eq
    rw [← hp]
    unfold seriesOf
    rw [List.filter_filter]
    congr 1
    apply List.filter_congr
    intro e _
    rw [inDeleteScope_some r D hD, Bool.and_comm]

theorem deleteEventsByRepeatId_from_date_witness :
    datesOf (deleteEventsByRepeatId weeklyStore 1 (some "2024-01-15")).2.events =
      [some "2024-01-01", some "2024-01-08"] ∧
    (deleteEventsByRepeatId weeklyStore 1 (some "2024-01-15")).1.1 = 2 := by
  have h := deleteEventsByRepeatId_from_date weeklyStore 1 "2024-01-15"
    (coherent_createRepeatEvents 0 0 (fixedClock "2024-01-01T09:00:00.000Z") {} standup "weekly"
      (some "2024-01-22") coherent_empty) (by decide) (by decide)
  refine ⟨?_, ?_⟩
  · rw [h.1]; decide
  · rw [h.2.2.2]; decide

/-- C6: on a consistent store, after `deleteEventsByRepeatId(r)` without a date
filter neither the cache nor the object store holds a record whose repeat id
is `r`. -/
theorem deleteEventsByRepeatId_whole_series (s : Store) (r : Nat) (hc : Coherent s) :
    seriesOf r (deleteEventsByRepeatId s r none).2.events = [] ∧
    seriesOf r (deleteEventsByRepeatId s r none).2.persisted = [] := by
  have hev := deleteEventsByRepeatId_events s r none hc
  refine ⟨?_, ?_⟩
  · rw [hev]
    unfold seriesOf
    rw [List.filter_filter, List.filter_eq_nil_iff]
    intro e _
    simp [inDeleteScope]
  · rw [deleteEventsByRepeatId_persisted]
    unfold seriesOf
    rw [List.filter_filter, List.filter_eq_nil_iff]
    intro e _
    simp [inDeleteScope]

theorem deleteEventsByRepeatId_whole_series_witness :
    weeklyStore.events.length = 4 ∧
    seriesOf 1 (deleteEventsByRepeatId weeklyStore 1 none).2.events = [] ∧
    seriesOf 1 (deleteEventsByRepeatId weeklyStore 1 none).2.persisted = [] :=
  ⟨by decide, deleteEventsByRepeatId_whole_series weeklyStore 1
    (coherent_createRepeatEvents 0 0 (fixedClock "2024-01-01T09:00:00.000Z") {} standup "weekly"
      (some "2024-01-22") coherent_empty)⟩

/-- C8: a 'single'-scope edit whose edited title is not blank, made at an
instant `now` that is not yet the key of a stored record, appends exactly one
record to the cache and adds it to the object store: the edited fields with
`repeatId = 0`, `isRepeatInstance = false` and `originalRepeatId` equal to the
repeat id of the edited instance.  All records present before, the edited
instance included, are still there unchanged, and the repeat-id counter is
untouched. -/
theorem handleRepeatEditConfirm_single (tz now : Int) (stamps : Nat → String × String)
    (s : Store) (editing selected : Event)
    (ht : titleBlank editing.title = false)
    (hfresh : ∀ e ∈ s.persisted, e.id ≠ some now.toNat) :
    (handleRepeatEditConfirm tz now stamps s "single" editing selected).events =
        s.events ++ [detachedRecord now (stamps 0) editing selected] ∧
    (handleRepeatEditConfirm tz now stamps s "single" editing selected).persisted.Perm
        (detachedRecord now (stamps 0) editing selected :: s.persisted) ∧
    (handleRepeatEditConfirm tz now stamps s "single" editing selected).lastRepeatId =
        s.lastRepeatId ∧
    (detachedRecord now (stamps 0) editing selected).repeatId = some 0 ∧
    (detachedRecord now (stamps 0) editing selected).isRepeatInstance = some false ∧
    (detachedRecord now (stamps 0) editing selected).originalRepeatId = selected.repeatId ∧
    (detachedRecord now (stamps 0) editing selected).title = editing.title ∧
    (detachedRecord now (stamps 0) editing selected).date = editing.date ∧
    (detachedRecord now (stamps 0) editing selected).time = editing.time ∧
    (detachedRecord now (stamps 0) editing selected).category = editing.category ∧
    (detachedRecord now (stamps 0) editing selected).details = editing.details := by
  have hany : (s.persisted.any fun e => e.id == some now.toNat) = false := by
    rw [List.any_eq_false]
    intro e he
    simpa using hfresh e he
  have hres : handleRepeatEditConfirm tz now stamps s "single" editing selected =
      emit { s with
        persisted := insertByKey (detachedRecord now (stamps 0) editing selected) s.persisted
        keyGen := if s.keyGen ≤ now.toNat then now.toNat + 1 else s.keyGen
        events := s.events ++ [detachedRecord now (stamps 0) editing selected] }
        (Notification.eventAdded (detachedRecord now (stamps 0) editing selected)) := by
    unfold handleRepeatEditConfirm addEvent
    simp only [if_true, ht, hany, Bool.false_eq_true, if_false, Bool.not_true]
    rfl
  rw [hres]
  exact ⟨rfl, insertByKey_perm _ _, rfl, rfl, rfl, rfl, rfl, rfl, rfl, rfl, rfl⟩

theorem handleRepeatEditConfirm_single_witness :
    (handleRepeatEditConfirm 0 1704790800000 (fixedClock "2024-01-09T09:00:00.000Z") weeklyStore
      "single" { title := some "Standup (moved)", date := some "2024-01-09",
                 time := some "10:30", category := some "work" }
      { standup with id := some 2, date := some "2024-01-08", repeatId := some 1 }).events.map
      (fun e => (e.id, e.date, e.repeatId, e.originalRepeatId)) =
    [(some 1, some "2024-01-01", some 1, none), (some 2, some "2024-01-08", some 1, none),
     (some 3, some "2024-01-15", some 1, none), (some 4, some "2024-01-22", some 1, none),
     (some 1704790800000, some "2024-01-09", some 0, some 1)] := by
  have h := handleRepeatEditConfirm_single 0 1704790800000
    (fixedClock "2024-01-09T09:00:00.000Z") weeklyStore
    { title := some "Standup (moved)", date := some "2024-01-09",
      time := some "10:30", category := some "work" }
    { standup with id := some 2, date := some "2024-01-08", repeatId := some 1 }
    (by decide) (by decide)
  rw [h.1]
  decide

/-- C7 (code defect): after an import into a new database the counter
`lastRepeatId` is still 0 although the imported series carries repeat id 1.
A 'future'-scope edit of the instance of 2025-01-01 of that series, made on
2024-06-10 in a host on UTC, recreates the tail under the repeat id 1 again:
the recreated instance has the repeat id of the old series, and a record with
that repeat id and a date not before the pivot is in the store. -/
theorem handleRepeatEditConfirm_future_reuses_repeat_id :
    importedStore.lastRepeatId = some 0 ∧
    importedSecond ∈ importedStore.events ∧
    importedStore.events.map (fun e => (e.id, e.title, e.date, e.repeatId)) =
      [(some 1, some "Review", some "2024-01-01", some 1),
       (some 2, some "Review", some "2025-01-01", some 1),
       (some 3, some "Review", some "2026-01-01", some 1)] ∧
    editedImportedStore.events.map (fun e => (e.id, e.title, e.date, e.repeatId)) =
      [(some 1, some "Review", some "2024-01-01", some 1),
       (some 4, some "Review (new)", some "2025-01-01", some 1)] ∧
    (∃ e ∈ editedImportedStore.events,
      e.repeatId = some 1 ∧ dateGe e.date "2025-01-01" = true) := by decide

end CuteCalender

namespace CuteCalender

/-! ## The 'future'-scope edit on a store whose counter is up to date -/

theorem addAll_events (stamps : Nat → String × String) (k : Nat) (s : Store) (l : List Event) :
    ∃ added, (addAll stamps k s l).2.events = s.events ++ added ∧
      (addAll stamps k s l).2.lastRepeatId = s.lastRepeatId ∧
      ∀ x ∈ added, ∃ e ∈ l, x.repeatId = e.repeatId ∧ x.date = e.date ∧ x.title = e.title := by
  induction l generalizing k s with
  | nil => exact ⟨[], by simp [addAll], rfl, by simp⟩
  | cons e es ih =>
    unfold addAll
    cases hres : addEvent true (stamps k).1 (stamps k).2 s e with
    | mk r s1 =>
      cases r with
      | error err =>
        rw [addEvent_error _ _ _ _ _ _ _ hres]
        exact ⟨[], by simp, rfl, by simp⟩
      | ok st =>
        obtain ⟨_, hst, _, hev, _, hlast, _⟩ := addEvent_ok _ _ _ _ _ _ _ hres
        obtain ⟨added, h1, h2, h3⟩ := ih (k + 1) s1
        refine ⟨st :: added, ?_, ?_, ?_⟩
        · show (addAll stamps (k + 1) s1 es).2.events = _
          rw [h1, hev, List.append_assoc]
          rfl
        · show (addAll stamps (k + 1) s1 es).2.lastRepeatId = _
          rw [h2, hlast]
        · intro x hx
          rcases List.mem_cons.mp hx with rfl | hx
          · exact ⟨e, List.mem_cons_self _ _, by rw [hst], by rw [hst], by rw [hst]⟩
          · obtain ⟨e', he', h'⟩ := h3 x hx
            exact ⟨e', List.mem_cons_of_mem _ he', h'⟩

/-- The cache after `createRepeatEvents` is the cache before, followed by
inserted instances that all carry the repeat id allocated by the call. -/
theorem createRepeatEvents_events (tz now : Int) (stamps : Nat → String × String) (s : Store)
    (base : Event) (ty : String) (endDate : Option String) :
    ∃ added, (createRepeatEvents tz now stamps s base ty endDate).2.events = s.events ++ added ∧
      (createRepeatEvents tz now stamps s base ty endDate).2.lastRepeatId =
        some (s.lastRepeatId.getD 0 + 1) ∧
      ∀ x ∈ added, x.repeatId = some (s.lastRepeatId.getD 0 + 1) := by
  obtain ⟨added, h1, h2, h3⟩ := addAll_events stamps 0
    { s with lastRepeatId := some (s.lastRepeatId.getD 0 + 1) }
    (repeatInstances tz now base ty endDate (s.lastRepeatId.getD 0 + 1))
  refine ⟨added, ?_, ?_, ?_⟩
  · unfold createRepeatEvents getNextRepeatId
    dsimp only
    cases hres : addAll stamps 0 { s with lastRepeatId := some (s.lastRepeatId.getD 0 + 1) }
      (repeatInstances tz now base ty endDate (s.lastRepeatId.getD 0 + 1)) with
    | mk r s2 =>
      rw [hres] at h1
      cases r with
      | error err => exact h1
      | ok u => exact h1
  · unfold createRepeatEvents getNextRepeatId
    dsimp only
    cases hres : addAll stamps 0 { s with lastRepeatId := some (s.lastRepeatId.getD 0 + 1) }
      (repeatInstances tz now base ty endDate (s.lastRepeatId.getD 0 + 1)) with
    | mk r s2 =>
      rw [hres] at h2
      cases r with
      | error err => exact h2
      | ok u => exact h2
  · intro x hx
    obtain ⟨e, he, hrid, _, _⟩ := h3 x hx
    rw [hrid]
    unfold repeatInstances at he
    obtain ⟨t, _, rfl⟩ := List.mem_map.mp he
    rfl

/-- The 'future'-scope edit on a consistent store whose repeat-id counter is
not behind the repeat id `r` of the edited instance: the records of series `r`
dated before the pivot `D` stay in the cache, the recreated records carry a
repeat id different from `r`, and a record with repeat id `r` that is in the
cache afterwards was there before and is dated before `D`. -/
theorem handleRepeatEditConfirm_future_frame (tz now : Int) (stamps : Nat → String × String)
    (s : Store) (editing selected : Event) (r : Nat) (D : String)
    (hc : Coherent s) (hsel : selected.repeatId = some r) (hD : selected.date = some D)
    (hDne : D ≠ "") (hcounter : r ≤ s.lastRepeatId.getD 0)
    (hdated : ∀ e ∈ s.events, e.repeatId = some r → e.date ≠ none) :
    (∀ e ∈ s.events, e.repeatId = some r → dateLt e.date D = true →
      e ∈ (handleRepeatEditConfirm tz now stamps s "future" editing selected).events) ∧
    (∀ e ∈ (handleRepeatEditConfirm tz now stamps s "future" editing selected).events,
      e.repeatId = some r → e ∈ s.events ∧ dateLt e.date D = true) ∧
    ∃ added, (handleRepeatEditConfirm tz now stamps s "future" editing selected).events =
      s.events.filter (fun e => !(e.repeatId == some r && dateGe e.date D)) ++ added ∧
      ∀ x ∈ added, x.repeatId = some (s.lastRepeatId.getD 0 + 1) ∧
        s.lastRepeatId.getD 0 + 1 ≠ r := by
  have hdel := deleteEventsByRepeatId_events_from s r D hc hDne
  have hres : handleRepeatEditConfirm tz now stamps s "future" editing selected =
      (createRepeatEvents tz now stamps (deleteEventsByRepeatId s r (some D)).2
        { editing with repeatId := some now.toNat, date := some D }
        (match selected.repeatType with
          | none => "weekly"
          | some t => if t = "" then "weekly" else t)
        (match editing.repeatEnd with
          | none => none
          | some d => if d = "" then none else some d)).2 := by
    unfold handleRepeatEditConfirm
    rw [if_neg (by decide), hsel, hD]
  obtain ⟨added, h1, _, h3⟩ := createRepeatEvents_events tz now stamps
    (deleteEventsByRepeatId s r (some D)).2
    { editing with repeatId := some now.toNat, date := some D }
    (match selected.repeatType with
      | none => "weekly"
      | some t => if t = "" then "weekly" else t)
    (match editing.repeatEnd with
      | none => none
      | some d => if d = "" then none else some d)
  have hlast : (deleteEventsByRepeatId s r (some D)).2.lastRepeatId = s.lastRepeatId := rfl
  rw [hlast] at h3
  rw [hdel] at h1
  rw [hres, h1]
  refine ⟨?_, ?_, added, rfl, fun x hx => ⟨h3 x hx, by omega⟩⟩
  · intro e he hr hlt
    apply List.mem_append_left
    rw [List.mem_filter]
    refine ⟨he, ?_⟩
    cases hdt : e.date with
    | none => rw [hdt] at hlt; simp [dateLt] at hlt
    | some x =>
      rw [hdt] at hlt
      simp only [dateLt] at hlt
      simp [dateGe, hlt]
  · intro e he hr
    rcases List.mem_append.mp he with h | h
    · obtain ⟨h0, hf⟩ := List.mem_filter.mp h
      refine ⟨h0, ?_⟩
      have hd := hdated e h0 hr
      cases hdt : e.date with
      | none => exact absurd hdt hd
      | some x =>
        rw [hdt] at hf
        simpa [hr, dateGe, dateLt] using hf
    · have := h3 e h
      rw [hr] at this
      simp only [Option.some.injEq] at this
      omega

end CuteCalender

namespace CuteCalender

/-! ## `createRepeatEvents` resolves -/

theorem addEvent_auto_ok (c u : String) (s : Store) (e : Event) (hk : KeysBelow s)
    (ht : titleBlank e.title = false) (hid : e.id = none) :
    ∃ st s1, addEvent true c u s e = (Except.ok st, s1) ∧ KeysBelow s1 := by
  have hany : (s.persisted.any fun x => x.id == some s.keyGen) = false := by
    rw [List.any_eq_false]
    intro x hx
    obtain ⟨k, hk1, hk2⟩ := hk x hx
    rw [hk1]
    simp only [beq_iff_eq, Option.some.injEq]
    omega
  refine ⟨{ e with createdAt := some c, updatedAt := some u, id := some s.keyGen },
    emit { s with
      persisted := insertByKey
        { e with createdAt := some c, updatedAt := some u, id := some s.keyGen } s.persisted
      keyGen := s.keyGen + 1
      events := s.events ++
        [{ e with createdAt := some c, updatedAt := some u, id := some s.keyGen }] }
      (Notification.eventAdded
        { e with createdAt := some c, updatedAt := some u, id := some s.keyGen }), ?_, ?_⟩
  · unfold addEvent
    simp only [ht, hid, hany, Bool.false_eq_true, if_false, Bool.not_true, le_refl, if_true]
  · intro x hx
    rcases (mem_insertByKey _ x s.persisted).mp hx with rfl | hx
    · exact ⟨s.keyGen, rfl, Nat.lt_succ_self _⟩
    · obtain ⟨k, hk1, hk2⟩ := hk x hx
      exact ⟨k, hk1, Nat.lt_succ_of_lt hk2⟩

theorem addAll_ok (stamps : Nat → String × String) (k : Nat) (s : Store) (l : List Event)
    (hk : KeysBelow s) (hl : ∀ e ∈ l, titleBlank e.title = false ∧ e.id = none) :
    ∃ s', addAll stamps k s l = (Except.ok (), s') := by
  induction l generalizing k s with
  | nil => exact ⟨s, rfl⟩
  | cons e es ih =>
    obtain ⟨st, s1, h1, hk1⟩ := addEvent_auto_ok (stamps k).1 (stamps k).2 s e hk
      (hl e (List.mem_cons_self _ _)).1 (hl e (List.mem_cons_self _ _)).2
    obtain ⟨s', h2⟩ := ih (k + 1) s1 hk1 (fun x hx => hl x (List.mem_cons_of_mem _ hx))
    refine ⟨s', ?_⟩
    unfold addAll
    rw [h1]
    exact h2

/-- When the title of the base event is not blank, `createRepeatEvents`
resolves with the array built by its loop. -/
theorem createRepeatEvents_resolves (tz now : Int) (stamps : Nat → String × String) (s : Store)
    (base : Event) (ty : String) (endDate : Option String) (hk : KeysBelow s)
    (ht : titleBlank base.title = false) :
    ∃ s', createRepeatEvents tz now stamps s base ty endDate =
      (Except.ok (repeatInstances tz now base ty endDate (s.lastRepeatId.getD 0 + 1)), s') := by
  obtain ⟨s2, h2⟩ := addAll_ok stamps 0
    { s with lastRepeatId := some (s.lastRepeatId.getD 0 + 1) }
    (repeatInstances tz now base ty endDate (s.lastRepeatId.getD 0 + 1)) hk (by
      intro e he
      unfold repeatInstances at he
      obtain ⟨t, _, rfl⟩ := List.mem_map.mp he
      exact ⟨ht, rfl⟩)
  refine ⟨emit s2 (Notification.repeatEventsCreated (s.lastRepeatId.getD 0 + 1)
    (repeatInstances tz now base ty endDate (s.lastRepeatId.getD 0 + 1)) ty endDate), ?_⟩
  unfold createRepeatEvents getNextRepeatId
  dsimp only
  rw [h2]

end CuteCalender

namespace CuteCalender

/-! ## The number of generated instances -/

theorem addAll_ok_length (stamps : Nat → String × String) (k : Nat) (s : Store)
    (l : List Event) (u : Unit) (s' : Store) (h : addAll stamps k s l = (Except.ok u, s')) :
    s'.events.length = s.events.length + l.length := by
  induction l generalizing k s with
  | nil =>
    simp only [addAll, Prod.mk.injEq] at h
    rw [← h.2]; rfl
  | cons e es ih =>
    unfold addAll at h
    cases hres : addEvent true (stamps k).1 (stamps k).2 s e with
    | mk r s1 =>
      rw [hres] at h
      cases r with
      | error err => simp at h
      | ok st =>
        obtain ⟨_, _, _, hev, _, _, _⟩ := addEvent_ok _ _ _ _ _ _ _ hres
        have := ih (k + 1) s1 h
        rw [this, hev]
        simp only [List.length_append, List.length_cons, List.length_nil]
        omega

theorem createRepeatEvents_ok_length (tz now : Int) (stamps : Nat → String × String)
    (s : Store) (base : Event) (ty : String) (endDate : Option String) (evs : List Event)
    (s' : Store) (h : createRepeatEvents tz now stamps s base ty endDate = (Except.ok evs, s')) :
    s'.events.length = s.events.length + evs.length := by
  unfold createRepeatEvents getNextRepeatId at h
  dsimp only at h
  cases hres : addAll stamps 0 { s with lastRepeatId := some (s.lastRepeatId.getD 0 + 1) }
    (repeatInstances tz now base ty endDate (s.lastRepeatId.getD 0 + 1)) with
  | mk r s2 =>
    rw [hres] at h
    cases r with
    | error err => simp at h
    | ok u =>
      simp only [Prod.mk.injEq, Except.ok.injEq] at h
      obtain ⟨h1, h2⟩ := h
      subst h1 h2
      exact addAll_ok_length stamps 0
        { s with lastRepeatId := some (s.lastRepeatId.getD 0 + 1) } _ u s2 hres

/-- C2: the array generated by `createRepeatEvents` has at most 1000 elements,
and its length is the smaller of 1000 and the number of rule dates from the
origin that are not after the horizon (no instance at all when the origin or
the horizon is not a valid date); the cache grows by that many records. -/
theorem createRepeatEvents_count (tz now : Int) (stamps : Nat → String × String) (s : Store)
    (base : Event) (ty : String) (endDate : Option String) (evs : List Event) (s' : Store)
    (h : createRepeatEvents tz now stamps s base ty endDate = (Except.ok evs, s')) :
    evs.length ≤ 1000 ∧
    s'.events.length = s.events.length + evs.length ∧
    (evs.length : ℕ∞) =
      match newDate base.date, repeatHorizon tz now endDate with
      | some t0, some endT => min 1000 (Set.encard {k | ruleDate tz ty t0 k ≤ endT})
      | _, _ => 0 := by
  have hgrow := createRepeatEvents_ok_length tz now stamps s base ty endDate evs s' h
  have he := createRepeatEvents_ok tz now stamps s base ty endDate evs s' h
  subst he
  refine ⟨?_, hgrow, ?_⟩
  all_goals rw [repeatInstances_length]
  all_goals unfold repeatTimes
  · cases h1 : newDate base.date with
    | none => simp
    | some t0 =>
      cases h2 : repeatHorizon tz now endDate with
      | none => simp
      | some endT => exact repeatLoop_length_le tz ty endT maxEvents t0
  · cases h1 : newDate base.date with
    | none => simp
    | some t0 =>
      cases h2 : repeatHorizon tz now endDate with
      | none => simp
      | some endT =>
        simp only []
        have := repeatLoop_count tz ty endT maxEvents t0
        simpa [maxEvents] using this

theorem createRepeatEvents_count_witness :
    (returned (createRepeatEvents 0 0 (fixedClock "2024-01-01T09:00:00.000Z") {} standup
      "weekly" (some "2024-01-22"))).length = 4 ∧
    weeklyStore.events.length = 4 ∧
    ((4 : Nat) : ℕ∞) =
      min 1000 (Set.encard {k | ruleDate 0 "weekly" 1704067200000 k ≤ 1705881600000}) := by
  have h := createRepeatEvents_count 0 0 (fixedClock "2024-01-01T09:00:00.000Z") {} standup
    "weekly" (some "2024-01-22")
    (returned (createRepeatEvents 0 0 (fixedClock "2024-01-01T09:00:00.000Z") {} standup
      "weekly" (some "2024-01-22")))
    (createRepeatEvents 0 0 (fixedClock "2024-01-01T09:00:00.000Z") {} standup
      "weekly" (some "2024-01-22")).2 rfl
  have e1 : newDate standup.date = some 1704067200000 := by decide
  have e2 : repeatHorizon 0 0 (some "2024-01-22") = some 1705881600000 := by decide
  have e3 : (returned (createRepeatEvents 0 0 (fixedClock "2024-01-01T09:00:00.000Z") {} standup
      "weekly" (some "2024-01-22"))).length = 4 := by decide
  rw [e1, e2, e3] at h
  exact ⟨e3, by decide, h.2.2⟩

end CuteCalender

namespace CuteCalender

/-! ## The representative instances of `renderTodoList` -/

theorem head_orderedInsert {α : Type} (r : α → α → Prop) [DecidableRel r] (a : α)
    (l : List α) :
    (l.orderedInsert r a).head? =
      match l.head? with
      | none => some a
      | some b => if r a b then some a else some b := by
  cases l with
  | nil => rfl
  | cons b t =>
    simp only [List.orderedInsert, List.head?_cons]
    split_ifs <;> rfl

/-- The head of the stable sort is the element found by `firstBy`. -/
theorem head_insertionSort {α : Type} (r : α → α → Prop) [DecidableRel r] (l : List α) :
    (l.insertionSort r).head? = firstBy r l := by
  induction l with
  | nil => rfl
  | cons a t ih =>
    rw [List.insertionSort, head_orderedInsert, ih]
    rfl

/-- When the order is that of a numeric key, `firstBy` finds the first element
of least key. -/
theorem firstBy_spec {α : Type} (r : α → α → Prop) [DecidableRel r] (key : α → Int)
    (l : List α) (hr : ∀ a ∈ l, ∀ b ∈ l, r a b ↔ key a ≤ key b) (hne : l ≠ []) :
    ∃ rep pre post, firstBy r l = some rep ∧ l = pre ++ rep :: post ∧
      (∀ c ∈ pre, key rep < key c) ∧ (∀ c ∈ post, key rep ≤ key c) := by
  induction l with
  | nil => exact absurd rfl hne
  | cons a t ih =>
    by_cases ht : t = []
    · subst ht
      exact ⟨a, [], [], rfl, rfl, by simp, by simp⟩
    · have hr' : ∀ x ∈ t, ∀ y ∈ t, r x y ↔ key x ≤ key y := fun x hx y hy =>
        hr x (List.mem_cons_of_mem _ hx) y (List.mem_cons_of_mem _ hy)
      obtain ⟨h, pre, post, hf, hl, hpre, hpost⟩ := ih hr' ht
      have hmem : h ∈ t := by rw [hl]; simp
      by_cases hah : r a h
      · refine ⟨a, [], t, ?_, rfl, by simp, ?_⟩
        · simp only [firstBy, hf, if_pos hah]
        · have h1 : key a ≤ key h :=
            (hr a (List.mem_cons_self _ _) h (List.mem_cons_of_mem _ hmem)).mp hah
          intro c hc
          rw [hl] at hc
          rcases List.mem_append.mp hc with hc | hc
          · exact le_trans h1 (le_of_lt (hpre c hc))
          · rcases List.mem_cons.mp hc with rfl | hc
            · exact h1
            · exact le_trans h1 (hpost c hc)
      · refine ⟨h, a :: pre, post, ?_, by rw [hl]; rfl, ?_, hpost⟩
        · simp only [firstBy, hf, if_neg hah]
        · have h1 : ¬ key a ≤ key h := fun hle =>
            hah ((hr a (List.mem_cons_self _ _) h (List.mem_cons_of_mem _ hmem)).mpr hle)
          intro c hc
          rcases List.mem_cons.mp hc with rfl | hc
          · exact not_le.mp h1
          · exact hpre c hc

theorem representative_eq (today : Int) (group : List Event) :
    representative today group = firstBy (nearer today) (candidates group) := by
  unfold representative candidates sortByDistance
  by_cases h : (group.filter fun e => !e.completed) = []
  · simp only [h, List.length_nil, gt_iff_lt, lt_self_iff_false, if_false, if_true]
    exact head_insertionSort _ _
  · have hlen : (group.filter fun e => !e.completed).length > 0 :=
      List.length_pos.mpr h
    simp only [hlen, if_true, h, if_false]
    exact head_insertionSort _ _

theorem firstBy_mem {α : Type} (r : α → α → Prop) [DecidableRel r] (l : List α) (x : α)
    (h : firstBy r l = some x) : x ∈ l := by
  induction l generalizing x with
  | nil => simp [firstBy] at h
  | cons a t ih =>
    unfold firstBy at h
    cases hf : firstBy r t with
    | none =>
      rw [hf] at h
      simp only [Option.some.injEq] at h
      subst h
      exact List.mem_cons_self _ _
    | some y =>
      rw [hf] at h
      dsimp only at h
      split_ifs at h
      · simp only [Option.some.injEq] at h
        subst h
        exact List.mem_cons_self _ _
      · simp only [Option.some.injEq] at h
        subst h
        exact List.mem_cons_of_mem _ (ih y hf)

theorem firstBy_isSome {α : Type} (r : α → α → Prop) [DecidableRel r] (l : List α)
    (hne : l ≠ []) : ∃ x, firstBy r l = some x := by
  cases l with
  | nil => exact absurd rfl hne
  | cons a t =>
    unfold firstBy
    cases firstBy r t with
    | none => exact ⟨a, rfl⟩
    | some y =>
      dsimp only
      split_ifs
      · exact ⟨a, rfl⟩
      · exact ⟨y, rfl⟩

theorem candidates_subset (group : List Event) : ∀ e ∈ candidates group, e ∈ group := by
  intro e he
  unfold candidates at he
  split_ifs at he
  · exact he
  · exact (List.mem_filter.mp he).1

theorem candidates_ne_nil (group : List Event) (h : group ≠ []) : candidates group ≠ [] := by
  unfold candidates
  split_ifs with h1
  · exact h
  · exact h1

theorem mem_repeatGroup (allEvents : List Event) (r : Nat) (e : Event) :
    e ∈ repeatGroup allEvents r ↔
      e ∈ allEvents ∧ titleBlank e.title = false ∧ e.repeatId = some r := by
  unfold repeatGroup
  rw [List.mem_filter, List.mem_filter]
  simp only [Bool.not_eq_true', beq_iff_eq, and_assoc]

theorem mem_repeatKeys (allEvents : List Event) (r : Nat) :
    r ∈ repeatKeys (allEvents.filter fun e => !titleBlank e.title) ↔
      0 < r ∧ ∃ e ∈ allEvents, titleBlank e.title = false ∧ e.repeatId = some r := by
  unfold repeatKeys
  rw [List.mem_insertionSort, List.mem_dedup, List.mem_map]
  constructor
  · rintro ⟨e, he, hk⟩
    obtain ⟨he1, he2⟩ := List.mem_filter.mp he
    obtain ⟨he0, het⟩ := List.mem_filter.mp he1
    unfold isRepeat at he2
    cases hid : e.repeatId with
    | none => rw [hid] at he2; simp at he2
    | some k =>
      rw [hid] at he2 hk
      simp only [Option.getD_some] at hk
      subst hk
      exact ⟨by simpa using he2, e, he0, by simpa using het, hid⟩
  · rintro ⟨hr, e, he0, het, hid⟩
    refine ⟨e, ?_, by rw [hid]; rfl⟩
    rw [List.mem_filter, List.mem_filter]
    refine ⟨⟨he0, by simpa using het⟩, ?_⟩
    unfold isRepeat
    rw [hid]
    simpa using hr

theorem repeatKeys_nodup (l : List Event) : (repeatKeys l).Nodup := by
  unfold repeatKeys
  rw [(List.perm_insertionSort _ _).nodup_iff]
  exact List.nodup_dedup _

/-- The representative part of the selection, read off by repeat id. -/
theorem mem_todoSelection_repeat (tz now : Int) (allEvents : List Event) (rep : Event) (r : Nat)
    (hr : 0 < r) (hid : rep.repeatId = some r) :
    rep ∈ todoSelection tz now allEvents ↔
      representative (setHoursZero tz now) (repeatGroup allEvents r) = some rep := by
  unfold todoSelection
  simp only [List.mem_append, List.mem_filterMap]
  constructor
  · rintro (h | ⟨k, hk, hrep⟩)
    · have := (List.mem_filter.mp h).2
      unfold isRepeat at this
      rw [hid] at this
      simp at this
      omega
    · have hmem : rep ∈ repeatGroup allEvents k := by
        apply candidates_subset
        apply firstBy_mem (nearer (setHoursZero tz now))
        rw [← representative_eq]
        exact hrep
      have hk2 := ((mem_repeatGroup allEvents k rep).mp hmem).2.2
      rw [hid] at hk2
      simp only [Option.some.injEq] at hk2
      subst hk2
      exact hrep
  · intro hrep
    right
    refine ⟨r, ?_, hrep⟩
    have hmem : rep ∈ repeatGroup allEvents r := by
      apply candidates_subset
      apply firstBy_mem (nearer (setHoursZero tz now))
      rw [← representative_eq]
      exact hrep
    obtain ⟨h0, ht, _⟩ := (mem_repeatGroup allEvents r rep).mp hmem
    exact (mem_repeatKeys allEvents r).mpr ⟨hr, rep, h0, ht, hid⟩

theorem representative_repeatId (today : Int) (allEvents : List Event) (k : Nat) (e : Event)
    (h : representative today (repeatGroup allEvents k) = some e) :
    e ∈ allEvents ∧ titleBlank e.title = false ∧ e.repeatId = some k := by
  apply (mem_repeatGroup allEvents k e).mp
  apply candidates_subset
  apply firstBy_mem (nearer today)
  rw [← representative_eq]
  exact h

theorem filter_filterMap_of_not_mem (ks : List Nat) (f : Nat → Option Event) (r : Nat)
    (hkey : ∀ k e, f k = some e → e.repeatId = some k) (hr : r ∉ ks) :
    (ks.filterMap f).filter (fun e => e.repeatId == some r) = [] := by
  rw [List.filter_eq_nil_iff]
  intro e he
  obtain ⟨k, hk, hfk⟩ := List.mem_filterMap.mp he
  rw [hkey k e hfk]
  simp only [beq_iff_eq, Option.some.injEq]
  intro hkr
  exact hr (hkr ▸ hk)

theorem filter_filterMap_unique (ks : List Nat) (f : Nat → Option Event) (r : Nat)
    (hnd : ks.Nodup) (hkey : ∀ k e, f k = some e → e.repeatId = some k) (hr : r ∈ ks)
    (hsome : ∃ x, f r = some x) :
    ((ks.filterMap f).filter (fun e => e.repeatId == some r)).length = 1 := by
  induction ks with
  | nil => simp at hr
  | cons k t ih =>
    obtain ⟨hkt, hnt⟩ := List.nodup_cons.mp hnd
    by_cases hkr : k = r
    · subst hkr
      obtain ⟨x, hx⟩ := hsome
      rw [List.filterMap_cons, hx]
      have hxr := hkey k x hx
      rw [List.filter_cons_of_pos (by simpa using hxr),
        filter_filterMap_of_not_mem t f k hkey hkt]
      rfl
    · have hrt : r ∈ t := by
        rcases List.mem_cons.mp hr with h | h
        · exact absurd h.symm hkr
        · exact h
      rw [List.filterMap_cons]
      cases hfk : f k with
      | none => exact ih hnt hrt
      | some e =>
        have her := hkey k e hfk
        dsimp only
        rw [List.filter_cons_of_neg]
        · exact ih hnt hrt
        · rw [her]
          simpa using hkr

/-- C9: the selection of `renderTodoList` holds exactly one record for every
positive repeat id that has a member with a non-blank title, holds every
record that has no positive repeat id and a non-blank title as often as the
event set does, and holds nothing else: each of its records is a record of the
event set with a non-blank title. -/
theorem todoSelection_one_per_group (tz now : Int) (allEvents : List Event) :
    (∀ r, 0 < r → (∃ e ∈ allEvents, titleBlank e.title = false ∧ e.repeatId = some r) →
      ((todoSelection tz now allEvents).filter (fun e => e.repeatId == some r)).length = 1) ∧
    (∀ e, isRepeat e = false → titleBlank e.title = false →
      (todoSelection tz now allEvents).count e = allEvents.count e) ∧
    (∀ e ∈ todoSelection tz now allEvents, e ∈ allEvents ∧ titleBlank e.title = false) := by
  have hkey : ∀ k e, representative (setHoursZero tz now)
      ((allEvents.filter fun e => !titleBlank e.title).filter fun e => e.repeatId == some k)
        = some e → e.repeatId = some k := fun k e h =>
    (representative_repeatId (setHoursZero tz now) allEvents k e h).2.2
  refine ⟨?_, ?_, ?_⟩
  · intro r hr hex
    unfold todoSelection
    dsimp only
    rw [List.filter_append]
    have hA : ((allEvents.filter fun e => !titleBlank e.title).filter
        (fun e => !isRepeat e)).filter (fun e => e.repeatId == some r) = [] := by
      rw [List.filter_eq_nil_iff]
      intro e he
      have h1 := (List.mem_filter.mp he).2
      intro h2
      simp only [beq_iff_eq] at h2
      unfold isRepeat at h1
      rw [h2] at h1
      simp at h1
      omega
    rw [hA, List.nil_append]
    apply filter_filterMap_unique _ _ r (repeatKeys_nodup _) hkey
    · exact (mem_repeatKeys allEvents r).mpr ⟨hr, hex⟩
    · obtain ⟨e, he, ht, hid⟩ := hex
      have hg : repeatGroup allEvents r ≠ [] := by
        intro hnil
        have := (mem_repeatGroup allEvents r e).mpr ⟨he, ht, hid⟩
        rw [hnil] at this
        simp at this
      have := firstBy_isSome (nearer (setHoursZero tz now)) _ (candidates_ne_nil _ hg)
      rw [← representative_eq] at this
      exact this
  · intro e hnr ht
    unfold todoSelection
    dsimp only
    rw [List.count_append]
    have hB : List.count e ((repeatKeys (allEvents.filter fun e => !titleBlank e.title)).filterMap
        fun r => representative (setHoursZero tz now)
          ((allEvents.filter fun e => !titleBlank e.title).filter
            fun e => e.repeatId == some r)) = 0 := by
      rw [List.count_eq_zero]
      intro hmem
      obtain ⟨k, hk, hfk⟩ := List.mem_filterMap.mp hmem
      have hk0 := ((mem_repeatKeys allEvents k).mp hk).1
      have hid := hkey k e hfk
      unfold isRepeat at hnr
      rw [hid] at hnr
      simp at hnr
      omega
    rw [hB, add_zero, List.count_filter (by simpa using hnr),
      List.count_filter (by simpa using ht)]
  · intro e he
    unfold todoSelection at he
    dsimp only at he
    rcases List.mem_append.mp he with h | h
    · have h1 := List.mem_filter.mp (List.mem_filter.mp h).1
      exact ⟨h1.1, by simpa using h1.2⟩
    · obtain ⟨k, _, hfk⟩ := List.mem_filterMap.mp h
      have := representative_repeatId (setHoursZero tz now) allEvents k e hfk
      exact ⟨this.1, this.2.1⟩

/-- The record that the selection holds for a repeat group, in terms of the
sort key of the code: it lies among the candidates of the group (the
incomplete titled members if there are any, all titled members otherwise), so
it is incomplete whenever the group has an incomplete member; its key
`|new Date(date) - today|` is strictly smaller than that of every candidate
before it in the order of the event set and not larger than that of every
candidate after it.  The key is the distance in days only in a host on UTC
(`dateDiff_utc`). -/
theorem todoSelection_nearest (tz now : Int) (allEvents : List Event) (r : Nat) (rep : Event)
    (hr : 0 < r) (hin : rep ∈ todoSelection tz now allEvents) (hid : rep.repeatId = some r)
    (hdates : ∀ e ∈ repeatGroup allEvents r, dateDiff (setHoursZero tz now) e ≠ none) :
    rep ∈ candidates (repeatGroup allEvents r) ∧
    ((∃ e ∈ repeatGroup allEvents r, e.completed = false) → rep.completed = false) ∧
    ∃ pre post, candidates (repeatGroup allEvents r) = pre ++ rep :: post ∧
      (∀ c ∈ pre, ∀ x y, dateDiff (setHoursZero tz now) rep = some x →
        dateDiff (setHoursZero tz now) c = some y → x < y) ∧
      (∀ c ∈ post, ∀ x y, dateDiff (setHoursZero tz now) rep = some x →
        dateDiff (setHoursZero tz now) c = some y → x ≤ y) := by
  have hrep := (mem_todoSelection_repeat tz now allEvents rep r hr hid).mp hin
  rw [representative_eq] at hrep
  have hmem := firstBy_mem _ _ _ hrep
  have hne : candidates (repeatGroup allEvents r) ≠ [] := by
    intro h; rw [h] at hmem; simp at hmem
  have hrel : ∀ a ∈ candidates (repeatGroup allEvents r),
      ∀ b ∈ candidates (repeatGroup allEvents r),
      nearer (setHoursZero tz now) a b ↔
        (dateDiff (setHoursZero tz now) a).getD 0 ≤ (dateDiff (setHoursZero tz now) b).getD 0 := by
    intro a ha b hb
    have h1 := hdates a (candidates_subset _ a ha)
    have h2 := hdates b (candidates_subset _ b hb)
    unfold nearer
    cases hda : dateDiff (setHoursZero tz now) a with
    | none => exact absurd hda h1
    | some x =>
      cases hdb : dateDiff (setHoursZero tz now) b with
      | none => exact absurd hdb h2
      | some y => simp
  obtain ⟨rep', pre, post, hf, hl, hpre, hpost⟩ :=
    firstBy_spec (nearer (setHoursZero tz now))
      (fun e => (dateDiff (setHoursZero tz now) e).getD 0) _ hrel hne
  rw [hrep] at hf
  simp only [Option.some.injEq] at hf
  subst hf
  refine ⟨hmem, ?_, pre, post, hl, ?_, ?_⟩
  · rintro ⟨e, he, hc⟩
    unfold candidates at hmem
    have hinc : (List.filter (fun e => !e.completed) (repeatGroup allEvents r)) ≠ [] := by
      intro hnil
      have : e ∈ List.filter (fun e => !e.completed) (repeatGroup allEvents r) :=
        List.mem_filter.mpr ⟨he, by simpa using hc⟩
      rw [hnil] at this
      simp at this
    rw [if_neg hinc] at hmem
    simpa using (List.mem_filter.mp hmem).2
  · intro c hc x y hx hy
    have := hpre c hc
    simp only [hx, hy, Option.getD_some] at this
    exact this
  · intro c hc x y hx hy
    have := hpost c hc
    simp only [hx, hy, Option.getD_some] at this
    exact this

theorem todoSelection_nearest_witness :
    todoSelection 0 1704880800000 aroundToday =
      [{ id := some 1, title := some "Gym", date := some "2024-01-11", repeatId := some 1 }] ∧
    candidates (repeatGroup aroundToday 1) =
      [{ id := some 1, title := some "Gym", date := some "2024-01-11", repeatId := some 1 },
       { id := some 2, title := some "Gym", date := some "2024-01-09", repeatId := some 1 }] ∧
    ({ id := some 1, title := some "Gym", date := some "2024-01-11",
       repeatId := some 1 } : Event).completed = false := by
  have h := todoSelection_nearest 0 1704880800000 aroundToday 1
    { id := some 1, title := some "Gym", date := some "2024-01-11", repeatId := some 1 }
    (by decide) (by decide) rfl (by decide)
  exact ⟨by decide, by decide, h.2.1 (by decide)⟩

/-- In a host on UTC the sort key of a record dated on day `D` is its distance
in days to today, in milliseconds. -/
theorem dateDiff_utc (now : Int) (e : Event) (str : String) (D : Int)
    (hd : e.date = some str) (hp : parseISODate str = some (D * msPerDay)) :
    dateDiff (setHoursZero 0 now) e = some (|D - localDay 0 now| * msPerDay) := by
  unfold dateDiff
  rw [hd]
  have hn : newDate (some str) = parseISODate str := rfl
  rw [hn, hp]
  simp only [Option.map_some', Option.some.injEq]
  have h0 : setHoursZero 0 now = localDay 0 now * msPerDay := by
    simp [setHoursZero, fromLocal]
  rw [h0, ← sub_mul, abs_mul]
  congr 1

/-- C10 (code defect): off UTC the representative is not the candidate
nearest to today.  In a host five hours west of UTC, on 2024-01-10, a series
with incomplete instances dated 2024-01-09 and 2024-01-11, in this order, is
shown by the instance of 2024-01-11, although both are one day away and the
instance of 2024-01-09 comes first.  In a host thirteen hours east of UTC, on
2024-01-10, a series with incomplete instances dated 2024-01-10 and
2024-01-09 is shown by the instance of 2024-01-09, although the other one is
dated today.  In a host on UTC the same two event sets are shown by the
instance of 2024-01-09 and by the instance of 2024-01-10. -/
theorem todoSelection_nearest_off_utc :
    getLocalDateString (-300) 1704898800000 = "2024-01-10" ∧
    todoSelection (-300) 1704898800000
      [{ id := some 1, title := some "Gym", date := some "2024-01-09", repeatId := some 1 },
       { id := some 2, title := some "Gym", date := some "2024-01-11", repeatId := some 1 }] =
      [{ id := some 2, title := some "Gym", date := some "2024-01-11", repeatId := some 1 }] ∧
    getLocalDateString 780 1704844800000 = "2024-01-10" ∧
    todoSelection 780 1704844800000
      [{ id := some 1, title := some "Gym", date := some "2024-01-10", repeatId := some 1 },
       { id := some 2, title := some "Gym", date := some "2024-01-09", repeatId := some 1 }] =
      [{ id := some 2, title := some "Gym", date := some "2024-01-09", repeatId := some 1 }] ∧
    todoSelection 0 1704898800000
      [{ id := some 1, title := some "Gym", date := some "2024-01-09", repeatId := some 1 },
       { id := some 2, title := some "Gym", date := some "2024-01-11", repeatId := some 1 }] =
      [{ id := some 1, title := some "Gym", date := some "2024-01-09", repeatId := some 1 }] ∧
    todoSelection 0 1704844800000
      [{ id := some 1, title := some "Gym", date := some "2024-01-10", repeatId := some 1 },
       { id := some 2, title := some "Gym", date := some "2024-01-09", repeatId := some 1 }] =
      [{ id := some 1, title := some "Gym", date := some "2024-01-10", repeatId := some 1 }] := by
  decide


end CuteCalender

namespace CuteCalender

/-! ## `addEvent`, `deleteEvent` and `getUnscheduledEvents` -/

theorem titleBlank_of_whitespace (title : Option String)
    (h : title = none ∨ ∃ t, title = some t ∧ ∀ c ∈ t.data, jsIsWhitespace c = true) :
    titleBlank title = true := by
  rcases h with h | ⟨t, h, hall⟩
  · subst h; rfl
  · subst h
    simp only [titleBlank, List.all_eq_true]
    exact hall

/-- C12: `addEvent` with a title that is missing, empty or made of white space
only rejects with a validation error, whatever the storage would do, and the
state after the call is the state before it: the cache, the object store and
the list of emitted notifications are unchanged. -/
theorem addEvent_blank_title (requestOk : Bool) (createdAt updatedAt : String) (s : Store)
    (eventData : Event)
    (h : eventData.title = none ∨
      ∃ t, eventData.title = some t ∧ ∀ c ∈ t.data, jsIsWhitespace c = true) :
    addEvent requestOk createdAt updatedAt s eventData =
        (Except.error StoreError.validation, s) ∧
    (addEvent requestOk createdAt updatedAt s eventData).2.events = s.events ∧
    (addEvent requestOk createdAt updatedAt s eventData).2.persisted = s.persisted ∧
    (addEvent requestOk createdAt updatedAt s eventData).2.emitted = s.emitted := by
  have hb := titleBlank_of_whitespace eventData.title h
  have he : addEvent requestOk createdAt updatedAt s eventData =
      (Except.error StoreError.validation, s) := by
    unfold addEvent
    rw [if_pos hb]
  rw [he]
  exact ⟨rfl, rfl, rfl, rfl⟩

theorem addEvent_blank_title_witness :
    addEvent true "2024-01-01T09:00:00.000Z" "2024-01-01T09:00:00.000Z" weeklyStore
        { title := some "", date := some "2024-02-01", category := some "work" } =
      (Except.error StoreError.validation, weeklyStore) ∧
    addEvent true "2024-01-01T09:00:00.000Z" "2024-01-01T09:00:00.000Z" weeklyStore
        { title := some " \t", date := some "2024-02-01", category := some "work" } =
      (Except.error StoreError.validation, weeklyStore) ∧
    addEvent true "2024-01-01T09:00:00.000Z" "2024-01-01T09:00:00.000Z" weeklyStore
        { date := some "2024-02-01", category := some "work" } =
      (Except.error StoreError.validation, weeklyStore) :=
  ⟨(addEvent_blank_title true _ _ weeklyStore
      { title := some "", date := some "2024-02-01", category := some "work" }
      (Or.inr ⟨"", rfl, by decide⟩)).1,
   (addEvent_blank_title true _ _ weeklyStore
      { title := some " \t", date := some "2024-02-01", category := some "work" }
      (Or.inr ⟨" \t", rfl, by decide⟩)).1,
   (addEvent_blank_title true _ _ weeklyStore
      { date := some "2024-02-01", category := some "work" } (Or.inl rfl)).1⟩

/-- C13: when `addEvent` resolves, the cache is the cache before with exactly
one record appended at its end; that record has every property of the input
other than `id`, `createdAt` and `updatedAt`, carries an id and the two clock
readings, is the record the call returns, is added to the object store, and
`eventAdded` is emitted once, with that record. -/
theorem addEvent_appends (requestOk : Bool) (createdAt updatedAt : String) (s : Store)
    (eventData stored : Event) (s' : Store)
    (h : addEvent requestOk createdAt updatedAt s eventData = (Except.ok stored, s')) :
    s'.events = s.events ++ [stored] ∧
    s'.persisted.Perm (stored :: s.persisted) ∧
    s'.emitted = s.emitted ++ [Notification.eventAdded stored] ∧
    (∃ k, stored.id = some k) ∧
    stored.createdAt = some createdAt ∧ stored.updatedAt = some updatedAt ∧
    stored.title = eventData.title ∧ stored.date = eventData.date ∧
    stored.time = eventData.time ∧ stored.category = eventData.category ∧
    stored.details = eventData.details ∧ stored.completed = eventData.completed ∧
    stored.isScheduled = eventData.isScheduled ∧ stored.repeatId = eventData.repeatId ∧
    stored.repeatType = eventData.repeatType ∧ stored.repeatEnd = eventData.repeatEnd ∧
    stored.isRepeatInstance = eventData.isRepeatInstance ∧
    stored.originalRepeatId = eventData.originalRepeatId := by
  obtain ⟨_, hst, _, hev, hper, _, hem⟩ :=
    addEvent_ok requestOk createdAt updatedAt s eventData stored s' h
  refine ⟨hev, ?_, hem, ?_⟩
  · rw [hper]; exact insertByKey_perm _ _
  · subst hst
    exact ⟨⟨_, rfl⟩, rfl, rfl, rfl, rfl, rfl, rfl, rfl, rfl, rfl, rfl, rfl, rfl, rfl, rfl⟩

theorem addEvent_appends_witness :
    (addEvent true "2024-02-01T08:00:00.000Z" "2024-02-01T08:00:00.001Z" weeklyStore
        { title := some "Dentist", date := some "2024-02-01", time := some "15:00",
          category := some "personal" }).2.events.map
      (fun e => (e.id, e.title, e.date, e.createdAt)) =
    [(some 1, some "Standup", some "2024-01-01", some "2024-01-01T09:00:00.000Z"),
     (some 2, some "Standup", some "2024-01-08", some "2024-01-01T09:00:00.000Z"),
     (some 3, some "Standup", some "2024-01-15", some "2024-01-01T09:00:00.000Z"),
     (some 4, some "Standup", some "2024-01-22", some "2024-01-01T09:00:00.000Z"),
     (some 5, some "Dentist", some "2024-02-01", some "2024-02-01T08:00:00.000Z")] := by
  have h := addEvent_appends true "2024-02-01T08:00:00.000Z" "2024-02-01T08:00:00.001Z"
    weeklyStore
    { title := some "Dentist", date := some "2024-02-01", time := some "15:00",
      category := some "personal" }
    { id := some 5, title := some "Dentist", date := some "2024-02-01", time := some "15:00",
      category := some "personal", createdAt := some "2024-02-01T08:00:00.000Z",
      updatedAt := some "2024-02-01T08:00:00.001Z" }
    (addEvent true "2024-02-01T08:00:00.000Z" "2024-02-01T08:00:00.001Z" weeklyStore
        { title := some "Dentist", date := some "2024-02-01", time := some "15:00",
          category := some "personal" }).2 rfl
  rw [h.1]
  decide

/-- C17: with a storage request that succeeds, `deleteEvent(id)` resolves with
`id` for every state and every id, stored or not; the cache afterwards is the
cache before without the records whose id is `id`, all others unchanged and in
their order (so it is a sublist), and for an id that no cached record has it
is the cache before.  The object store is treated the same way. -/
theorem deleteEvent_filters (s : Store) (id : Nat) :
    (deleteEvent true s id).1 = Except.ok id ∧
    (deleteEvent true s id).2.events = s.events.filter (fun e => e.id != some id) ∧
    (deleteEvent true s id).2.persisted = s.persisted.filter (fun e => e.id != some id) ∧
    (deleteEvent true s id).2.events.Sublist s.events ∧
    (∀ e, e ∈ (deleteEvent true s id).2.events ↔ e ∈ s.events ∧ e.id ≠ some id) ∧
    ((∀ e ∈ s.events, e.id ≠ some id) → (deleteEvent true s id).2.events = s.events) := by
  have he : (deleteEvent true s id).2.events = s.events.filter (fun e => e.id != some id) := rfl
  refine ⟨rfl, he, rfl, ?_, ?_, ?_⟩
  · rw [he]; exact List.filter_sublist _
  · intro e
    rw [he, List.mem_filter]
    simp
  · intro h
    rw [he, List.filter_eq_self]
    intro e hmem
    simpa using h e hmem

/-- On a consistent store a stored id is the id of exactly one cached record,
so `deleteEvent` shortens the cache by one. -/
theorem deleteEvent_length (s : Store) (id : Nat) (hc : Coherent s)
    (hin : ∃ e ∈ s.events, e.id = some id) :
    (deleteEvent true s id).2.events.length + 1 = s.events.length := by
  obtain ⟨h1, h2, h3⟩ := hc
  have hnd : (s.events.map keyOf).Nodup := (h1.map keyOf).nodup_iff.mpr h2
  have hkey : ∀ e ∈ s.events, e.id = some (keyOf e) := fun e he => h3 e (h1.subset he)
  show (s.events.filter (fun e => e.id != some id)).length + 1 = s.events.length
  generalize s.events = l at hnd hkey hin
  induction l with
  | nil => obtain ⟨e, he, _⟩ := hin; simp at he
  | cons a t ih =>
    rw [List.map_cons, List.nodup_cons] at hnd
    by_cases ha : a.id = some id
    · have hrest : ∀ e ∈ t, e.id ≠ some id := by
        intro e he hid
        apply hnd.1
        have hk : keyOf e = keyOf a := by
          have h1' := hkey e (List.mem_cons_of_mem _ he)
          have h2' := hkey a (List.mem_cons_self _ _)
          rw [hid] at h1'; rw [ha] at h2'
          simp only [Option.some.injEq] at h1' h2'
          rw [← h1', ← h2']
        rw [← hk]
        exact List.mem_map_of_mem keyOf he
      have hf : t.filter (fun e => e.id != some id) = t := by
        rw [List.filter_eq_self]
        intro e he
        simpa using hrest e he
      rw [List.filter_cons_of_neg (by simpa using ha), hf, List.length_cons]
    · have hin' : ∃ e ∈ t, e.id = some id := by
        obtain ⟨e, he, hid⟩ := hin
        rcases List.mem_cons.mp he with rfl | he
        · exact absurd hid ha
        · exact ⟨e, he, hid⟩
      rw [List.filter_cons_of_pos (by simpa using ha), List.length_cons, List.length_cons,
        ih hnd.2 (fun e he => hkey e (List.mem_cons_of_mem _ he)) hin']

/-- C20, as stated, fails: a record with a date and no time is returned by
`getUnscheduledEvents`, although it is not a record without date and time. -/
theorem getUnscheduledEvents_returns_dated :
    getUnscheduledEvents
      { events := [{ id := some 1, title := some "Pay rent", date := some "2024-02-01",
                     category := some "personal" }] } =
      [{ id := some 1, title := some "Pay rent", date := some "2024-02-01",
         category := some "personal" }] ∧
    hasDate { id := some 1, title := some "Pay rent", date := some "2024-02-01",
              category := some "personal" } = true := by decide

/-- C20 (amended): `getUnscheduledEvents` returns exactly the records of the
cache that have no time (the property is missing or the empty string), with
or without a date, each as often as the cache holds it and in cache order. -/
theorem getUnscheduledEvents_no_time (s : Store) :
    (∀ e, e ∈ getUnscheduledEvents s ↔
      e ∈ s.events ∧ (e.time = none ∨ e.time = some "")) ∧
    (getUnscheduledEvents s).Sublist s.events ∧
    (∀ e, (e.time = none ∨ e.time = some "") →
      (getUnscheduledEvents s).count e = s.events.count e) := by
  have hno : ∀ e : Event, (!hasTime e) = true ↔ (e.time = none ∨ e.time = some "") := by
    intro e
    unfold hasTime
    cases e.time with
    | none => simp
    | some t => simp
  refine ⟨?_, List.filter_sublist _, ?_⟩
  · intro e
    unfold getUnscheduledEvents
    rw [List.mem_filter, hno]
  · intro e he
    unfold getUnscheduledEvents
    exact List.count_filter ((hno e).mpr he)

end CuteCalender

namespace CuteCalender

/-! ## What the operations do to the key generator and to the repeat-id counter -/

theorem addEvent_counters (ok : Bool) (c u : String) (s : Store) (d : Event) :
    (addEvent ok c u s d).2.lastRepeatId = s.lastRepeatId ∧
    s.keyGen ≤ (addEvent ok c u s d).2.keyGen := by
  unfold addEvent
  dsimp only
  split_ifs <;> simp [emit]
  omega

theorem addEvent_ok_keyGen (ok : Bool) (c u : String) (s : Store) (d stored : Event)
    (s' : Store) (h : addEvent ok c u s d = (Except.ok stored, s')) :
    keyOf stored < s'.keyGen := by
  unfold addEvent at h
  dsimp only at h
  split_ifs at h with h1 h2 h3 h4
  · simp at h
  · simp at h
  · simp at h
  all_goals
    simp only [Prod.mk.injEq, Except.ok.injEq] at h
    obtain ⟨hs, hs'⟩ := h
    subst hs hs'
    simp only [keyOf, emit, Option.getD_some]
    omega

theorem addAll_counters (stamps : Nat → String × String) (k : Nat) (s : Store)
    (l : List Event) :
    (addAll stamps k s l).2.lastRepeatId = s.lastRepeatId ∧
    s.keyGen ≤ (addAll stamps k s l).2.keyGen := by
  induction l generalizing k s with
  | nil => exact ⟨rfl, le_refl _⟩
  | cons e es ih =>
    unfold addAll
    have h1 := addEvent_counters true (stamps k).1 (stamps k).2 s e
    cases hres : addEvent true (stamps k).1 (stamps k).2 s e with
    | mk r s1 =>
      rw [hres] at h1
      cases r with
      | error err => exact h1
      | ok st =>
        have h2 := ih (k + 1) s1
        exact ⟨h2.1.trans h1.1, le_trans h1.2 h2.2⟩

theorem executeImport_counters (stamps : Nat → String × String) (k : Nat) (s : Store)
    (l : List Event) :
    (executeImport stamps k s l).2.lastRepeatId = s.lastRepeatId ∧
    s.keyGen ≤ (executeImport stamps k s l).2.keyGen := by
  induction l generalizing k s with
  | nil => exact ⟨rfl, le_refl _⟩
  | cons e es ih =>
    unfold executeImport
    have h1 := addEvent_counters true (stamps k).1 (stamps k).2 s { e with id := none }
    cases hres : addEvent true (stamps k).1 (stamps k).2 s { e with id := none } with
    | mk r s1 =>
      rw [hres] at h1
      have h2 := ih (k + 1) s1
      cases r with
      | error err => exact ⟨h2.1.trans h1.1, le_trans h1.2 h2.2⟩
      | ok st => exact ⟨h2.1.trans h1.1, le_trans h1.2 h2.2⟩

theorem createRepeatEvents_counters (tz now : Int) (stamps : Nat → String × String)
    (s : Store) (base : Event) (ty : String) (endDate : Option String) :
    (createRepeatEvents tz now stamps s base ty endDate).2.lastRepeatId =
        some (repeatCounter s + 1) ∧
    s.keyGen ≤ (createRepeatEvents tz now stamps s base ty endDate).2.keyGen := by
  have h := addAll_counters stamps 0 { s with lastRepeatId := some (s.lastRepeatId.getD 0 + 1) }
    (repeatInstances tz now base ty endDate (s.lastRepeatId.getD 0 + 1))
  unfold createRepeatEvents getNextRepeatId repeatCounter
  dsimp only
  cases hres : addAll stamps 0 { s with lastRepeatId := some (s.lastRepeatId.getD 0 + 1) }
    (repeatInstances tz now base ty endDate (s.lastRepeatId.getD 0 + 1)) with
  | mk r s2 =>
    rw [hres] at h
    cases r with
    | error err => exact h
    | ok u => exact h

theorem updateEvent_counters (g p : Bool) (u : String) (s : Store) (id : Nat) (patch : Patch) :
    (updateEvent g p u s id patch).2.lastRepeatId = s.lastRepeatId ∧
    (updateEvent g p u s id patch).2.keyGen = s.keyGen := by
  unfold updateEvent
  split_ifs <;> (try split) <;> exact ⟨rfl, rfl⟩

theorem deleteEvent_counters (ok : Bool) (s : Store) (id : Nat) :
    (deleteEvent ok s id).2.lastRepeatId = s.lastRepeatId ∧
    (deleteEvent ok s id).2.keyGen = s.keyGen := by
  unfold deleteEvent
  split_ifs <;> exact ⟨rfl, rfl⟩

/-- No operation lowers the repeat-id counter or the key generator. -/
theorem run_counters (s : Store) (op : StoreOp) :
    repeatCounter s ≤ repeatCounter (op.run s) ∧ s.keyGen ≤ (op.run s).keyGen := by
  unfold repeatCounter
  cases op with
  | add ok c u e =>
    have h := addEvent_counters ok c u s e
    exact ⟨by rw [StoreOp.run, h.1], h.2⟩
  | update g p u id patch =>
    have h := updateEvent_counters g p u s id patch
    exact ⟨by rw [StoreOp.run, h.1], by rw [StoreOp.run, h.2]⟩
  | delete ok id =>
    have h := deleteEvent_counters ok s id
    exact ⟨by rw [StoreOp.run, h.1], by rw [StoreOp.run, h.2]⟩
  | deleteByRepeatId r d => exact ⟨le_refl _, le_refl _⟩
  | nextRepeatId =>
    refine ⟨?_, le_refl _⟩
    simp [StoreOp.run, getNextRepeatId]
  | createRepeat tz now stamps base ty endDate =>
    have h := createRepeatEvents_counters tz now stamps s base ty endDate
    refine ⟨?_, h.2⟩
    rw [StoreOp.run, h.1]
    simp [repeatCounter]
  | importEvents stamps events =>
    have h := executeImport_counters stamps 0 s events
    exact ⟨by rw [StoreOp.run, h.1], h.2⟩

theorem runOps_counters (s : Store) (ops : List StoreOp) :
    repeatCounter s ≤ repeatCounter (runOps s ops) ∧ s.keyGen ≤ (runOps s ops).keyGen := by
  induction ops generalizing s with
  | nil => exact ⟨le_refl _, le_refl _⟩
  | cons op rest ih =>
    have h1 := run_counters s op
    have h2 := ih (op.run s)
    exact ⟨le_trans h1.1 h2.1, le_trans h1.2 h2.2⟩

/-- C18: `getNextRepeatId` returns the counter `lastRepeatId` plus one, a
positive number, and stores it as the new counter; no store operation lowers
the counter (deleting a series leaves it as it is); hence after any sequence
of operations the next call returns a strictly larger number, and a repeat id
is never handed out twice. -/
theorem getNextRepeatId_increasing (s : Store) (ops : List StoreOp) :
    (getNextRepeatId s).1 = repeatCounter s + 1 ∧
    0 < (getNextRepeatId s).1 ∧
    (getNextRepeatId s).2.lastRepeatId = some (getNextRepeatId s).1 ∧
    (∀ op : StoreOp, repeatCounter s ≤ repeatCounter (op.run s)) ∧
    (∀ r d, (deleteEventsByRepeatId s r d).2.lastRepeatId = s.lastRepeatId) ∧
    (getNextRepeatId s).1 < (getNextRepeatId (runOps (getNextRepeatId s).2 ops)).1 := by
  refine ⟨rfl, Nat.succ_pos _, rfl, fun op => (run_counters s op).1, fun _ _ => rfl, ?_⟩
  have h := (runOps_counters (getNextRepeatId s).2 ops).1
  have h0 : repeatCounter (getNextRepeatId s).2 = repeatCounter s + 1 := rfl
  have h1 : (getNextRepeatId (runOps (getNextRepeatId s).2 ops)).1 =
      repeatCounter (runOps (getNextRepeatId s).2 ops) + 1 := rfl
  have h2 : (getNextRepeatId s).1 = repeatCounter s + 1 := rfl
  omega

end CuteCalender

namespace CuteCalender

/-! ## The ids that `addEvent` assigns -/

/-- C14, as stated, fails: the 'single'-scope edit passes `id: Date.now()` and
the record it creates has that id, not the next key 5 of the key generator;
and an id carried by the input may be the id of a record that was created and
deleted before. -/
theorem addEvent_takes_id_from_input :
    weeklyStore.keyGen = 5 ∧
    ((handleRepeatEditConfirm 0 1704790800000 (fixedClock "2024-01-09T09:00:00.000Z")
        weeklyStore "single"
        { title := some "Standup (moved)", date := some "2024-01-09", category := some "work" }
        { standup with id := some 2, date := some "2024-01-08",
                       repeatId := some 1 }).events.getLast?).map (fun e => e.id) =
      some (some 1704790800000) ∧
    (addEvent true "c" "u" {} { title := some "First", id := some 7 }).2.events.map
      (fun e => (e.id, e.title)) = [(some 7, some "First")] ∧
    (addEvent true "c" "u"
      (deleteEvent true (addEvent true "c" "u" {} { title := some "First", id := some 7 }).2 7).2
      { title := some "Second", id := some 7 }).2.events.map
      (fun e => (e.id, e.title)) = [(some 7, some "Second")] := by decide

/-- C14 (amended): the id of a record created through `addEvent` is the id
carried by the input when it carries one, and the next key of the key
generator otherwise; in both cases no record of the object store has that id
at the time.  When a later `addEvent`, after any sequence of operations,
creates a record from an input without id, the id assigned to it is larger
than the id of the record created earlier, whether that one is still stored
or not. -/
theorem addEvent_id_assignment (ok : Bool) (c u : String) (s : Store) (d stored : Event)
    (s' : Store) (ops : List StoreOp) (ok2 : Bool) (c2 u2 : String) (d2 stored2 : Event)
    (s3 : Store)
    (h : addEvent ok c u s d = (Except.ok stored, s'))
    (h2 : addEvent ok2 c2 u2 (runOps s' ops) d2 = (Except.ok stored2, s3)) :
    (∀ k, d.id = some k → stored.id = some k) ∧
    (d.id = none → stored.id = some s.keyGen) ∧
    (∀ e ∈ s.persisted, e.id ≠ stored.id) ∧
    (∀ e ∈ (runOps s' ops).persisted, e.id ≠ stored2.id) ∧
    (d2.id = none → keyOf stored < keyOf stored2 ∧ stored2.id ≠ stored.id) := by
  obtain ⟨_, hst, hfresh, _, _, _, _⟩ := addEvent_ok ok c u s d stored s' h
  obtain ⟨_, hst2, hfresh2, _, _, _, _⟩ :=
    addEvent_ok ok2 c2 u2 (runOps s' ops) d2 stored2 s3 h2
  have hk := addEvent_ok_keyGen ok c u s d stored s' h
  have hm := (runOps_counters s' ops).2
  refine ⟨?_, ?_, hfresh, hfresh2, ?_⟩
  · intro k hk'
    rw [hst, hk']
  · intro hn
    rw [hst, hn]
  · intro hn
    have hid2 : stored2.id = some (runOps s' ops).keyGen := by rw [hst2, hn]
    have hkey2 : keyOf stored2 = (runOps s' ops).keyGen := by
      unfold keyOf; rw [hid2]; rfl
    have hid1 : stored.id = some (keyOf stored) := by rw [hst]; rfl
    refine ⟨by omega, ?_⟩
    rw [hid2, hid1]
    intro heq
    simp only [Option.some.injEq] at heq
    omega

theorem addEvent_id_assignment_witness :
    (addEvent true "c" "u"
      (runOps (addEvent true "c" "u" weeklyStore { title := some "Dentist" }).2
        [StoreOp.delete true 5])
      { title := some "Haircut" }).2.events.map (fun e => (e.id, e.title)) =
    [(some 1, some "Standup"), (some 2, some "Standup"), (some 3, some "Standup"),
     (some 4, some "Standup"), (some 6, some "Haircut")] ∧
    keyOf { title := some "Dentist", id := some 5, createdAt := some "c",
            updatedAt := some "u" } <
      keyOf { title := some "Haircut", id := some 6, createdAt := some "c",
              updatedAt := some "u" } := by
  have h := addEvent_id_assignment true "c" "u" weeklyStore { title := some "Dentist" }
    { title := some "Dentist", id := some 5, createdAt := some "c", updatedAt := some "u" }
    (addEvent true "c" "u" weeklyStore { title := some "Dentist" }).2
    [StoreOp.delete true 5] true "c" "u" { title := some "Haircut" }
    { title := some "Haircut", id := some 6, createdAt := some "c", updatedAt := some "u" }
    (addEvent true "c" "u"
      (runOps (addEvent true "c" "u" weeklyStore { title := some "Dentist" }).2
        [StoreOp.delete true 5])
      { title := some "Haircut" }).2 rfl rfl
  exact ⟨by decide, (h.2.2.2.2 rfl).1⟩

/-! ## `updateEvent` -/

theorem updateEvent_error (g p : Bool) (u : String) (s : Store) (id : Nat) (patch : Patch)
    (err : StoreError) (h : (updateEvent g p u s id patch).1 = Except.error err) :
    (updateEvent g p u s id patch).2 = s := by
  cases hb : patchTitleBlank patch <;> cases g <;> cases p <;>
    cases hf : s.persisted.find? (fun e => e.id == some id) <;>
    simp [updateEvent, hb, hf] at h ⊢

/-- What a successful `updateEvent` returns and leaves behind. -/
theorem updateEvent_ok (g p : Bool) (u : String) (s : Store) (id : Nat) (patch : Patch)
    (merged : Event) (s' : Store)
    (h : updateEvent g p u s id patch = (Except.ok merged, s')) :
    patchTitleBlank patch = false ∧
    ∃ old, s.persisted.find? (fun e => e.id == some id) = some old ∧
      merged = patch.merge old u ∧
      s' = emit { s with persisted := replaceFirst id merged s.persisted
                         events := replaceFirst id merged s.events }
        (Notification.eventUpdated id merged) := by
  cases hb : patchTitleBlank patch <;> cases g <;> cases p <;>
    cases hf : s.persisted.find? (fun e => e.id == some id) <;>
    simp [updateEvent, hb, hf] at h
  rename_i old
  obtain ⟨hm, hs⟩ := h
  subst hm
  exact ⟨rfl, old, rfl, rfl, hs.symm⟩

/-- C15: with storage requests that succeed, `updateEvent(id, patch)` rejects
exactly when the patch names a title that is missing, empty or white space
only, or the object store has no record with that id; whenever it rejects, for
either reason or because a request fails, the state (cache, object store,
emitted notifications) is the state before the call. -/
theorem updateEvent_rejects_iff (u : String) (s : Store) (id : Nat) (patch : Patch) :
    ((∃ err, (updateEvent true true u s id patch).1 = Except.error err) ↔
      ((∃ t, patch.title = some t ∧ titleBlank t = true) ∨
        ∀ e ∈ s.persisted, e.id ≠ some id)) ∧
    (∀ (getOk putOk : Bool) (err : StoreError),
      (updateEvent getOk putOk u s id patch).1 = Except.error err →
        (updateEvent getOk putOk u s id patch).2 = s ∧
        (updateEvent getOk putOk u s id patch).2.events = s.events ∧
        (updateEvent getOk putOk u s id patch).2.persisted = s.persisted ∧
        (updateEvent getOk putOk u s id patch).2.emitted = s.emitted) := by
  have hblank : patchTitleBlank patch = true ↔ ∃ t, patch.title = some t ∧ titleBlank t = true := by
    unfold patchTitleBlank
    cases patch.title with
    | none => simp
    | some t => simp
  have hfind : s.persisted.find? (fun e => e.id == some id) = none ↔
      ∀ e ∈ s.persisted, e.id ≠ some id := by
    rw [List.find?_eq_none]
    simp
  refine ⟨?_, ?_⟩
  · by_cases hb : patchTitleBlank patch = true
    · constructor
      · intro _; exact Or.inl (hblank.mp hb)
      · intro _
        refine ⟨StoreError.validation, ?_⟩
        unfold updateEvent
        rw [if_pos hb]
    · cases hf : s.persisted.find? (fun e => e.id == some id) with
      | none =>
        constructor
        · intro _; exact Or.inr (hfind.mp hf)
        · intro _
          refine ⟨StoreError.notFound, ?_⟩
          unfold updateEvent
          rw [if_neg hb, if_neg (by decide), hf]
      | some old =>
        have hres : (updateEvent true true u s id patch).1 = Except.ok (patch.merge old u) := by
          unfold updateEvent
          rw [if_neg hb, if_neg (by decide), hf]
          rfl
        constructor
        · rintro ⟨err, herr⟩
          rw [hres] at herr
          exact Except.noConfusion herr
        · rintro (h | h)
          · exact absurd (hblank.mpr h) hb
          · rw [hfind.mpr h] at hf
            exact Option.noConfusion hf
  · intro getOk putOk err herr
    have := updateEvent_error getOk putOk u s id patch err herr
    rw [this]
    exact ⟨rfl, rfl, rfl, rfl⟩

end CuteCalender

namespace CuteCalender

/-! ## The record replaced by `updateEvent` -/

theorem replaceFirst_spec (id : Nat) (updated : Event) (l : List Event)
    (h : ∃ e ∈ l, e.id = some id) :
    ∃ pre old post, l = pre ++ old :: post ∧ old.id = some id ∧
      replaceFirst id updated l = pre ++ updated :: post := by
  induction l with
  | nil => obtain ⟨e, he, _⟩ := h; simp at he
  | cons a t ih =>
    by_cases ha : a.id = some id
    · refine ⟨[], a, t, rfl, ha, ?_⟩
      simp [replaceFirst, ha]
    · have h' : ∃ e ∈ t, e.id = some id := by
        obtain ⟨e, he, hid⟩ := h
        rcases List.mem_cons.mp he with rfl | he
        · exact absurd hid ha
        · exact ⟨e, he, hid⟩
      obtain ⟨pre, old, post, hl, hid, hr⟩ := ih h'
      refine ⟨a :: pre, old, post, by rw [hl]; rfl, hid, ?_⟩
      simp [replaceFirst, ha, hr]

theorem mergedField_getD {α : Type} (patched : Option α) (old : α) :
    MergedField patched old (patched.getD old) := by
  constructor
  · intro v hv; rw [hv]; rfl
  · intro hn; rw [hn]; rfl

/-- Two records of a list with unique keys that carry the same id are the same
record. -/
theorem eq_of_same_id (l : List Event) (hnd : (l.map keyOf).Nodup) (a b : Event)
    (ha : a ∈ l) (hb : b ∈ l) (id : Nat) (hia : a.id = some id) (hib : b.id = some id) :
    a = b := by
  apply List.inj_on_of_nodup_map hnd ha hb
  unfold keyOf
  rw [hia, hib]

/-- C16: when `updateEvent(id, patch)` resolves on a consistent store, the
cache holds at the position of the record `old` with that id, and nowhere
else changed, the merged record, and so does the object store; in the merged
record every property named in the patch has the value of the patch, every
other property has the value of `old`, `updatedAt` is the clock reading, and
`eventUpdated` is emitted with the id and the merged record. -/
theorem updateEvent_replaces (getOk putOk : Bool) (u : String) (s : Store) (id : Nat)
    (patch : Patch) (merged : Event) (s' : Store)
    (h : updateEvent getOk putOk u s id patch = (Except.ok merged, s'))
    (hc : Coherent s) :
    ∃ pre old post, s.events = pre ++ old :: post ∧ old.id = some id ∧
      s'.events = pre ++ merged :: post ∧
      (∃ pre' post', s.persisted = pre' ++ old :: post' ∧
        s'.persisted = pre' ++ merged :: post') ∧
      s'.emitted = s.emitted ++ [Notification.eventUpdated id merged] ∧
      merged.id = some id ∧ merged.createdAt = old.createdAt ∧ merged.updatedAt = some u ∧
      MergedField patch.title old.title merged.title ∧
      MergedField patch.date old.date merged.date ∧
      MergedField patch.time old.time merged.time ∧
      MergedField patch.category old.category merged.category ∧
      MergedField patch.details old.details merged.details ∧
      MergedField patch.completed old.completed merged.completed ∧
      MergedField patch.isScheduled old.isScheduled merged.isScheduled ∧
      MergedField patch.repeatId old.repeatId merged.repeatId ∧
      MergedField patch.repeatType old.repeatType merged.repeatType ∧
      MergedField patch.repeatEnd old.repeatEnd merged.repeatEnd ∧
      MergedField patch.isRepeatInstance old.isRepeatInstance merged.isRepeatInstance ∧
      MergedField patch.originalRepeatId old.originalRepeatId merged.originalRepeatId := by
  obtain ⟨_, old0, hfind, hm, hs'⟩ := updateEvent_ok getOk putOk u s id patch merged s' h
  obtain ⟨h1, h2, h3⟩ := hc
  have hmemP : old0 ∈ s.persisted := List.mem_of_find?_eq_some hfind
  have hid0 : old0.id = some id := by simpa using List.find?_some hfind
  have hmemE : old0 ∈ s.events := h1.symm.subset hmemP
  have hndE : (s.events.map keyOf).Nodup := (h1.map keyOf).nodup_iff.mpr h2
  obtain ⟨pre, old, post, hl, hid, hr⟩ := replaceFirst_spec id merged s.events ⟨old0, hmemE, hid0⟩
  obtain ⟨pre', old', post', hl', hid', hr'⟩ :=
    replaceFirst_spec id merged s.persisted ⟨old0, hmemP, hid0⟩
  have he : old = old0 :=
    eq_of_same_id s.events hndE old old0 (by rw [hl]; simp) hmemE id hid hid0
  have he' : old' = old0 :=
    eq_of_same_id s.persisted h2 old' old0 (by rw [hl']; simp) hmemP id hid' hid0
  rw [he] at hl
  rw [he'] at hl'
  refine ⟨pre, old0, post, hl, hid0, ?_, ⟨pre', post', hl', ?_⟩, ?_, ?_⟩
  · rw [hs']; exact hr
  · rw [hs']; exact hr'
  · rw [hs']; rfl
  · subst hm
    exact ⟨hid0, rfl, rfl, mergedField_getD _ _, mergedField_getD _ _, mergedField_getD _ _,
      mergedField_getD _ _, mergedField_getD _ _, mergedField_getD _ _, mergedField_getD _ _,
      mergedField_getD _ _, mergedField_getD _ _, mergedField_getD _ _, mergedField_getD _ _,
      mergedField_getD _ _⟩

theorem updateEvent_replaces_witness :
    (updateEvent true true "2024-01-08T10:00:00.000Z" weeklyStore 2
      { completed := some true, time := some (some "09:30") }).2.events.map
      (fun e => (e.id, e.date, e.time, e.completed, e.updatedAt)) =
    [(some 1, some "2024-01-01", none, false, some "2024-01-01T09:00:00.000Z"),
     (some 2, some "2024-01-08", some "09:30", true, some "2024-01-08T10:00:00.000Z"),
     (some 3, some "2024-01-15", none, false, some "2024-01-01T09:00:00.000Z"),
     (some 4, some "2024-01-22", none, false, some "2024-01-01T09:00:00.000Z")] := by
  obtain ⟨pre, old, post, _, _, hev, _⟩ := updateEvent_replaces true true
    "2024-01-08T10:00:00.000Z" weeklyStore 2
    { completed := some true, time := some (some "09:30") }
    { standup with
      id := some 2, date := some "2024-01-08", time := some "09:30", completed := true,
      repeatId := some 1, repeatType := some "weekly", isRepeatInstance := some true,
      createdAt := some "2024-01-01T09:00:00.000Z",
      updatedAt := some "2024-01-08T10:00:00.000Z" }
    (updateEvent true true "2024-01-08T10:00:00.000Z" weeklyStore 2
      { completed := some true, time := some (some "09:30") }).2 rfl
    (coherent_createRepeatEvents 0 0 (fixedClock "2024-01-01T09:00:00.000Z") {} standup "weekly"
      (some "2024-01-22") coherent_empty)
  decide

/-! ## The instances of one `createRepeatEvents` call -/

theorem addAll_stored (stamps : Nat → String × String) (k : Nat) (s : Store) (l : List Event) :
    ∃ added, (addAll stamps k s l).2.events = s.events ++ added ∧
      ∀ x ∈ added, ∃ e ∈ l, ∃ key c u,
        x = { e with id := some key, createdAt := some c, updatedAt := some u } := by
  induction l generalizing k s with
  | nil => exact ⟨[], by simp [addAll], by simp⟩
  | cons e es ih =>
    unfold addAll
    cases hres : addEvent true (stamps k).1 (stamps k).2 s e with
    | mk r s1 =>
      cases r with
      | error err =>
        rw [addEvent_error _ _ _ _ _ _ _ hres]
        exact ⟨[], by simp, by simp⟩
      | ok st =>
        obtain ⟨_, hst, _, hev, _, _, _⟩ := addEvent_ok _ _ _ _ _ _ _ hres
        obtain ⟨added, h1, h3⟩ := ih (k + 1) s1
        refine ⟨st :: added, ?_, ?_⟩
        · show (addAll stamps (k + 1) s1 es).2.events = _
          rw [h1, hev, List.append_assoc]
          rfl
        · intro x hx
          rcases List.mem_cons.mp hx with rfl | hx
          · exact ⟨e, List.mem_cons_self _ _, _, _, _, hst⟩
          · obtain ⟨e', he', h'⟩ := h3 x hx
            exact ⟨e', List.mem_cons_of_mem _ he', h'⟩

/-- C19: when `createRepeatEvents` resolves, the repeat id `r` allocated at
the start of the call is the counter plus one, whatever repeat id the base
event carries, and becomes the new counter; every instance of the returned
array and every record the call appended to the cache has the title, time,
category and details of the base event, `isRepeatInstance = true`, the
requested repeat type and the repeat id `r`; the cache gains one record for
each instance. -/
theorem createRepeatEvents_instances (tz now : Int) (stamps : Nat → String × String)
    (s : Store) (base : Event) (ty : String) (endDate : Option String) (evs : List Event)
    (s' : Store)
    (h : createRepeatEvents tz now stamps s base ty endDate = (Except.ok evs, s')) :
    s'.lastRepeatId = some (repeatCounter s + 1) ∧
    (∀ e ∈ evs, InstanceOf base ty (repeatCounter s + 1) e) ∧
    ∃ added, s'.events = s.events ++ added ∧ added.length = evs.length ∧
      ∀ x ∈ added, InstanceOf base ty (repeatCounter s + 1) x := by
  have hlen := createRepeatEvents_ok_length tz now stamps s base ty endDate evs s' h
  have he := createRepeatEvents_ok tz now stamps s base ty endDate evs s' h
  have hcnt := (createRepeatEvents_counters tz now stamps s base ty endDate).1
  rw [h] at hcnt
  have hinst : ∀ e ∈ repeatInstances tz now base ty endDate (repeatCounter s + 1),
      InstanceOf base ty (repeatCounter s + 1) e := by
    intro e hmem
    unfold repeatInstances at hmem
    obtain ⟨t, _, rfl⟩ := List.mem_map.mp hmem
    exact ⟨rfl, rfl, rfl, rfl, rfl, rfl, rfl⟩
  obtain ⟨added, h1, h3⟩ := addAll_stored stamps 0
    { s with lastRepeatId := some (s.lastRepeatId.getD 0 + 1) }
    (repeatInstances tz now base ty endDate (s.lastRepeatId.getD 0 + 1))
  have hev : s'.events = s.events ++ added := by
    have h' := h
    unfold createRepeatEvents getNextRepeatId at h'
    dsimp only at h'
    cases hres : addAll stamps 0 { s with lastRepeatId := some (s.lastRepeatId.getD 0 + 1) }
      (repeatInstances tz now base ty endDate (s.lastRepeatId.getD 0 + 1)) with
    | mk r s2 =>
      rw [hres] at h' h1
      cases r with
      | error err => simp at h'
      | ok u0 =>
        simp only [Prod.mk.injEq, Except.ok.injEq] at h'
        rw [← h'.2]
        exact h1
  refine ⟨hcnt, ?_, added, hev, ?_, ?_⟩
  · rw [he]; exact hinst
  · rw [hev, List.length_append] at hlen
    omega
  · intro x hx
    obtain ⟨e, hmem, key, c, u, hxe⟩ := h3 x hx
    obtain ⟨a1, a2, a3, a4, a5, a6, a7⟩ := hinst e hmem
    subst hxe
    exact ⟨a1, a2, a3, a4, a5, a6, a7⟩

theorem createRepeatEvents_instances_witness :
    weeklyStore.lastRepeatId = some 1 ∧
    weeklyStore.events.map (fun e => (e.title, e.repeatType, e.repeatId)) =
      [(some "Standup", some "weekly", some 1), (some "Standup", some "weekly", some 1),
       (some "Standup", some "weekly", some 1), (some "Standup", some "weekly", some 1)] ∧
    (returned (createRepeatEvents 0 0 (fixedClock "2024-01-01T09:00:00.000Z") {}
      { standup with repeatId := some 99 } "weekly" (some "2024-01-22"))).map
        (fun e => e.repeatId) = [some 1, some 1, some 1, some 1] := by
  have h := createRepeatEvents_instances 0 0 (fixedClock "2024-01-01T09:00:00.000Z") {}
    standup "weekly" (some "2024-01-22")
    (returned (createRepeatEvents 0 0 (fixedClock "2024-01-01T09:00:00.000Z") {} standup
      "weekly" (some "2024-01-22")))
    weeklyStore rfl
  exact ⟨h.1, by decide, by decide⟩

end CuteCalender

namespace CuteCalender

/-! ## The final order of the to-do list -/

/-- A stable insertion sort orders a list whenever the relation is total and
transitive on the elements of the list. -/
theorem pairwise_orderedInsert_on {α : Type} (r : α → α → Prop) [DecidableRel r]
    (P : α → Prop) (htot : ∀ a b, P a → P b → r a b ∨ r b a)
    (htr : ∀ a b c, P a → P b → P c → r a b → r b c → r a c)
    (a : α) (l : List α) (ha : P a) (hP : ∀ x ∈ l, P x) (hl : l.Pairwise r) :
    (l.orderedInsert r a).Pairwise r := by
  induction l with
  | nil => simp
  | cons b t ih =>
    have hb : P b := hP b (List.mem_cons_self _ _)
    have ht : ∀ x ∈ t, P x := fun x hx => hP x (List.mem_cons_of_mem _ hx)
    rw [List.pairwise_cons] at hl
    simp only [List.orderedInsert]
    split_ifs with hab
    · rw [List.pairwise_cons]
      refine ⟨?_, List.pairwise_cons.mpr hl⟩
      intro x hx
      rcases List.mem_cons.mp hx with rfl | hx
      · exact hab
      · exact htr a b x ha hb (ht x hx) hab (hl.1 x hx)
    · rw [List.pairwise_cons]
      refine ⟨?_, ih ht hl.2⟩
      intro x hx
      rcases (List.mem_orderedInsert r).mp hx with rfl | hx
      · rcases htot x b ha hb with h | h
        · exact absurd h hab
        · exact h
      · exact hl.1 x hx

theorem pairwise_insertionSort_on {α : Type} (r : α → α → Prop) [DecidableRel r]
    (P : α → Prop) (htot : ∀ a b, P a → P b → r a b ∨ r b a)
    (htr : ∀ a b c, P a → P b → P c → r a b → r b c → r a c)
    (l : List α) (hP : ∀ x ∈ l, P x) : (l.insertionSort r).Pairwise r := by
  induction l with
  | nil => simp
  | cons a t ih =>
    simp only [List.insertionSort]
    apply pairwise_orderedInsert_on r P htot htr a _ (hP a (List.mem_cons_self _ _))
    · intro x hx
      exact hP x (List.mem_cons_of_mem _ ((List.mem_insertionSort r).mp hx))
    · exact ih (fun x hx => hP x (List.mem_cons_of_mem _ hx))

/-- The comparator of the final sort, for two records with valid dates. -/
theorem todoCompare_le_iff (lc : String → String → Int) (a b : Event)
    (ha : newDate a.date ≠ none) (hb : newDate b.date ≠ none) :
    todoCompare lc a b ≤ 0 ↔
      (hasTime a = false ∧ hasTime b = true) ∨
      (hasTime a = hasTime b ∧
        (dateValue a < dateValue b ∨
          (dateValue a = dateValue b ∧
            (hasTime a = false ∨ lc (a.time.getD "") (b.time.getD "") ≤ 0)))) := by
  unfold todoCompare compareEvents compareDates dateValue
  cases hda : newDate a.date with
  | none => exact absurd hda ha
  | some x =>
    cases hdb : newDate b.date with
    | none => exact absurd hdb hb
    | some y =>
      simp only [Option.getD_some]
      rcases lt_trichotomy x y with hxy | hxy | hxy
      · have h2 : ¬ y < x := by omega
        cases hasTime a <;> cases hasTime b <;> simp [hxy]
      · subst hxy
        cases hasTime a <;> cases hasTime b <;> simp
      · have h2 : ¬ x < y := by omega
        have h3 : ¬ x = y := by omega
        cases hasTime a <;> cases hasTime b <;> simp [hxy, h2, h3]

theorem todoCompare_total (lc : String → String → Int)
    (hlt : ∀ x y, lc x y ≤ 0 ∨ lc y x ≤ 0) (a b : Event)
    (ha : newDate a.date ≠ none) (hb : newDate b.date ≠ none) :
    todoCompare lc a b ≤ 0 ∨ todoCompare lc b a ≤ 0 := by
  rw [todoCompare_le_iff lc a b ha hb, todoCompare_le_iff lc b a hb ha]
  have h1 := hlt (a.time.getD "") (b.time.getD "")
  rcases lt_trichotomy (dateValue a) (dateValue b) with h | h | h
  · cases hasTime a <;> cases hasTime b <;> simp [h]
  · cases hasTime a <;> cases hasTime b <;> simp [h]
    exact h1
  · cases hasTime a <;> cases hasTime b <;> simp [h]

theorem todoCompare_trans (lc : String → String → Int)
    (htr : ∀ x y z, lc x y ≤ 0 → lc y z ≤ 0 → lc x z ≤ 0) (a b c : Event)
    (ha : newDate a.date ≠ none) (hb : newDate b.date ≠ none) (hc : newDate c.date ≠ none)
    (hab : todoCompare lc a b ≤ 0) (hbc : todoCompare lc b c ≤ 0) :
    todoCompare lc a c ≤ 0 := by
  rw [todoCompare_le_iff lc a b ha hb] at hab
  rw [todoCompare_le_iff lc b c hb hc] at hbc
  rw [todoCompare_le_iff lc a c ha hc]
  have h1 := htr (a.time.getD "") (b.time.getD "") (c.time.getD "")
  rcases hab with ⟨ha1, hb1⟩ | ⟨hab1, hab2⟩
  · rcases hbc with ⟨hb2, _⟩ | ⟨hbc1, _⟩
    · rw [hb1] at hb2; exact absurd hb2 (by decide)
    · left; exact ⟨ha1, by rw [← hbc1]; exact hb1⟩
  · rcases hbc with ⟨hb2, hc2⟩ | ⟨hbc1, hbc2⟩
    · left; exact ⟨by rw [hab1]; exact hb2, hc2⟩
    · right
      refine ⟨hab1.trans hbc1, ?_⟩
      rcases hab2 with h | ⟨he, h⟩
      · rcases hbc2 with h' | ⟨he', _⟩
        · left; omega
        · left; omega
      · rcases hbc2 with h' | ⟨he', h'⟩
        · left; omega
        · right
          refine ⟨he.trans he', ?_⟩
          rcases h with h | h
          · left; exact h
          · rcases h' with h' | h'
            · left; rw [hab1]; exact h'
            · right; exact h1 h h'

theorem todoOrdered_of_le (lc : String → String → Int) (a b : Event)
    (ha : newDate a.date ≠ none) (hb : newDate b.date ≠ none)
    (h : todoCompare lc a b ≤ 0) : TodoOrdered lc a b := by
  rw [todoCompare_le_iff lc a b ha hb] at h
  unfold TodoOrdered
  rcases h with ⟨h1, h2⟩ | ⟨h1, h2⟩
  · refine ⟨fun _ => h2, ?_, ?_⟩
    · intro he; rw [h1, h2] at he; exact absurd he (by decide)
    · intro h3; rw [h1] at h3; exact absurd h3 (by decide)
  · refine ⟨fun h3 => by rw [← h1]; exact h3, ?_, ?_⟩
    · intro _
      rcases h2 with h | ⟨h, _⟩ <;> omega
    · intro h3 _ hd
      rcases h2 with h | ⟨_, h | h⟩
      · omega
      · rw [h3] at h; exact absurd h (by decide)
      · exact h

theorem todoSelection_subset (tz now : Int) (allEvents : List Event) :
    ∀ e ∈ todoSelection tz now allEvents, e ∈ allEvents := by
  intro e he
  unfold todoSelection at he
  dsimp only at he
  rcases List.mem_append.mp he with h | h
  · exact (List.mem_filter.mp (List.mem_filter.mp h).1).1
  · obtain ⟨k, _, hfk⟩ := List.mem_filterMap.mp h
    exact (representative_repeatId (setHoursZero tz now) allEvents k e hfk).1

theorem unitsLt_asymm : ∀ x y : List Nat, unitsLt x y = true → unitsLt y x = false
  | [], [], h => by simp [unitsLt] at h
  | [], _ :: _, _ => by simp [unitsLt]
  | _ :: _, [], h => by simp [unitsLt] at h
  | a :: as, b :: bs, h => by
    rcases lt_trichotomy a b with hab | hab | hab
    · simp [unitsLt, hab, Nat.lt_asymm hab]
    · subst hab
      simp only [unitsLt, lt_self_iff_false, if_false] at h ⊢
      exact unitsLt_asymm as bs h
    · simp [unitsLt, hab, Nat.lt_asymm hab] at h

theorem unitsLt_cotrans : ∀ x y z : List Nat, unitsLt x z = true →
    unitsLt x y = true ∨ unitsLt y z = true
  | [], _, [], h => by simp [unitsLt] at h
  | _ :: _, _, [], h => by simp [unitsLt] at h
  | [], [], _ :: _, _ => by simp [unitsLt]
  | [], _ :: _, _ :: _, _ => by simp [unitsLt]
  | _ :: _, [], _ :: _, _ => by simp [unitsLt]
  | a :: as, b :: bs, c :: cs, h => by
    rcases lt_trichotomy a b with hab | hab | hab
    · left; simp [unitsLt, hab]
    · subst hab
      rcases lt_trichotomy a c with hac | hac | hac
      · right; simp [unitsLt, hac]
      · subst hac
        simp only [unitsLt, lt_self_iff_false, if_false] at h ⊢
        exact unitsLt_cotrans as bs cs h
      · simp [unitsLt, hac, Nat.lt_asymm hac] at h
    · rcases lt_trichotomy b c with hbc | hbc | hbc
      · right; simp [unitsLt, hbc]
      · subst hbc
        simp [unitsLt, hab, Nat.lt_asymm hab] at h
      · have hac : c < a := lt_trans hbc hab
        simp [unitsLt, hac, Nat.lt_asymm hac] at h

theorem codeUnitCompare_le_iff (x y : String) :
    codeUnitCompare x y ≤ 0 ↔ jsStrLt y x = false := by
  unfold codeUnitCompare
  cases hxy : jsStrLt x y
  · cases hyx : jsStrLt y x <;> simp
  · have := unitsLt_asymm _ _ hxy
    unfold jsStrLt at hxy ⊢
    simp [hxy, this]

theorem codeUnitCompare_total (x y : String) :
    codeUnitCompare x y ≤ 0 ∨ codeUnitCompare y x ≤ 0 := by
  rw [codeUnitCompare_le_iff, codeUnitCompare_le_iff]
  cases hyx : jsStrLt y x
  · left; rfl
  · right; exact unitsLt_asymm _ _ hyx

theorem codeUnitCompare_trans (x y z : String) (hxy : codeUnitCompare x y ≤ 0)
    (hyz : codeUnitCompare y z ≤ 0) : codeUnitCompare x z ≤ 0 := by
  rw [codeUnitCompare_le_iff] at hxy hyz ⊢
  cases hzx : jsStrLt z x
  · rfl
  · rcases unitsLt_cotrans _ _ _ hzx with h | h
    · exact absurd (show jsStrLt z y = true from h) (by simp [hyz])
    · exact absurd (show jsStrLt y x = true from h) (by simp [hxy])

/-- C11: when every event has a valid date and `localeCompare` is a consistent
comparator (total and transitive), the rendered list is a rearrangement of the
selection in which, for every record `a` that comes before a record `b`: `a`
has a time only if `b` has one, so the records without a time come first;
when both or neither have a time, the date of `a` is not after the date of
`b`; and when both have a time and the same date, the time of `a` is not
after the time of `b` in the order of `localeCompare`. -/
theorem renderTodoList_ordered (tz now : Int) (localeCompare : String → String → Int)
    (allEvents : List Event)
    (htot : ∀ x y, localeCompare x y ≤ 0 ∨ localeCompare y x ≤ 0)
    (htr : ∀ x y z, localeCompare x y ≤ 0 → localeCompare y z ≤ 0 → localeCompare x z ≤ 0)
    (hvalid : ∀ e ∈ allEvents, newDate e.date ≠ none) :
    (renderTodoList tz now localeCompare allEvents).Perm (todoSelection tz now allEvents) ∧
    (renderTodoList tz now localeCompare allEvents).Pairwise (TodoOrdered localeCompare) := by
  have hperm : (renderTodoList tz now localeCompare allEvents).Perm
      (todoSelection tz now allEvents) := List.perm_insertionSort _ _
  refine ⟨hperm, ?_⟩
  have hsel : ∀ e ∈ todoSelection tz now allEvents, newDate e.date ≠ none :=
    fun e he => hvalid e (todoSelection_subset tz now allEvents e he)
  have hpw := pairwise_insertionSort_on
    (fun a b => todoCompare localeCompare a b ≤ 0) (fun e => newDate e.date ≠ none)
    (fun a b ha hb => todoCompare_total localeCompare htot a b ha hb)
    (fun a b c ha hb hc => todoCompare_trans localeCompare htr a b c ha hb hc)
    (todoSelection tz now allEvents) hsel
  have hmem : ∀ e ∈ renderTodoList tz now localeCompare allEvents, newDate e.date ≠ none :=
    fun e he => hsel e (hperm.subset he)
  unfold renderTodoList at hmem ⊢
  refine List.Pairwise.imp_of_mem ?_ hpw
  intro a b ha hb hab
  exact todoOrdered_of_le localeCompare a b (hmem a ha) (hmem b hb) hab

theorem renderTodoList_ordered_witness :
    (∀ e ∈ mixedTodo, newDate e.date ≠ none) ∧
    renderTodoList 0 1704880800000 codeUnitCompare mixedTodo =
      [{ id := some 4, title := some "Laundry", date := some "2024-01-09" },
       { id := some 2, title := some "Groceries", date := some "2024-01-12" },
       { id := some 5, title := some "Dinner", date := some "2024-01-08", time := some "18:00" },
       { id := some 3, title := some "Standup", date := some "2024-01-10", time := some "09:00" },
       { id := some 1, title := some "Review", date := some "2024-01-10",
         time := some "14:00" }] ∧
    (renderTodoList 0 1704880800000 codeUnitCompare mixedTodo).Pairwise
      (TodoOrdered codeUnitCompare) :=
  ⟨by decide, by decide,
    (renderTodoList_ordered 0 1704880800000 codeUnitCompare mixedTodo codeUnitCompare_total
      codeUnitCompare_trans (by decide)).2⟩

end CuteCalender

namespace CuteCalender

/-! ## Import and export -/

theorem sameSlot_iff (event e : Event) :
    sameSlot event e = true ↔
      e.date = event.date ∧ e.title = event.title ∧ e.time = event.time := by
  simp [sameSlot, and_assoc]

/-- The two arrays of `importData` are the incoming events that have a stored
record in the same slot and the other incoming events, each in input order. -/
theorem classifyImport_spec (cache : List Event) (l : List Event) :
    (classifyImport cache l).1 = l.filter (fun ev => !(cache.any (sameSlot ev))) ∧
    (classifyImport cache l).2.map (fun c => c.imported) =
      l.filter (fun ev => cache.any (sameSlot ev)) ∧
    ∀ c ∈ (classifyImport cache l).2,
      cache.find? (sameSlot c.imported) = some c.existing := by
  induction l with
  | nil => simp [classifyImport]
  | cons ev rest ih =>
    obtain ⟨ih1, ih2, ih3⟩ := ih
    cases hf : cache.find? (sameSlot ev) with
    | none =>
      have hany : cache.any (sameSlot ev) = false := by
        rw [List.find?_eq_none] at hf
        rw [List.any_eq_false]
        exact hf
      simp only [classifyImport, hf, List.filter_cons, hany, Bool.not_false, if_true]
      refine ⟨by rw [ih1], ?_, ih3⟩
      simpa using ih2
    | some ex =>
      have hany : cache.any (sameSlot ev) = true := by
        rw [List.any_eq_true]
        exact ⟨ex, List.mem_of_find?_eq_some hf, List.find?_some hf⟩
      simp only [classifyImport, hf, List.filter_cons, hany, Bool.not_true, if_true]
      refine ⟨by simpa using ih1, by simp [ih2], ?_⟩
      intro c hc
      rcases List.mem_cons.mp hc with rfl | hc
      · exact hf
      · exact ih3 c hc

theorem filter_not_count_add {α : Type} [DecidableEq α] (p : α → Bool) (l : List α) (a : α) :
    (l.filter (fun x => !p x)).count a + (l.filter p).count a = l.count a := by
  induction l with
  | nil => simp
  | cons x t ih =>
    cases hp : p x <;> simp [List.filter_cons, hp, List.count_cons] <;> omega

theorem filter_not_length_add {α : Type} (p : α → Bool) (l : List α) :
    (l.filter (fun x => !p x)).length + (l.filter p).length = l.length := by
  induction l with
  | nil => simp
  | cons x t ih =>
    cases hp : p x <;> simp [List.filter_cons, hp] <;> omega

/-- C21: `importData` leaves the state of the database as it is, and for an
array of incoming events it resolves with `total` equal to their number, with
`eventsToImport` equal to the incoming events that have no stored record of
the same date, title and time, and with `conflicts` pairing, in input order,
each of the other incoming events with the first such record of the cache.
So an incoming event is a conflict exactly when such a record exists, and
every incoming event is in exactly one of the two arrays, as often as it is
in the input. -/
theorem importData_classifies (s : Store) (events : List Event) :
    (importData s (some events)).2 = s ∧
    (importData s none).2 = s ∧
    ∃ r, (importData s (some events)).1 = Except.ok r ∧
      r.total = events.length ∧
      r.eventsToImport = events.filter (fun ev => !(s.events.any (sameSlot ev))) ∧
      r.conflicts.map (fun c => c.imported) =
        events.filter (fun ev => s.events.any (sameSlot ev)) ∧
      (∀ c ∈ r.conflicts, c.existing ∈ s.events ∧
        s.events.find? (sameSlot c.imported) = some c.existing ∧
        c.existing.date = c.imported.date ∧ c.existing.title = c.imported.title ∧
        c.existing.time = c.imported.time) ∧
      (∀ ev ∈ events, (ev ∈ r.conflicts.map (fun c => c.imported) ↔
        ∃ e ∈ s.events, e.date = ev.date ∧ e.title = ev.title ∧ e.time = ev.time)) ∧
      (∀ ev ∈ events, (ev ∈ r.eventsToImport ↔
        ¬ ∃ e ∈ s.events, e.date = ev.date ∧ e.title = ev.title ∧ e.time = ev.time)) ∧
      (∀ ev, r.eventsToImport.count ev + (r.conflicts.map (fun c => c.imported)).count ev =
        events.count ev) ∧
      r.eventsToImport.length + r.conflicts.length = r.total := by
  obtain ⟨h1, h2, h3⟩ := classifyImport_spec s.events events
  have hany : ∀ ev : Event, s.events.any (sameSlot ev) = true ↔
      ∃ e ∈ s.events, e.date = ev.date ∧ e.title = ev.title ∧ e.time = ev.time := by
    intro ev
    rw [List.any_eq_true]
    constructor
    · rintro ⟨e, he, hs⟩
      exact ⟨e, he, (sameSlot_iff ev e).mp hs⟩
    · rintro ⟨e, he, hs⟩
      exact ⟨e, he, (sameSlot_iff ev e).mpr hs⟩
  refine ⟨rfl, rfl, _, rfl, rfl, h1, h2, ?_, ?_, ?_, ?_, ?_⟩
  · intro c hc
    have hf := h3 c hc
    have hs := List.find?_some hf
    exact ⟨List.mem_of_find?_eq_some hf, hf, (sameSlot_iff _ _).mp hs⟩
  · intro ev hev
    show ev ∈ (classifyImport s.events events).2.map (fun c => c.imported) ↔ _
    rw [h2, List.mem_filter, ← hany]
    exact ⟨fun h => h.2, fun h => ⟨hev, h⟩⟩
  · intro ev hev
    show ev ∈ (classifyImport s.events events).1 ↔ _
    rw [h1, List.mem_filter, ← hany]
    simp [hev]
  · intro ev
    show (classifyImport s.events events).1.count ev +
      ((classifyImport s.events events).2.map (fun c => c.imported)).count ev = _
    rw [h1, h2]
    exact filter_not_count_add (fun ev => s.events.any (sameSlot ev)) events ev
  · show (classifyImport s.events events).1.length + (classifyImport s.events events).2.length =
      events.length
    have := filter_not_length_add (fun ev => s.events.any (sameSlot ev)) events
    rw [← h1, ← h2, List.length_map] at this
    exact this

theorem classifyImport_empty_cache (l : List Event) : classifyImport [] l = (l, []) := by
  induction l with
  | nil => rfl
  | cons ev rest ih => simp [classifyImport, ih]

/-- C22: for every state `s`, the events of `exportData()` of `s`, given to
`importData` of a database whose cache holds no event, come back with no
conflict: `eventsToImport` is the exported list of events itself, so it has
its length, `conflicts` is empty and `total` is that length; the importing
database is left as it was. -/
theorem importData_exportData_round_trip (roundPercent : Nat → Nat → Nat) (exportDate : String)
    (s target : Store) (h : target.events = []) :
    (exportData roundPercent exportDate s).events = s.events ∧
    importData target (some (exportData roundPercent exportDate s).events) =
      (Except.ok { eventsToImport := (exportData roundPercent exportDate s).events
                   conflicts := []
                   total := (exportData roundPercent exportDate s).events.length }, target) := by
  refine ⟨rfl, ?_⟩
  simp only [importData, h, classifyImport_empty_cache]

theorem importData_exportData_round_trip_witness :
    ({} : Store).events = [] ∧
    weeklyStore.events.length = 4 ∧
    importData {} (some (exportData (fun c t => (200 * c + t) / (2 * t))
        "2024-02-01T08:00:00.000Z" weeklyStore).events) =
      (Except.ok { eventsToImport := (exportData (fun c t => (200 * c + t) / (2 * t))
                     "2024-02-01T08:00:00.000Z" weeklyStore).events
                   conflicts := []
                   total := (exportData (fun c t => (200 * c + t) / (2 * t))
                     "2024-02-01T08:00:00.000Z" weeklyStore).events.length }, {}) :=
  ⟨rfl, by decide,
    (importData_exportData_round_trip (fun c t => (200 * c + t) / (2 * t))
      "2024-02-01T08:00:00.000Z" weeklyStore {} rfl).2⟩

/-! ## Storage failures -/

/-- C26: when the storage request of `addEvent`, of `deleteEvent`, or one of
the two requests of `updateEvent` fails, the operation rejects and the state
after the call is the state before it, so the cache is the same and nothing
was emitted; conversely a call that changes the cache or emits a
notification is one whose storage requests succeeded. -/
theorem storage_failure_leaves_state (c u : String) (s : Store) (eventData : Event) (id : Nat)
    (updates : Patch) (ok getOk putOk : Bool) :
    ((∃ err, (addEvent false c u s eventData).1 = Except.error err) ∧
      (addEvent false c u s eventData).2 = s) ∧
    ((∃ err, (updateEvent getOk false u s id updates).1 = Except.error err) ∧
      (updateEvent getOk false u s id updates).2 = s) ∧
    ((∃ err, (updateEvent false putOk u s id updates).1 = Except.error err) ∧
      (updateEvent false putOk u s id updates).2 = s) ∧
    deleteEvent false s id = (Except.error StoreError.storage, s) ∧
    (((addEvent ok c u s eventData).2.events ≠ s.events ∨
      (addEvent ok c u s eventData).2.emitted ≠ s.emitted) → ok = true) ∧
    (((updateEvent getOk putOk u s id updates).2.events ≠ s.events ∨
      (updateEvent getOk putOk u s id updates).2.emitted ≠ s.emitted) →
        getOk = true ∧ putOk = true) ∧
    (((deleteEvent ok s id).2.events ≠ s.events ∨
      (deleteEvent ok s id).2.emitted ≠ s.emitted) → ok = true) := by
  have hadd : ∀ b, b = false → (∃ err, (addEvent b c u s eventData).1 = Except.error err) ∧
      (addEvent b c u s eventData).2 = s := by
    intro b hb
    subst hb
    cases ht : titleBlank eventData.title <;> simp [addEvent, ht]
  have hupd : ∀ g p, g = false ∨ p = false →
      (∃ err, (updateEvent g p u s id updates).1 = Except.error err) ∧
      (updateEvent g p u s id updates).2 = s := by
    intro g p hgp
    cases hb : patchTitleBlank updates <;> cases g <;> cases p <;>
      cases hf : s.persisted.find? (fun e => e.id == some id) <;>
      simp [updateEvent, hb, hf] at hgp ⊢
  refine ⟨hadd false rfl, hupd getOk false (Or.inr rfl), hupd false putOk (Or.inl rfl), rfl,
    ?_, ?_, ?_⟩
  · intro h
    cases ok
    · rw [(hadd false rfl).2] at h
      simp at h
    · rfl
  · intro h
    cases getOk
    · rw [(hupd false putOk (Or.inl rfl)).2] at h
      simp at h
    · cases putOk
      · rw [(hupd true false (Or.inr rfl)).2] at h
        simp at h
      · exact ⟨rfl, rfl⟩
  · intro h
    cases ok
    · simp [deleteEvent] at h
    · rfl

/-! ## The frame of `deleteEventsByRepeatId` -/

theorem coherent_weeklyStore : Coherent weeklyStore :=
  coherent_createRepeatEvents 0 0 (fixedClock "2024-01-01T09:00:00.000Z") {} standup "weekly"
    (some "2024-01-22") coherent_empty

theorem inDeleteScope_repeatId (r : Nat) (fromDate : Option String) (e : Event)
    (h : inDeleteScope r fromDate e = true) : e.repeatId = some r := by
  unfold inDeleteScope at h
  simp only [Bool.and_eq_true, beq_iff_eq] at h
  exact h.1

/-- C27: on a consistent store, `deleteEventsByRepeatId(r, fromDate)` leaves
the records whose repeat id is not `r` in the cache, unchanged and in their
order (the cache after the call is a sublist of the cache before);
`deletedCount` is the length of `deletedIds` and the number of records by
which the cache shrinks; and `deletedIds` lists, without repetition, exactly
the ids of the records that were in the cache before and are not after. -/
theorem deleteEventsByRepeatId_frame (s : Store) (r : Nat) (fromDate : Option String)
    (hc : Coherent s) :
    (deleteEventsByRepeatId s r fromDate).2.events.filter (fun e => e.repeatId != some r) =
      s.events.filter (fun e => e.repeatId != some r) ∧
    (deleteEventsByRepeatId s r fromDate).2.events.Sublist s.events ∧
    (∀ e ∈ s.events, e.repeatId ≠ some r → e ∈ (deleteEventsByRepeatId s r fromDate).2.events) ∧
    (deleteEventsByRepeatId s r fromDate).1.1 = (deleteEventsByRepeatId s r fromDate).1.2.length ∧
    (deleteEventsByRepeatId s r fromDate).2.events.length +
      (deleteEventsByRepeatId s r fromDate).1.1 = s.events.length ∧
    (deleteEventsByRepeatId s r fromDate).1.2.Nodup ∧
    (∀ i, i ∈ (deleteEventsByRepeatId s r fromDate).1.2 ↔
      ∃ e ∈ s.events, e ∉ (deleteEventsByRepeatId s r fromDate).2.events ∧ e.id = some i) := by
  have hev := deleteEventsByRepeatId_events s r fromDate hc
  obtain ⟨h1, h2, h3⟩ := hc
  have hcount : (deleteEventsByRepeatId s r fromDate).1.1 =
      (s.persisted.filter (inDeleteScope r fromDate)).length := rfl
  have hids : (deleteEventsByRepeatId s r fromDate).1.2 =
      (s.persisted.filter (inDeleteScope r fromDate)).map keyOf := rfl
  rw [hev, hcount, hids]
  refine ⟨?_, List.filter_sublist _, ?_, ?_, ?_, ?_, ?_⟩
  · rw [List.filter_filter]
    apply List.filter_congr
    intro e _
    cases hs : inDeleteScope r fromDate e
    · simp
    · have := inDeleteScope_repeatId r fromDate e hs
      simp [this]
  · intro e he hne
    rw [List.mem_filter]
    refine ⟨he, ?_⟩
    cases hs : inDeleteScope r fromDate e
    · rfl
    · exact absurd (inDeleteScope_repeatId r fromDate e hs) hne
  · rw [List.length_map]
  · rw [← (h1.filter (inDeleteScope r fromDate)).length_eq]
    exact filter_not_length_add (inDeleteScope r fromDate) s.events
  · exact ((List.filter_sublist _).map keyOf).nodup h2
  · intro i
    simp only [List.mem_map, List.mem_filter]
    constructor
    · rintro ⟨e, ⟨hep, hs⟩, hk⟩
      refine ⟨e, h1.symm.subset hep, ?_, ?_⟩
      · rintro ⟨_, hn⟩
        rw [hs] at hn
        exact absurd hn (by decide)
      · rw [h3 e hep, hk]
    · rintro ⟨e, he, hn, hid⟩
      have hep := h1.subset he
      refine ⟨e, ⟨hep, ?_⟩, ?_⟩
      · cases hs : inDeleteScope r fromDate e
        · exact absurd ⟨he, by rw [hs]; rfl⟩ hn
        · rfl
      · have := h3 e hep
        rw [hid] at this
        simp only [Option.some.injEq] at this
        exact this.symm

theorem deleteEventsByRepeatId_frame_witness :
    (deleteEventsByRepeatId weeklyStore 1 (some "2024-01-15")).1 = (2, [3, 4]) ∧
    weeklyStore.events.length = 4 ∧
    (deleteEventsByRepeatId weeklyStore 1 (some "2024-01-15")).2.events.length + 2 = 4 ∧
    (deleteEventsByRepeatId weeklyStore 1 (some "2024-01-15")).1.1 =
      (deleteEventsByRepeatId weeklyStore 1 (some "2024-01-15")).1.2.length := by
  have h := deleteEventsByRepeatId_frame weeklyStore 1 (some "2024-01-15") coherent_weeklyStore
  exact ⟨by decide, by decide, by decide, h.2.2.2.1⟩

end CuteCalender

namespace CuteCalender


/-! ## The time format -/

theorem mem_run_char (c : Char) (l rest : List Char) :
    rest ∈ (Regex.char c).run l ↔ l = c :: rest := by
  cases l with
  | nil => simp [Regex.run]
  | cons x xs =>
    simp only [Regex.run]
    split_ifs with h
    · subst h; simp [eq_comm]
    · simp [h]

theorem mem_run_range (lo hi : Char) (l rest : List Char) :
    rest ∈ (Regex.range lo hi).run l ↔
      ∃ x, l = x :: rest ∧ lo.toNat ≤ x.toNat ∧ x.toNat ≤ hi.toNat := by
  cases l with
  | nil => simp [Regex.run]
  | cons x xs =>
    simp only [Regex.run]
    split_ifs with h
    · simp only [List.mem_singleton, List.cons.injEq]
      constructor
      · rintro rfl; exact ⟨x, ⟨rfl, rfl⟩, h⟩
      · rintro ⟨y, ⟨_, h2⟩, _⟩; exact h2.symm
    · simp only [List.not_mem_nil, List.cons.injEq, false_iff]
      rintro ⟨y, ⟨rfl, _⟩, hy⟩
      exact h hy

theorem mem_run_seq (a b : Regex) (l rest : List Char) :
    rest ∈ (Regex.seq a b).run l ↔ ∃ mid, mid ∈ a.run l ∧ rest ∈ b.run mid := by
  simp [Regex.run, List.mem_flatMap]

theorem mem_run_alt (a b : Regex) (l rest : List Char) :
    rest ∈ (Regex.alt a b).run l ↔ rest ∈ a.run l ∨ rest ∈ b.run l := by
  simp [Regex.run]

theorem mem_run_opt (a : Regex) (l rest : List Char) :
    rest ∈ (Regex.opt a).run l ↔ rest ∈ a.run l ∨ rest = l := by
  simp [Regex.run]

theorem test_iff (r : Regex) (s : String) : r.test s = true ↔ [] ∈ r.run s.data := by
  unfold Regex.test
  rw [List.any_eq_true]
  constructor
  · rintro ⟨rest, hm, he⟩
    rw [List.isEmpty_iff] at he
    rw [← he]; exact hm
  · intro h
    exact ⟨[], h, rfl⟩

theorem char_eq_two (c : Char) : c = '2' ↔ c.toNat = 50 := by
  constructor
  · rintro rfl; rfl
  · intro h
    rw [← Char.ofNat_toNat c, h]

theorem char_eq_colon (c : Char) : c = ':' ↔ c.toNat = 58 := by
  constructor
  · rintro rfl; rfl
  · intro h
    rw [← Char.ofNat_toNat c, h]

/-- What the expression of `isValidTime` accepts, character by character. -/
theorem timeRegex_accepts (l : List Char) :
    [] ∈ timeRegex.run l ↔
      (∃ h m1 m2, l = [h, ':', m1, m2] ∧ 48 ≤ h.toNat ∧ h.toNat ≤ 57 ∧
        48 ≤ m1.toNat ∧ m1.toNat ≤ 53 ∧ 48 ≤ m2.toNat ∧ m2.toNat ≤ 57) ∨
      (∃ h1 h2 m1 m2, l = [h1, h2, ':', m1, m2] ∧
        ((48 ≤ h1.toNat ∧ h1.toNat ≤ 49 ∧ 48 ≤ h2.toNat ∧ h2.toNat ≤ 57) ∨
          (h1.toNat = 50 ∧ 48 ≤ h2.toNat ∧ h2.toNat ≤ 51)) ∧
        48 ≤ m1.toNat ∧ m1.toNat ≤ 53 ∧ 48 ≤ m2.toNat ∧ m2.toNat ≤ 57) := by
  have e0 : ('0' : Char).toNat = 48 := rfl
  have e1 : ('1' : Char).toNat = 49 := rfl
  have e3 : ('3' : Char).toNat = 51 := rfl
  have e5 : ('5' : Char).toNat = 53 := rfl
  have e9 : ('9' : Char).toNat = 57 := rfl
  unfold timeRegex
  simp only [mem_run_seq, mem_run_alt, mem_run_opt, mem_run_char, mem_run_range, e0, e1, e3, e5,
    e9]
  constructor
  · rintro ⟨mid, hH, mid2, hc, mid3, ⟨x, hx, hx1, hx2⟩, ⟨y, hy, hy1, hy2⟩⟩
    subst hy hx hc
    rcases hH with ⟨m, hm, ⟨z, hz, hz1, hz2⟩⟩ | ⟨m, hm, ⟨z, hz, hz1, hz2⟩⟩
    · subst hz
      rcases hm with ⟨w, hw, hw1, hw2⟩ | hm
      · right
        exact ⟨w, z, x, y, hw, Or.inl ⟨hw1, hw2, hz1, hz2⟩, hx1, hx2, hy1, hy2⟩
      · left
        exact ⟨z, x, y, hm.symm, hz1, hz2, hx1, hx2, hy1, hy2⟩
    · subst hz
      right
      exact ⟨'2', z, x, y, hm, Or.inr ⟨rfl, hz1, hz2⟩, hx1, hx2, hy1, hy2⟩
  · rintro (⟨h, m1, m2, rfl, hh1, hh2, hm1, hm2, hm3, hm4⟩ |
      ⟨h1, h2, m1, m2, rfl, hh, hm1, hm2, hm3, hm4⟩)
    · exact ⟨[':', m1, m2], Or.inl ⟨[h, ':', m1, m2], Or.inr rfl, h, rfl, hh1, hh2⟩,
        [m1, m2], rfl, [m2], ⟨m1, rfl, hm1, hm2⟩, ⟨m2, rfl, hm3, hm4⟩⟩
    · rcases hh with ⟨ha, hb, hc, hd⟩ | ⟨ha, hb, hc⟩
      · exact ⟨[':', m1, m2], Or.inl ⟨[h2, ':', m1, m2], Or.inl ⟨h1, rfl, ha, hb⟩,
          h2, rfl, hc, hd⟩, [m1, m2], rfl, [m2], ⟨m1, rfl, hm1, hm2⟩, ⟨m2, rfl, hm3, hm4⟩⟩
      · have : h1 = '2' := (char_eq_two h1).mpr ha
        subst this
        exact ⟨[':', m1, m2], Or.inr ⟨[h2, ':', m1, m2], rfl, h2, rfl, hb, hc⟩,
          [m1, m2], rfl, [m2], ⟨m1, rfl, hm1, hm2⟩, ⟨m2, rfl, hm3, hm4⟩⟩

/-- C24, as stated, fails: `isValidTime` accepts `9:30` and `0:00`, which have a
one-digit hour and are not of the form `HH:MM`. -/
theorem isValidTime_accepts_one_digit_hour :
    isValidTime "9:30" = true ∧ isHHMM "9:30" = false ∧
    isValidTime "0:00" = true ∧ isHHMM "0:00" = false := by decide

/-- C24 (amended): `isValidTime` accepts exactly the strings made of an hour
of one or two decimal digits with a value from 0 to 23 (so `9:30` and `09:30`
are both accepted), a colon and a minute of two decimal digits from 00 to 59,
and rejects every other string; in particular it accepts every string of the
form `HH:MM` in 24-hour notation. -/
theorem isValidTime_eq (time : String) :
    isValidTime time = (isHHMM time || isHMM time) ∧
    (isHHMM time = true → isValidTime time = true) := by
  have key : isValidTime time = (isHHMM time || isHMM time) := by
    rw [Bool.eq_iff_iff]
    simp only [isValidTime, test_iff, timeRegex_accepts, Bool.or_eq_true]
    unfold isHHMM isHMM
    rcases time.data with _ | ⟨a, _ | ⟨b, _ | ⟨c, _ | ⟨d, _ | ⟨e, _ | ⟨f, rest⟩⟩⟩⟩⟩⟩
    · simp
    · simp
    · simp
    · simp
    · constructor
      · rintro (⟨h, m1, m2, heq, h1, h2, h3, h4, h5, h6⟩ | ⟨h1, h2, m1, m2, heq, _⟩)
        · simp only [List.cons.injEq, and_true] at heq
          obtain ⟨rfl, rfl, rfl, rfl⟩ := heq
          simp only [isDigitChar, decimalValue, List.foldl, Bool.false_eq_true, false_or, Bool.and_eq_true,
            decide_eq_true_eq, beq_self_eq_true, and_true]
          exact ⟨⟨⟨⟨h1, h2⟩, h3, by omega⟩, h5, h6⟩, by omega⟩
        · simp at heq
      · intro h
        simp only [isDigitChar, decimalValue, List.foldl, Bool.false_eq_true, false_or, Bool.and_eq_true,
          decide_eq_true_eq, beq_iff_eq] at h
        obtain ⟨⟨⟨⟨⟨h1, h2⟩, hb⟩, h3, h4⟩, h5, h6⟩, h7⟩ := h
        subst hb
        left
        exact ⟨a, c, d, rfl, h1, h2, h3, by omega, h5, h6⟩
    · constructor
      · rintro (⟨h, m1, m2, heq, _⟩ | ⟨h1, h2, m1, m2, heq, hh, h3, h4, h5, h6⟩)
        · simp at heq
        · simp only [List.cons.injEq, and_true] at heq
          obtain ⟨rfl, rfl, rfl, rfl, rfl⟩ := heq
          simp only [isDigitChar, decimalValue, List.foldl, Bool.false_eq_true, or_false, Bool.and_eq_true,
            decide_eq_true_eq, beq_self_eq_true, and_true]
          rcases hh with ⟨ha, hb, hc, hd⟩ | ⟨ha, hb, hc⟩
          · exact ⟨⟨⟨⟨⟨⟨by omega, by omega⟩, hc, hd⟩, h3, by omega⟩, h5, h6⟩, by omega⟩,
              by omega⟩
          · exact ⟨⟨⟨⟨⟨⟨by omega, by omega⟩, hb, by omega⟩, h3, by omega⟩, h5, h6⟩, by omega⟩,
              by omega⟩
      · intro h
        simp only [isDigitChar, decimalValue, List.foldl, Bool.false_eq_true, or_false, Bool.and_eq_true,
          decide_eq_true_eq, beq_iff_eq] at h
        obtain ⟨⟨⟨⟨⟨⟨⟨h1, h2⟩, h3, h4⟩, hc⟩, h5, h6⟩, h7, h8⟩, h9⟩, h10⟩ := h
        subst hc
        right
        refine ⟨a, b, d, e, rfl, ?_, h5, by omega, h7, h8⟩
        by_cases hlt : a.toNat ≤ 49
        · exact Or.inl ⟨h1, hlt, h3, h4⟩
        · exact Or.inr ⟨by omega, h3, by omega⟩
    · constructor
      · rintro (⟨h, m1, m2, heq, _⟩ | ⟨h1, h2, m1, m2, heq, _⟩)
        · simp at heq
        · simp at heq
      · intro h
        simp at h
  exact ⟨key, fun h => by rw [key, h]; rfl⟩

end CuteCalender

namespace CuteCalender

/-! ## `generateRepeatDates` against `createRepeatEvents` -/

/-- For the four repeat types the step of `generateRepeatDates` is the step of
`createRepeatEvents`. -/
theorem stepUnit_eq_advance (tz : Int) (ty : String)
    (hty : ty = "daily" ∨ ty = "weekly" ∨ ty = "monthly" ∨ ty = "yearly") :
    ∃ info, getRepeatType ty = some info ∧ ∀ cur, stepUnit tz info cur = advance tz ty cur := by
  rcases hty with rfl | rfl | rfl | rfl
  · exact ⟨_, rfl, fun cur => by simp [stepUnit, advance]⟩
  · exact ⟨_, rfl, fun cur => by simp [stepUnit, advance]⟩
  · exact ⟨_, rfl, fun cur => by simp [stepUnit, advance]⟩
  · exact ⟨_, rfl, fun cur => by simp [stepUnit, advance]⟩

/-- The capped loop yields a prefix of what it yields with a higher cap. -/
theorem repeatLoop_take (tz : Int) (ty : String) (endT : Int) (m n : Nat) (hmn : m ≤ n)
    (cur : Int) :
    repeatLoop tz ty endT m cur = (repeatLoop tz ty endT n cur).take m := by
  induction m generalizing n cur with
  | zero => simp [repeatLoop]
  | succ m ih =>
    cases n with
    | zero => omega
    | succ n =>
      simp only [repeatLoop]
      split_ifs with h
      · rw [List.take_succ_cons, ih n (by omega)]
      · simp

/-- With a step that moves the date forward, the loop of `generateRepeatDates`
ends within `end - start + 1` passes, and it yields the dates that the loop of
`createRepeatEvents` yields under a cap that high. -/
theorem generateLoop_eq (tz : Int) (ty : String) (info : RepeatTypeInfo) (endT : Int)
    (hstep : ∀ cur, stepUnit tz info cur = advance tz ty cur)
    (hgt : ∀ cur, cur < advance tz ty cur) (fuel : Nat) (cur : Int)
    (hfuel : (endT - cur + 1).toNat ≤ fuel) :
    generateLoop tz info endT fuel cur =
      some ((repeatLoop tz ty endT fuel cur).map (getLocalDateString tz)) := by
  induction fuel generalizing cur with
  | zero =>
    have : ¬ cur ≤ endT := by omega
    simp [generateLoop, repeatLoop, this]
  | succ fuel ih =>
    simp only [generateLoop, repeatLoop]
    split_ifs with h
    · have hn := hgt cur
      rw [hstep, ih (advance tz ty cur) (by omega)]
      simp
    · simp

/-- Beyond `end - start + 1` a higher cap changes nothing. -/
theorem repeatLoop_stable (tz : Int) (ty : String) (endT : Int)
    (hgt : ∀ cur, cur < advance tz ty cur) (m n : Nat) (cur : Int)
    (hm : (endT - cur + 1).toNat ≤ m) (hn : (endT - cur + 1).toNat ≤ n) :
    repeatLoop tz ty endT m cur = repeatLoop tz ty endT n cur := by
  induction m generalizing n cur with
  | zero =>
    have : ¬ cur ≤ endT := by omega
    cases n <;> simp [repeatLoop, this]
  | succ m ih =>
    cases n with
    | zero =>
      have : ¬ cur ≤ endT := by omega
      simp [repeatLoop, this]
    | succ n =>
      simp only [repeatLoop]
      split_ifs with h
      · have hlt := hgt cur
        rw [ih n (advance tz ty cur) (by omega) (by omega)]
      · rfl

/-- C28: for each of the four repeat types, every start date and every given
end date, `generateRepeatDates` terminates (every bound on its number of
passes from some bound on gives the same list `dates`), and the dates of the
instances that `createRepeatEvents` builds for a base event with that date,
type and end date are the first 1000 of `dates`: the two lists are equal
whenever `dates` has at most 1000 elements, and whenever `createRepeatEvents`
builds fewer than 1000 instances. -/
theorem generateRepeatDates_eq_createRepeatEvents (tz now : Int) (baseEvent : Event)
    (repeatType endDate : String) (repeatId : Nat)
    (hty : repeatType = "daily" ∨ repeatType = "weekly" ∨ repeatType = "monthly" ∨
      repeatType = "yearly")
    (hend : endDate ≠ "") :
    ∃ dates : List String,
      (∃ bound, ∀ fuel, bound ≤ fuel →
        generateRepeatDates tz fuel baseEvent.date repeatType (some endDate) = some dates) ∧
      datesOf (repeatInstances tz now baseEvent repeatType (some endDate) repeatId) =
        (dates.take 1000).map some ∧
      (dates.length ≤ 1000 →
        datesOf (repeatInstances tz now baseEvent repeatType (some endDate) repeatId) =
          dates.map some) ∧
      ((repeatInstances tz now baseEvent repeatType (some endDate) repeatId).length < 1000 →
        datesOf (repeatInstances tz now baseEvent repeatType (some endDate) repeatId) =
          dates.map some) := by
  obtain ⟨info, hinfo, hstep⟩ := stepUnit_eq_advance tz repeatType hty
  have hgt : ∀ cur, cur < advance tz repeatType cur := fun cur => advance_gt tz repeatType cur hty
  have hdates := datesOf_repeatInstances tz now baseEvent repeatType (some endDate) repeatId
  have hhor : repeatHorizon tz now (some endDate) = parseISODate endDate := by
    simp [repeatHorizon, hend]
  have hnew : newDate (some endDate) = parseISODate endDate := rfl
  have main : ∃ dates : List String,
      (∃ bound, ∀ fuel, bound ≤ fuel →
        generateRepeatDates tz fuel baseEvent.date repeatType (some endDate) = some dates) ∧
      datesOf (repeatInstances tz now baseEvent repeatType (some endDate) repeatId) =
        (dates.take 1000).map some := by
    cases hs : newDate baseEvent.date with
    | none =>
      refine ⟨[], ⟨0, fun fuel _ => ?_⟩, ?_⟩
      · simp [generateRepeatDates, hinfo, hs]
      · rw [hdates]
        simp [repeatTimes, hs]
    | some cur =>
      cases he : parseISODate endDate with
      | none =>
        refine ⟨[], ⟨0, fun fuel _ => ?_⟩, ?_⟩
        · simp [generateRepeatDates, hinfo, hs, hnew, he]
        · rw [hdates]
          simp [repeatTimes, hs, hhor, he]
      | some endT =>
        let bound := max (endT - cur + 1).toNat 1000
        refine ⟨(repeatLoop tz repeatType endT bound cur).map (getLocalDateString tz),
          ⟨bound, fun fuel hf => ?_⟩, ?_⟩
        · have hb : (endT - cur + 1).toNat ≤ bound := le_max_left _ _
          simp only [generateRepeatDates, hinfo, hs, hnew, he]
          rw [generateLoop_eq tz repeatType info endT hstep hgt fuel cur (le_trans hb hf),
            repeatLoop_stable tz repeatType endT hgt fuel bound cur (le_trans hb hf) hb]
        · rw [hdates]
          simp only [repeatTimes, hs, hhor, he, maxEvents]
          rw [repeatLoop_take tz repeatType endT 1000 bound (le_max_right _ _) cur,
            ← List.map_take, List.map_map]
          rfl
  obtain ⟨dates, hterm, htake⟩ := main
  refine ⟨dates, hterm, htake, ?_, ?_⟩
  · intro hlen
    rw [htake, List.take_of_length_le hlen]
  · intro hlen
    have hl : (datesOf (repeatInstances tz now baseEvent repeatType (some endDate)
        repeatId)).length < 1000 := by
      unfold datesOf
      rw [List.length_map]
      exact hlen
    rw [htake, List.length_map, List.length_take] at hl
    have : dates.length ≤ 1000 := by omega
    rw [htake, List.take_of_length_le this]

theorem generateRepeatDates_eq_createRepeatEvents_witness :
    generateRepeatDates 0 10 standup.date "weekly" (some "2024-01-22") =
      some ["2024-01-01", "2024-01-08", "2024-01-15", "2024-01-22"] ∧
    datesOf (repeatInstances 0 0 standup "weekly" (some "2024-01-22") 1) =
      [some "2024-01-01", some "2024-01-08", some "2024-01-15", some "2024-01-22"] ∧
    ∃ dates : List String,
      (∃ bound, ∀ fuel, bound ≤ fuel →
        generateRepeatDates 0 fuel standup.date "weekly" (some "2024-01-22") = some dates) ∧
      datesOf (repeatInstances 0 0 standup "weekly" (some "2024-01-22") 1) =
        (dates.take 1000).map some := by
  obtain ⟨dates, h1, h2, _, _⟩ := generateRepeatDates_eq_createRepeatEvents 0 0 standup "weekly"
    "2024-01-22" 1 (Or.inr (Or.inl rfl)) (by decide)
  exact ⟨by decide, by decide, dates, h1, h2⟩

end CuteCalender

namespace CuteCalender

/-! ## Calendar fields of a day given by year, month and day of the month -/

theorem dayFromYear_mono (a b : Int) (h : a ≤ b) : dayFromYear a ≤ dayFromYear b := by
  unfold dayFromYear
  omega

theorem dayFromYear_lt (a b : Int) (h : a < b) : dayFromYear a + 365 ≤ dayFromYear b := by
  have h1 := dayFromYear_succ a
  have h2 := dayFromYear_mono (a + 1) b (by omega)
  rcases leapDay_cases a with h3 | h3 <;> omega

/-- The year of a day that lies within the days of year `y`. -/
theorem yearFromDay_unique (z y : Int) (h1 : dayFromYear y ≤ z) (h2 : z < dayFromYear (y + 1)) :
    yearFromDay z = y := by
  obtain ⟨h3, h4⟩ := yearFromDay_spec z
  by_contra hne
  rcases lt_or_gt_of_ne hne with hlt | hgt
  · have := dayFromYear_mono (yearFromDay z + 1) y (by omega)
    omega
  · have := dayFromYear_mono (y + 1) (yearFromDay z) (by omega)
    omega

theorem makeDay_of_month (y m d : Int) (hm0 : 0 ≤ m) (hm1 : m ≤ 11) :
    makeDay y m d = dayFromYear y + daysBeforeMonth (leapDay y) m + d - 1 := by
  unfold makeDay
  have h1 : m / 12 = 0 := by omega
  have h2 : m % 12 = m := by omega
  simp only [h1, h2, add_zero]

theorem makeDay_month_twelve (y d : Int) :
    makeDay y 12 d = dayFromYear (y + 1) + d - 1 := by
  unfold makeDay
  have h1 : (12 : Int) / 12 = 1 := by norm_num
  have h2 : (12 : Int) % 12 = 0 := by norm_num
  simp only [h1, h2]
  simp [daysBeforeMonth]

/-- The length of a month in days, from the table of `MonthFromTime`. -/
theorem daysInMonth_eq (y m : Int) (hm0 : 0 ≤ m) (hm1 : m ≤ 11) :
    daysInMonth y m =
      (if m = 11 then 365 + leapDay y else daysBeforeMonth (leapDay y) (m + 1)) -
        daysBeforeMonth (leapDay y) m := by
  unfold daysInMonth
  rw [makeDay_of_month y m 1 hm0 hm1]
  by_cases h : m = 11
  · subst h
    rw [if_pos rfl]
    have : (11 : Int) + 1 = 12 := by norm_num
    rw [this, makeDay_month_twelve, dayFromYear_succ]
    omega
  · rw [if_neg h, makeDay_of_month y (m + 1) 1 (by omega) (by omega)]
    omega

/-- The table of `daysBeforeMonth` and the table of `MonthFromTime` agree: day
`d` of month `m` is a day of the year that the table assigns to month `m`. -/
theorem monthOfYearDay_daysBeforeMonth (l m d : Int) (hl : l = 0 ∨ l = 1) (hm0 : 0 ≤ m)
    (hm1 : m ≤ 11) (hd0 : 1 ≤ d)
    (hd1 : d ≤ (if m = 11 then 365 + l else daysBeforeMonth l (m + 1)) - daysBeforeMonth l m) :
    0 ≤ daysBeforeMonth l m ∧ daysBeforeMonth l m + d - 1 < 365 + l ∧
      monthOfYearDay l (daysBeforeMonth l m + d - 1) = m := by
  obtain ⟨v0, v1, v2, v3, v4, v5, v6, v7, v8, v9, v10, v11⟩ := daysBeforeMonth_vals l
  have hcases : m = 0 ∨ m = 1 ∨ m = 2 ∨ m = 3 ∨ m = 4 ∨ m = 5 ∨ m = 6 ∨ m = 7 ∨ m = 8 ∨
      m = 9 ∨ m = 10 ∨ m = 11 := by omega
  have hc := monthOfYearDay_cases l (daysBeforeMonth l m + d - 1)
  rcases hcases with h | h | h | h | h | h | h | h | h | h | h | h <;> subst h <;>
    norm_num at hd1 <;>
    simp only [v0, v1, v2, v3, v4, v5, v6, v7, v8, v9, v10, v11] at hd1 hc ⊢ <;>
    clear v0 v1 v2 v3 v4 v5 v6 v7 v8 v9 v10 v11 <;>
    omega

/-- The ECMAScript calendar fields of the day `makeDay y m d` for a month
0..11 and a day of the month that exists in it: the round trip opposite to
`makeDay_civil`. -/
theorem civil_makeDay (y m d : Int) (hm0 : 0 ≤ m) (hm1 : m ≤ 11) (hd0 : 1 ≤ d)
    (hd1 : d ≤ daysInMonth y m) :
    yearFromDay (makeDay y m d) = y ∧ monthFromDay (makeDay y m d) = m ∧
      dateFromDay (makeDay y m d) = d := by
  have hmk := makeDay_of_month y m d hm0 hm1
  rw [daysInMonth_eq y m hm0 hm1] at hd1
  have hsucc := dayFromYear_succ y
  obtain ⟨hB0, hB1, hB2⟩ :=
    monthOfYearDay_daysBeforeMonth (leapDay y) m d (leapDay_cases y) hm0 hm1 hd0 hd1
  obtain ⟨B, hB⟩ : ∃ B, daysBeforeMonth (leapDay y) m = B := ⟨_, rfl⟩
  rw [hB] at hmk hB0 hB1 hB2
  have hy : yearFromDay (makeDay y m d) = y :=
    yearFromDay_unique _ y (by omega) (by omega)
  have hw : dayWithinYear (makeDay y m d) = B + d - 1 := by
    unfold dayWithinYear
    rw [hy]
    omega
  have hmonth : monthFromDay (makeDay y m d) = m := by
    unfold monthFromDay
    rw [hy, hw]
    exact hB2
  refine ⟨hy, hmonth, ?_⟩
  unfold dateFromDay
  rw [hy, hmonth, hw, hB]
  omega

/-- A date-only string that `new Date` accepts names a month 1..12 and a day
that exists in that month. -/
theorem parseYMD_valid (str : String) (y m d : Int) (hp : parseYMD str = some (y, m, d)) :
    1 ≤ m ∧ m ≤ 12 ∧ 1 ≤ d ∧ d ≤ daysInMonth y (m - 1) := by
  unfold parseYMD at hp
  split at hp
  · split at hp
    · dsimp only at hp
      split_ifs at hp with hc
      simp only [Option.some.injEq, Prod.mk.injEq] at hp
      obtain ⟨rfl, rfl, rfl⟩ := hp
      exact hc
    · exact absurd hp (by simp)
  · exact absurd hp (by simp)

/-- In a host at or east of UTC the local year, month and day of the month of
`new Date(str)` are those that the date-only string `str` names. -/
theorem local_fields_east_of_utc (tz : Int) (str : String) (y m d t0 : Int)
    (hp : parseYMD str = some (y, m, d)) (h0 : parseISODate str = some t0)
    (h1 : 0 ≤ tz) (h2 : tz < 1440) :
    getFullYear tz t0 = y ∧ getMonth tz t0 = m - 1 ∧ getDate tz t0 = d := by
  obtain ⟨hm0, hm1, hd0, hd1⟩ := parseYMD_valid str y m d hp
  have hl := (localDay_parseISODate tz str y m d hp t0 h0).1 h1 h2
  unfold getFullYear getMonth getDate
  rw [hl]
  exact civil_makeDay y (m - 1) d (by omega) (by omega) hd0 hd1

end CuteCalender

namespace CuteCalender

/-! ## `validateEvent` -/

/-- When exactly `validateEvent` reports no error, in a host of zone `tz`. -/
theorem validateEvent_nil_iff (tz : Int) (e : Event) :
    validateEvent tz e = [] ↔
      (titleBlank e.title = false ∧ 2 ≤ jsLength (jsTrim (e.title.getD "")) ∧
        jsLength (jsTrim (e.title.getD "")) ≤ 100) ∧
      (hasDate e = false ∨
        ∃ t, newDate e.date = some t ∧ 1900 ≤ getFullYear tz t ∧ getFullYear tz t ≤ 2100) ∧
      (∃ c, e.category = some c ∧ c ≠ "" ∧ lookupTruthy categoryKeys c = true) ∧
      (hasTime e = false ∨ isValidTime (e.time.getD "") = true) := by
  have ht : (if titleBlank e.title then [ValidationError.titleEmpty]
      else if jsLength (jsTrim (e.title.getD "")) < 2 then [ValidationError.titleTooShort]
      else if jsLength (jsTrim (e.title.getD "")) > 100 then [ValidationError.titleTooLong]
      else []) = [] ↔
      (titleBlank e.title = false ∧ 2 ≤ jsLength (jsTrim (e.title.getD "")) ∧
        jsLength (jsTrim (e.title.getD "")) ≤ 100) := by
    generalize jsLength (jsTrim (e.title.getD "")) = n
    cases titleBlank e.title
    · simp only [Bool.false_eq_true, if_false, true_and]
      split_ifs with h2 h3
      · simp; omega
      · simp; omega
      · simp; omega
    · simp
  have hd : (if hasDate e then
        match newDate e.date with
        | none => [ValidationError.dateInvalid]
        | some date =>
          if getFullYear tz date < 1900 ∨ getFullYear tz date > 2100 then
            [ValidationError.dateOutOfRange] else []
      else []) = [] ↔
      (hasDate e = false ∨
        ∃ t, newDate e.date = some t ∧ 1900 ≤ getFullYear tz t ∧ getFullYear tz t ≤ 2100) := by
    cases hh : hasDate e
    · simp
    · cases hn : newDate e.date with
      | none => simp
      | some t =>
        simp only [if_true, Bool.true_eq_false, false_or, Option.some.injEq, exists_eq_left']
        generalize getFullYear tz t = year
        split_ifs with hy
        · simp; omega
        · simp; omega
  have hcat : (match e.category with
      | none => [ValidationError.categoryEmpty]
      | some category =>
        if category = "" then [ValidationError.categoryEmpty]
        else if !lookupTruthy categoryKeys category then [ValidationError.categoryInvalid]
        else []) = [] ↔
      (∃ c, e.category = some c ∧ c ≠ "" ∧ lookupTruthy categoryKeys c = true) := by
    cases hc : e.category with
    | none => simp
    | some c =>
      simp only [Option.some.injEq, exists_eq_left']
      split_ifs with h1 h2
      · simp [h1]
      · simp at h2; simp [h2]
      · simp at h2; simp [h1, h2]
  have htime : (if hasTime e && !isValidTime (e.time.getD "") then
      [ValidationError.timeInvalid] else []) = [] ↔
      (hasTime e = false ∨ isValidTime (e.time.getD "") = true) := by
    cases hasTime e <;> cases isValidTime (e.time.getD "") <;> simp
  unfold validateEvent
  simp only [List.append_eq_nil]
  exact ⟨fun ⟨⟨⟨a, b⟩, c⟩, d⟩ => ⟨ht.mp a, hd.mp b, hcat.mp c, htime.mp d⟩,
    fun ⟨a, b, c, d⟩ => ⟨⟨⟨ht.mpr a, hd.mpr b⟩, hcat.mpr c⟩, htime.mpr d⟩⟩

/-- In a host at or east of UTC, and for a category that is not the name of a
member of `Object.prototype`, `validateEvent` reports no error exactly when
the trimmed title has 2 to 100 code units, the category is one of the five
keys, the date is absent or a date-only string of an existing day with a year
from 1900 to 2100, and the time is absent or accepted by `isValidTime`. -/
theorem validateEvent_nil_iff_east (tz : Int) (e : Event) (h1 : 0 ≤ tz) (h2 : tz < 1440)
    (hproto : ∀ c, e.category = some c → c ∉ objectPrototypeKeys) :
    validateEvent tz e = [] ↔
      (titleBlank e.title = false ∧ 2 ≤ jsLength (jsTrim (e.title.getD "")) ∧
        jsLength (jsTrim (e.title.getD "")) ≤ 100) ∧
      (hasDate e = false ∨
        ∃ str y m d, e.date = some str ∧ parseYMD str = some (y, m, d) ∧ 1900 ≤ y ∧ y ≤ 2100) ∧
      (∃ c, e.category = some c ∧ c ∈ categoryKeys) ∧
      (hasTime e = false ∨ isValidTime (e.time.getD "") = true) := by
  rw [validateEvent_nil_iff]
  have hdate : (hasDate e = false ∨
        ∃ t, newDate e.date = some t ∧ 1900 ≤ getFullYear tz t ∧ getFullYear tz t ≤ 2100) ↔
      (hasDate e = false ∨
        ∃ str y m d, e.date = some str ∧ parseYMD str = some (y, m, d) ∧ 1900 ≤ y ∧ y ≤ 2100) := by
    cases hh : hasDate e
    · simp
    · simp only [Bool.true_eq_false, false_or]
      cases hd : e.date with
      | none => simp [hasDate, hd] at hh
      | some str =>
        have hn : newDate (some str) = parseISODate str := rfl
        rw [hn]
        constructor
        · rintro ⟨t, ht, hy1, hy2⟩
          cases hp : parseYMD str with
          | none => simp [parseISODate, hp] at ht
          | some ymd =>
            obtain ⟨y, m, d⟩ := ymd
            have := (local_fields_east_of_utc tz str y m d t hp ht h1 h2).1
            rw [this] at hy1 hy2
            exact ⟨str, y, m, d, rfl, hp, hy1, hy2⟩
        · rintro ⟨str2, y, m, d, hs, hp, hy1, hy2⟩
          simp only [Option.some.injEq] at hs
          subst hs
          have ht : parseISODate str = some (makeDay y (m - 1) d * msPerDay) := by
            simp [parseISODate, hp]
          have := (local_fields_east_of_utc tz str y m d _ hp ht h1 h2).1
          exact ⟨_, ht, by rw [this]; exact hy1, by rw [this]; exact hy2⟩
  have hcat : (∃ c, e.category = some c ∧ c ≠ "" ∧ lookupTruthy categoryKeys c = true) ↔
      (∃ c, e.category = some c ∧ c ∈ categoryKeys) := by
    constructor
    · rintro ⟨c, hc, _, hl⟩
      refine ⟨c, hc, ?_⟩
      have hn := hproto c hc
      simp only [lookupTruthy, Bool.or_eq_true] at hl
      rcases hl with hl | hl
      · exact List.mem_of_elem_eq_true hl
      · exact absurd (List.mem_of_elem_eq_true hl) hn
    · rintro ⟨c, hc, hm⟩
      refine ⟨c, hc, ?_, ?_⟩
      · rintro rfl
        exact absurd hm (by decide)
      · simp only [lookupTruthy, Bool.or_eq_true]
        exact Or.inl (List.elem_eq_true_of_mem hm)
  rw [hdate, hcat]

/-- C23 (code defect): `validateEvent` reports no error for the category
`constructor`, which is not one of the five categories but is found by the
property access on the table of categories; and in a host five hours west of
UTC it rejects the date 1900-01-01 and accepts the date 2101-01-01, while a
host on UTC accepts the first and rejects the second. -/
theorem validateEvent_accepts_inherited_category :
    validateEvent 0 { title := some "Party", category := some "constructor" } = [] ∧
    "constructor" ∉ categoryKeys ∧
    validateEvent 0 { title := some "Party", category := some "holiday" } =
      [ValidationError.categoryInvalid] ∧
    validateEvent (-300) { title := some "Party", category := some "work",
                           date := some "1900-01-01" } = [ValidationError.dateOutOfRange] ∧
    validateEvent (-300) { title := some "Party", category := some "work",
                           date := some "2101-01-01" } = [] ∧
    validateEvent 0 { title := some "Party", category := some "work",
                      date := some "1900-01-01" } = [] ∧
    validateEvent 0 { title := some "Party", category := some "work",
                      date := some "2101-01-01" } = [ValidationError.dateOutOfRange] := by
  decide

/-! ## The flag `isScheduled` -/

/-- The flag that `createEvent` sets: true exactly when the data has both a
date and a time, so false for a record without date and without time. -/
theorem createEvent_isScheduled (data e : Event) (h : createEvent data = some e) :
    e.isScheduled = some (hasDate data && hasTime data) ∧
    (e.isScheduled = some true ↔ hasDate data = true ∧ hasTime data = true) ∧
    (e.date = none → e.isScheduled = some false) ∧
    (e.time = none → e.isScheduled = some false) := by
  unfold createEvent at h
  cases ht : data.title with
  | none => rw [ht] at h; exact absurd h (by simp)
  | some title =>
    rw [ht] at h
    simp only [Option.some.injEq] at h
    subst h
    refine ⟨rfl, by simp, ?_, ?_⟩
    · cases hd : hasDate data
      · simp
      · cases hdd : data.date with
        | none => simp [hasDate, hdd] at hd
        | some d => simp [hdd]
    · cases hd : hasTime data
      · simp
      · cases hdd : data.time with
        | none => simp [hasTime, hdd] at hd
        | some d => simp [hdd]

/-- With the box "no schedule" checked, the record of the form has no date,
no time and `isScheduled = false`. -/
theorem submittedEventData_noSchedule (form : EventForm) (h : form.noSchedule = true) :
    (submittedEventData form).date = none ∧ (submittedEventData form).time = none ∧
    (submittedEventData form).isScheduled = some false := by
  simp [submittedEventData, h]

/-- C25 (code defect): the form submitted with the box "no schedule" unchecked
and the date and time fields left empty passes validation and is stored by
`addEvent` as a record without date and without time whose `isScheduled` is
true; `createEvent` gives the same data `isScheduled = false`. -/
theorem handleEventSubmit_unscheduled_marked_scheduled :
    submittedEventData { eventTitle := some "Party", eventDate := some "", eventTime := some "",
                         eventCategory := some "work", eventDetails := some "" } =
      { title := some "Party", date := none, time := none, category := some "work",
        details := some "", completed := false, isScheduled := some true } ∧
    validateEvent 0 (submittedEventData
      { eventTitle := some "Party", eventDate := some "", eventTime := some "",
        eventCategory := some "work", eventDetails := some "" }) = [] ∧
    (handleEventSubmit 0 1704790800000 (fixedClock "2024-01-09T09:00:00.000Z") {}
      { eventTitle := some "Party", eventDate := some "", eventTime := some "",
        eventCategory := some "work", eventDetails := some "" } none).events =
      [{ id := some 1, title := some "Party", date := none, time := none,
         category := some "work", details := some "", isScheduled := some true,
         createdAt := some "2024-01-09T09:00:00.000Z",
         updatedAt := some "2024-01-09T09:00:00.000Z" }] ∧
    (createEvent (submittedEventData
      { eventTitle := some "Party", eventDate := some "", eventTime := some "",
        eventCategory := some "work", eventDetails := some "" })).map (fun e => e.isScheduled) =
      some (some false) := by
  decide

end CuteCalender

namespace CuteCalender

/-! ## Monthly steps and the day of the month -/

theorem daysInMonth_ge (y m : Int) (hm0 : 0 ≤ m) (hm1 : m ≤ 11) : 28 ≤ daysInMonth y m := by
  rw [daysInMonth_eq y m hm0 hm1]
  have hl := leapDay_cases y
  obtain ⟨v0, v1, v2, v3, v4, v5, v6, v7, v8, v9, v10, v11⟩ := daysBeforeMonth_vals (leapDay y)
  have hcases : m = 0 ∨ m = 1 ∨ m = 2 ∨ m = 3 ∨ m = 4 ∨ m = 5 ∨ m = 6 ∨ m = 7 ∨ m = 8 ∨
      m = 9 ∨ m = 10 ∨ m = 11 := by omega
  rcases hcases with h | h | h | h | h | h | h | h | h | h | h | h <;> subst h <;>
    norm_num <;>
    simp only [v0, v1, v2, v3, v4, v5, v6, v7, v8, v9, v10, v11] <;>
    clear v0 v1 v2 v3 v4 v5 v6 v7 v8 v9 v10 v11 <;>
    omega

/-- A monthly step from a day of the month that is at most 28 leads to the
same day of the month in the next calendar month. -/
theorem stepDay_monthly_fields (z : Int) (hd : dateFromDay z ≤ 28) :
    dateFromDay (stepDay "monthly" z) = dateFromDay z ∧
    12 * yearFromDay (stepDay "monthly" z) + monthFromDay (stepDay "monthly" z) =
      12 * yearFromDay z + monthFromDay z + 1 := by
  have hs : stepDay "monthly" z = makeDay (yearFromDay z) (monthFromDay z + 1) (dateFromDay z) := by
    simp [stepDay]
  obtain ⟨hm0, hm1⟩ := monthFromDay_bounds z
  have hpos := dateFromDay_pos z
  rw [hs]
  by_cases h11 : monthFromDay z = 11
  · have hmk : makeDay (yearFromDay z) (monthFromDay z + 1) (dateFromDay z) =
        makeDay (yearFromDay z + 1) 0 (dateFromDay z) := by
      rw [h11]
      have : (11 : Int) + 1 = 12 := by norm_num
      rw [this, makeDay_month_twelve, makeDay_of_month _ 0 _ (le_refl 0) (by norm_num)]
      simp [daysBeforeMonth]
    rw [hmk]
    obtain ⟨c1, c2, c3⟩ := civil_makeDay (yearFromDay z + 1) 0 (dateFromDay z) (le_refl 0)
      (by norm_num) hpos (le_trans hd (daysInMonth_ge _ 0 (le_refl 0) (by norm_num)))
    rw [c1, c2, c3, h11]
    exact ⟨rfl, by ring⟩
  · obtain ⟨c1, c2, c3⟩ := civil_makeDay (yearFromDay z) (monthFromDay z + 1) (dateFromDay z)
      (by omega) (by omega) hpos (le_trans hd (daysInMonth_ge _ _ (by omega) (by omega)))
    rw [c1, c2, c3]
    exact ⟨rfl, by ring⟩

/-- In terms of the local calendar fields of the dates of the loop, in any
zone: when the day of the month of the first date is at most 28, every date
of a monthly expansion has that day of the month, and each date falls in the
calendar month after the month of the date before. -/
theorem repeatLoop_monthly (tz : Int) (endT : Int) (fuel : Nat) (cur : Int)
    (hd : getDate tz cur ≤ 28) :
    (∀ t ∈ repeatLoop tz "monthly" endT fuel cur, getDate tz t = getDate tz cur) ∧
    List.Chain' (fun a b => 12 * getFullYear tz b + getMonth tz b =
      12 * getFullYear tz a + getMonth tz a + 1) (repeatLoop tz "monthly" endT fuel cur) := by
  induction fuel generalizing cur with
  | zero => simp [repeatLoop]
  | succ fuel ih =>
    simp only [repeatLoop]
    split_ifs with hle
    · have hstep := stepDay_monthly_fields (localDay tz cur) hd
      rw [← localDay_advance tz "monthly" cur] at hstep
      have hd' : getDate tz (advance tz "monthly" cur) ≤ 28 := by
        unfold getDate at hd ⊢
        rw [hstep.1]; exact hd
      obtain ⟨ih1, ih2⟩ := ih (advance tz "monthly" cur) hd'
      constructor
      · intro t ht
        rcases List.mem_cons.mp ht with rfl | ht
        · rfl
        · rw [ih1 t ht]
          unfold getDate
          exact hstep.1
      · rw [List.chain'_cons']
        refine ⟨?_, ih2⟩
        intro b hb
        cases fuel with
        | zero => simp [repeatLoop] at hb
        | succ f =>
          simp only [repeatLoop] at hb
          split_ifs at hb
          · simp only [List.head?_cons, Option.mem_def, Option.some.injEq] at hb
            subst hb
            unfold getFullYear getMonth
            exact hstep.2
          · simp at hb
    · simp

/-- In a host at or east of UTC, a monthly expansion from an origin whose day
of the month is at most 28 yields instances that all fall on that day of the
month, in consecutive calendar months. -/
theorem repeatTimes_monthly_east_of_utc (tz now : Int) (origin : String)
    (endDate : Option String) (y m d : Int) (hp : parseYMD origin = some (y, m, d))
    (hd : d ≤ 28) (h1 : 0 ≤ tz) (h2 : tz < 1440) :
    (∀ t ∈ repeatTimes tz now (some origin) "monthly" endDate, getDate tz t = d) ∧
    List.Chain' (fun a b => 12 * getFullYear tz b + getMonth tz b =
      12 * getFullYear tz a + getMonth tz a + 1)
      (repeatTimes tz now (some origin) "monthly" endDate) := by
  have ht0 : parseISODate origin = some (makeDay y (m - 1) d * msPerDay) := by
    simp [parseISODate, hp]
  have hf := (local_fields_east_of_utc tz origin y m d _ hp ht0 h1 h2).2.2
  unfold repeatTimes
  have hn : newDate (some origin) = parseISODate origin := rfl
  rw [hn, ht0]
  cases repeatHorizon tz now endDate with
  | none => simp
  | some endT =>
    obtain ⟨r1, r2⟩ := repeatLoop_monthly tz endT maxEvents (makeDay y (m - 1) d * msPerDay)
      (by rw [hf]; exact hd)
    exact ⟨fun t ht => by rw [r1 t ht, hf], r2⟩

/-- C29 (code defect): in a host five hours west of UTC the monthly expansion
of the origin 2024-02-01, whose day of the month is 1, up to 2024-05-01 is
dated 2024-01-31, 2024-03-02 and 2024-04-02: no instance is on the first of a
month and February is skipped.  In a host on UTC the same call yields the
first of February, March, April and May, and the origin 2024-01-31 rolls over
into March. -/
theorem createRepeatEvents_monthly_west_of_utc :
    datesOf (returned (createRepeatEvents (-300) 0 (fixedClock "2024-01-20T15:00:00.000Z") {}
      { title := some "Rent", date := some "2024-02-01", category := some "personal" }
      "monthly" (some "2024-05-01"))) =
      [some "2024-01-31", some "2024-03-02", some "2024-04-02"] ∧
    datesOf (returned (createRepeatEvents 0 0 (fixedClock "2024-01-20T15:00:00.000Z") {}
      { title := some "Rent", date := some "2024-02-01", category := some "personal" }
      "monthly" (some "2024-05-01"))) =
      [some "2024-02-01", some "2024-03-01", some "2024-04-01", some "2024-05-01"] ∧
    datesOf (returned (createRepeatEvents 0 0 (fixedClock "2024-01-20T15:00:00.000Z") {}
      { title := some "Rent", date := some "2024-01-31", category := some "personal" }
      "monthly" (some "2024-05-01"))) =
      [some "2024-01-31", some "2024-03-02", some "2024-04-02"] := by
  decide

/-! ## A repeat type that the loop does not recognise -/

theorem advance_unrecognised (tz : Int) (ty : String) (cur : Int)
    (hty : ty ≠ "daily" ∧ ty ≠ "weekly" ∧ ty ≠ "monthly" ∧ ty ≠ "yearly") :
    advance tz ty cur = cur := by
  obtain ⟨h1, h2, h3, h4⟩ := hty
  simp [advance, h1, h2, h3, h4]

/-- With an unrecognised repeat type the date never advances: the loop runs
to its cap and yields the first date at every pass. -/
theorem repeatLoop_unrecognised (tz : Int) (ty : String) (endT : Int) (fuel : Nat) (cur : Int)
    (hty : ty ≠ "daily" ∧ ty ≠ "weekly" ∧ ty ≠ "monthly" ∧ ty ≠ "yearly")
    (hle : cur ≤ endT) :
    repeatLoop tz ty endT fuel cur = List.replicate fuel cur := by
  induction fuel with
  | zero => rfl
  | succ fuel ih =>
    simp only [repeatLoop, if_pos hle, advance_unrecognised tz ty cur hty, ih,
      List.replicate_succ]

/-- In any zone, for an unrecognised repeat type and an origin that is not
after the horizon, `createRepeatEvents` builds exactly 1000 instances, all of
them equal: each carries the local date of the origin as the loop reads it.
When the title of the base event is not blank the call resolves with them and
the cache grows by 1000 records. -/
theorem createRepeatEvents_unrecognised (tz now : Int) (stamps : Nat → String × String)
    (s : Store) (baseEvent : Event) (repeatType : String) (endDate : Option String)
    (t0 endT : Int)
    (hty : repeatType ≠ "daily" ∧ repeatType ≠ "weekly" ∧ repeatType ≠ "monthly" ∧
      repeatType ≠ "yearly")
    (h0 : newDate baseEvent.date = some t0) (he : repeatHorizon tz now endDate = some endT)
    (hle : t0 ≤ endT) (hk : KeysBelow s) (ht : titleBlank baseEvent.title = false) :
    repeatInstances tz now baseEvent repeatType endDate (repeatCounter s + 1) =
      List.replicate 1000
        (repeatInstance tz baseEvent (repeatCounter s + 1) repeatType t0) ∧
    (repeatInstance tz baseEvent (repeatCounter s + 1) repeatType t0).date =
      some (getLocalDateString tz t0) ∧
    ∃ s', createRepeatEvents tz now stamps s baseEvent repeatType endDate =
        (Except.ok (List.replicate 1000
          (repeatInstance tz baseEvent (repeatCounter s + 1) repeatType t0)), s') ∧
      s'.events.length = s.events.length + 1000 := by
  have hinst : repeatInstances tz now baseEvent repeatType endDate (repeatCounter s + 1) =
      List.replicate 1000
        (repeatInstance tz baseEvent (repeatCounter s + 1) repeatType t0) := by
    unfold repeatInstances repeatTimes
    rw [h0, he]
    simp only [maxEvents, repeatLoop_unrecognised tz repeatType endT 1000 t0 hty hle,
      List.map_replicate]
  refine ⟨hinst, rfl, ?_⟩
  obtain ⟨s', hs'⟩ := createRepeatEvents_resolves tz now stamps s baseEvent repeatType endDate
    hk ht
  have hlen := createRepeatEvents_ok_length tz now stamps s baseEvent repeatType endDate _ s' hs'
  unfold repeatCounter at hinst ⊢
  rw [hinst] at hs' hlen
  refine ⟨s', hs', ?_⟩
  rw [hlen, List.length_replicate]

theorem keysBelow_empty : KeysBelow {} := by
  intro e he
  simp at he

/-- C30 (code defect): in a host five hours west of UTC, `createRepeatEvents`
for the origin 2024-01-01, the unrecognised repeat type `fortnightly` and the
end date 2024-12-31 resolves with exactly 1000 instances, and every one of
them is dated 2023-12-31, the day before the origin date. -/
theorem createRepeatEvents_unrecognised_west_of_utc :
    (returned (createRepeatEvents (-300) 0 (fixedClock "2024-01-01T15:00:00.000Z") {}
      { title := some "Rent", date := some "2024-01-01", category := some "personal" }
      "fortnightly" (some "2024-12-31"))).length = 1000 ∧
    (∀ e ∈ returned (createRepeatEvents (-300) 0 (fixedClock "2024-01-01T15:00:00.000Z") {}
        { title := some "Rent", date := some "2024-01-01", category := some "personal" }
        "fortnightly" (some "2024-12-31")),
      e.date = some "2023-12-31") ∧
    (createRepeatEvents (-300) 0 (fixedClock "2024-01-01T15:00:00.000Z") {}
      { title := some "Rent", date := some "2024-01-01", category := some "personal" }
      "fortnightly" (some "2024-12-31")).2.events.length = 1000 := by
  obtain ⟨_, hdate, s', hs', hlen⟩ := createRepeatEvents_unrecognised (-300) 0
    (fixedClock "2024-01-01T15:00:00.000Z") {}
    { title := some "Rent", date := some "2024-01-01", category := some "personal" }
    "fortnightly" (some "2024-12-31") 1704067200000 1735603200000
    (by decide) (by decide) (by decide) (by decide) keysBelow_empty (by decide)
  rw [hs']
  refine ⟨?_, ?_, ?_⟩
  · exact List.length_replicate 1000 _
  · intro e he
    have he2 := List.eq_of_mem_replicate he
    rw [he2, hdate]
    decide
  · rw [hlen]; rfl


end CuteCalender
